import Mathlib

/-!
# nemo-qml-plugin-systemsettings: the VPN model

A shallow embedding of `src/src/vpnmodel.cpp` and the properties of it that the
specification states.

Conventions of the embedding:

* `QChar` is a UTF-16 code unit, `QString` a sequence of code units, `QByteArray`
  a sequence of bytes.  A null `QString` and an empty one compare equal in Qt and
  are the same value here.
* `QMap<QString, T>` is an association list kept in ascending key order with
  unique keys; `qmapInsert` is `QMap::insert` (it replaces the value of an
  existing key).
* `QVariant` is the closed set of values that cross the translation boundary.
* File-system outcomes (whether a file could be opened or removed) are explicit
  `Bool` arguments of the operation that performs them.
-/

set_option autoImplicit false

namespace VpnModel

/-! ## Qt value types -/

/-- UTF-16 code unit. -/
abbrev QChar := Fin 65536

/-- Sequence of UTF-16 code units. -/
abbrev QString := List QChar

/-- Octet. -/
abbrev Byte := Fin 256

/-- Sequence of octets. -/
abbrev QByteArray := List Byte

/-- Code unit of a character of the Basic Multilingual Plane. -/
def QChar.ofChar (c : Char) : QChar := ⟨c.toNat % 65536, Nat.mod_lt _ (by decide)⟩

/-- String literal of the source, as a sequence of code units. -/
def QStringLiteral (s : String) : QString := s.toList.map QChar.ofChar

/-- Octet holding the low eight bits of a number. -/
def Byte.ofNat (n : Nat) : Byte := ⟨n % 256, Nat.mod_lt _ (by decide)⟩

/-- Embedding of `QChar::toLower` on the ASCII range. -/
def QChar.toLower (c : QChar) : QChar :=
  if 65 ≤ c.val ∧ c.val ≤ 90 then ⟨(c.val + 32) % 65536, Nat.mod_lt _ (by decide)⟩ else c

/-- Embedding of `QChar::toUpper` on the ASCII range. -/
def QChar.toUpper (c : QChar) : QChar :=
  if 97 ≤ c.val ∧ c.val ≤ 122 then ⟨(c.val - 32) % 65536, Nat.mod_lt _ (by decide)⟩ else c

/-- Embedding of `QString::toLower`. -/
def toLower (s : QString) : QString := s.map QChar.toLower

/-- Embedding of `operator<` of `QString`: code unit by code unit. -/
def qstringLt : QString → QString → Bool
  | [], [] => false
  | [], _ :: _ => true
  | _ :: _, [] => false
  | a :: as, b :: bs => if a < b then true else if b < a then false else qstringLt as bs

/-- Embedding of `QString::lastIndexOf(QChar)` scanning state: the index of the unit looked at
and the last match seen so far. -/
def lastIndexOfFrom (c : QChar) : QString → Nat → Int → Int
  | [], _, found => found
  | x :: xs, i, found => lastIndexOfFrom c xs (i + 1) (if x = c then (i : Int) else found)

/-- Embedding of `QString::lastIndexOf(QChar)`: index of the last occurrence, or -1. -/
def lastIndexOf (s : QString) (c : QChar) : Int := lastIndexOfFrom c s 0 (-1)

/-- Embedding of `QString::indexOf(QChar)`: index of the first occurrence, or -1. -/
def indexOf (s : QString) (c : QChar) : Int :=
  if c ∈ s then (s.indexOf c : Int) else -1

/-- Embedding of `QString::mid(position)`: the text from `position` to the end. -/
def mid (s : QString) (position : Int) : QString :=
  if position > s.length then []
  else if position < 0 then s
  else s.drop position.toNat

/-- Embedding of `QString::startsWith(QChar)`. -/
def startsWith (s : QString) (c : QChar) : Bool :=
  match s with
  | [] => false
  | x :: _ => x == c

/-- Embedding of `QMap::insert`: keeps ascending key order, replaces the value of an equal key. -/
def qmapInsert {V : Type} (key : QString) (value : V) : List (QString × V) → List (QString × V)
  | [] => [(key, value)]
  | (k, v) :: rest =>
    if qstringLt key k then (key, value) :: (k, v) :: rest
    else if qstringLt k key then (k, v) :: qmapInsert key value rest
    else (key, value) :: rest

/-- Embedding of `QMap::find` / `QMap::value`: the value stored under a key. -/
def qmapFind {V : Type} (key : QString) : List (QString × V) → Option V
  | [] => none
  | (k, v) :: rest => if k = key then some v else qmapFind key rest

/-- Embedding of `QMap::contains`. -/
def qmapContains {V : Type} (m : List (QString × V)) (key : QString) : Bool :=
  (qmapFind key m).isSome

/-- Embedding of `QMap::remove` / `QMap::erase` of the entry at a key. -/
def qmapRemove {V : Type} (key : QString) (m : List (QString × V)) : List (QString × V) :=
  m.filter (fun e => !(e.1 == key))

/-- Invariant of a `QMap`: keys in strictly ascending order. -/
def QMapOrdered {V : Type} (m : List (QString × V)) : Prop :=
  m.Pairwise (fun a b => qstringLt a.1 b.1 = true)

instance {V : Type} (m : List (QString × V)) : Decidable (QMapOrdered m) := by
  unfold QMapOrdered
  infer_instance

/-- The values that travel in a property map. -/
inductive QVariant where
  | invalid
  | bool (b : Bool)
  | int (i : Int)
  | string (s : QString)
  | map (m : List (QString × QVariant))
  | list (l : List QVariant)
  | dbusMap (m : List (QString × QVariant))
  | dbusArray (l : List (List (QString × QVariant)))

/-- The type `QVariantMap`. -/
abbrev QVariantMap := List (QString × QVariant)

/-- Embedding of `QString::number` of a non-negative integer, most significant digit first. -/
def numberNat (n : Nat) : QString := (Nat.toDigits 10 n).map QChar.ofChar

/-- Embedding of `QString::number(int)`. -/
def number (i : Int) : QString :=
  if i < 0 then QChar.ofChar '-' :: numberNat i.natAbs else numberNat i.natAbs

/-- Embedding of `QVariant::toString`. -/
def QVariant.toString : QVariant → QString
  | .string s => s
  | .bool b => if b then QStringLiteral "true" else QStringLiteral "false"
  | .int i => number i
  | _ => []

/-- Embedding of `QVariant::value<QVariantMap>()`. -/
def QVariant.toMap : QVariant → QVariantMap
  | .map m => m
  | _ => []

/-! ## Token repository (`VpnModel::TokenFileRepository`) -/

/-- Embedding of `QString::split(sep)`: the components between separators, empty ones kept. -/
def split (sep : QChar) : QString → List QString
  | [] => [[]]
  | c :: cs =>
    if c = sep then [] :: split sep cs
    else
      match split sep cs with
      | [] => [[c]]
      | w :: ws => (c :: w) :: ws

/-- Last path segment: the final component of a path split on `/`. -/
def lastSegment (path : QString) : QString :=
  (split (QChar.ofChar '/') path).getLastD []

/-- Embedding of `TokenFileRepository::tokenForObjectPath`. -/
def tokenForObjectPath (path : QString) : QString :=
  let index := lastIndexOf path (QChar.ofChar '/')
  if index ≠ -1 then mid path (index + 1) else []

/-- Embedding of `CredentialsRepository::locationForObjectPath`. -/
def locationForObjectPath (path : QString) : QString :=
  let index := lastIndexOf path (QChar.ofChar '/')
  if index ≠ -1 then mid path (index + 1) else []

/-- State of `TokenFileRepository`: the member `tokens_`. -/
structure TokenFileRepository where
  tokens_ : List QString

/-- Embedding of `TokenFileRepository::tokenExists`. -/
def TokenFileRepository.tokenExists (r : TokenFileRepository) (token : QString) : Bool :=
  r.tokens_.contains token

/-- Embedding of `TokenFileRepository::ensureToken`; `opened` is the outcome of
`tokenFile.open`. -/
def TokenFileRepository.ensureToken (r : TokenFileRepository) (token : QString)
    (opened : Bool) : TokenFileRepository :=
  if !r.tokens_.contains token then
    if !opened then r
    else { tokens_ := r.tokens_ ++ [token] }
  else r

/-- Embedding of `TokenFileRepository::removeToken`; `removed` is the outcome of
`baseDir_.remove`. -/
def TokenFileRepository.removeToken (r : TokenFileRepository) (token : QString)
    (removed : Bool) : TokenFileRepository :=
  if r.tokens_.contains token then
    if !removed then r
    else { tokens_ := r.tokens_.erase token }
  else r

/-- Loop of `TokenFileRepository::removeUnknownTokens` over `tokens_`. -/
def removeUnknownTokensLoop (knownConnections : List QString) : List QString → List QString
  | [] => []
  | token :: rest =>
    if knownConnections.contains token then token :: removeUnknownTokensLoop knownConnections rest
    else removeUnknownTokensLoop knownConnections rest

/-- Embedding of `TokenFileRepository::removeUnknownTokens`. -/
def TokenFileRepository.removeUnknownTokens (r : TokenFileRepository)
    (knownConnections : List QString) : TokenFileRepository :=
  { tokens_ := removeUnknownTokensLoop knownConnections r.tokens_ }

/-- A call made on the token repository. -/
inductive TokenCall where
  | ensure (token : QString)
  | remove (token : QString)

/-- The token a call names. -/
def TokenCall.token : TokenCall → QString
  | .ensure t => t
  | .remove t => t

/-- One call, its file operation succeeding. -/
def TokenFileRepository.call (r : TokenFileRepository) : TokenCall → TokenFileRepository
  | .ensure t => r.ensureToken t true
  | .remove t => r.removeToken t true

/-- A sequence of calls, in order. -/
def TokenFileRepository.calls (r : TokenFileRepository) (cs : List TokenCall) :
    TokenFileRepository :=
  cs.foldl TokenFileRepository.call r

/-- The last call of a sequence that names the token `t`, if any. -/
def lastCallNaming (t : QString) : List TokenCall → Option TokenCall
  | [] => none
  | c :: cs =>
    match lastCallNaming t cs with
    | some d => some d
    | none => if c.token = t then some c else none

/-! ## Credential repository codec (`VpnModel::CredentialsRepository`) -/

/-- Octet of an ASCII character. -/
def Byte.ofChar (c : Char) : Byte := Byte.ofNat c.toNat

/-- The base64 alphabet of `QByteArray::toBase64`. -/
def alphabet_base64 : List Byte :=
  "ABCDEFGHIJKLMNOPQRSTUVWXYZabcdefghijklmnopqrstuvwxyz0123456789+/".toList.map Byte.ofChar

/-- Lookup `alphabet[j]`. -/
def alphabetAt (j : Nat) : Byte := alphabet_base64.getD j 0

/-- The character that pads the base64 output. -/
def padchar : Byte := Byte.ofChar '='

/-- Embedding of `QByteArray::toBase64`: three octets at a time become four characters; `chunk`
holds the octets in its bits 23..0 and the four indices are its six-bit fields. -/
def toBase64 : QByteArray → QByteArray
  | [] => []
  | [a] =>
    let chunk := a.val * 65536
    [alphabetAt (chunk / 262144 % 64), alphabetAt (chunk / 4096 % 64), padchar, padchar]
  | [a, b] =>
    let chunk := a.val * 65536 + b.val * 256
    [alphabetAt (chunk / 262144 % 64), alphabetAt (chunk / 4096 % 64),
     alphabetAt (chunk / 64 % 64), padchar]
  | a :: b :: c :: rest =>
    let chunk := a.val * 65536 + b.val * 256 + c.val
    alphabetAt (chunk / 262144 % 64) :: alphabetAt (chunk / 4096 % 64) ::
      alphabetAt (chunk / 64 % 64) :: alphabetAt (chunk % 64) :: toBase64 rest

/-- Value `d` of a base64 character in `QByteArray::fromBase64`, `none` for the `-1` of a
character outside the alphabet. -/
def base64Digit (ch : Byte) : Option Nat :=
  if 65 ≤ ch.val ∧ ch.val ≤ 90 then some (ch.val - 65)
  else if 97 ≤ ch.val ∧ ch.val ≤ 122 then some (ch.val - 97 + 26)
  else if 48 ≤ ch.val ∧ ch.val ≤ 57 then some (ch.val - 48 + 52)
  else if ch.val = 43 then some 62
  else if ch.val = 47 then some 63
  else none

/-- Loop of `QByteArray::fromBase64` with its state `buf` (unsigned 32 bit) and `nbits`;
the result lists the octets stored to `tmp`. -/
def fromBase64Loop : QByteArray → Nat → Nat → QByteArray
  | [], _, _ => []
  | ch :: rest, buf, nbits =>
    match base64Digit ch with
    | none => fromBase64Loop rest buf nbits
    | some d =>
      let buf1 := (buf * 64 + d) % 4294967296
      let nbits1 := nbits + 6
      if nbits1 ≥ 8 then
        let nbits2 := nbits1 - 8
        Byte.ofNat (buf1 / 2 ^ nbits2) :: fromBase64Loop rest (buf1 % 2 ^ nbits2) nbits2
      else fromBase64Loop rest buf1 nbits1

/-- Embedding of `QByteArray::fromBase64`. -/
def fromBase64 (base64 : QByteArray) : QByteArray := fromBase64Loop base64 0 0

/-- Embedding of `QDataStream << quint32`: four octets, most significant first. -/
def writeUInt32 (n : Nat) : QByteArray :=
  [Byte.ofNat (n / 16777216), Byte.ofNat (n / 65536), Byte.ofNat (n / 256), Byte.ofNat n]

/-- Embedding of `QDataStream >> quint32`: the value and the rest of the stream; a stream that
ends early yields 0 and is exhausted. -/
def readUInt32 : QByteArray → Nat × QByteArray
  | a :: b :: c :: d :: rest => (a.val * 16777216 + b.val * 65536 + c.val * 256 + d.val, rest)
  | _ => (0, [])

/-- Octets of the code units of a string, each unit most significant octet first. -/
def utf16Bytes : QString → QByteArray
  | [] => []
  | c :: cs => Byte.ofNat (c.val / 256) :: Byte.ofNat c.val :: utf16Bytes cs

/-- Code units held by a run of octets, two octets a unit. -/
def utf16Units : QByteArray → QString
  | hi :: lo :: rest =>
    (⟨(hi.val * 256 + lo.val) % 65536, Nat.mod_lt _ (by decide)⟩ : QChar) :: utf16Units rest
  | _ => []

/-- Embedding of `QDataStream << QString` (stream version Qt_5_6): the length in octets as
a `quint32`, then the code units. A null string, for which Qt writes the marker 0xffffffff
that `readQString` reads back as the same value, is the empty string here. -/
def writeQString (s : QString) : QByteArray :=
  writeUInt32 (2 * s.length % 4294967296) ++ utf16Bytes s

/-- Embedding of `QDataStream >> QString` (stream version Qt_5_6): the length 0xffffffff
marks a null string, an odd length is corrupt data and a stream that ends early leaves the
string cleared. -/
def readQString (is : QByteArray) : QString × QByteArray :=
  let (bytes, rest) := readUInt32 is
  if bytes = 4294967295 then ([], rest)
  else if bytes > 0 then
    if bytes % 2 = 1 then ([], rest)
    else if rest.length < bytes then ([], [])
    else (utf16Units (rest.take bytes), rest.drop bytes)
  else ([], rest)

/-- Items loop of `encodeCredentials`. -/
def encodeItems : QVariantMap → QByteArray
  | [] => []
  | (key, value) :: rest => writeQString key ++ writeQString value.toString ++ encodeItems rest

/-- Embedding of `CredentialsRepository::encodeCredentials`. -/
def encodeCredentials (credentials : QVariantMap) : QByteArray :=
  let version := 1
  let items := credentials.length % 4294967296
  toBase64 (writeUInt32 version ++ writeUInt32 items ++ encodeItems credentials)

/-- Items loop of `decodeCredentials`: `items` iterations over the stream. -/
def decodeItems : Nat → QByteArray → QVariantMap → QVariantMap
  | 0, _, rv => rv
  | n + 1, is, rv =>
    let (key, is1) := readQString is
    let (value, is2) := readQString is1
    decodeItems n is2 (qmapInsert key (QVariant.string value) rv)

/-- Embedding of `CredentialsRepository::decodeCredentials`. -/
def decodeCredentials (encoded : QByteArray) : QVariantMap :=
  let decoded := fromBase64 encoded
  let (version, is) := readUInt32 decoded
  if version ≠ 1 then []
  else
    let (items, is1) := readUInt32 is
    decodeItems items is1 []

/-- Whether a variant holds a `QString`. -/
def QVariant.isString : QVariant → Bool
  | .string _ => true
  | _ => false

/-- A map from string keys to string values: every value holds a `QString`. -/
def StringValued (m : QVariantMap) : Prop :=
  ∀ e ∈ m, e.2.isString = true

instance (m : QVariantMap) : Decidable (StringValued m) := by
  unfold StringValued
  infer_instance

/-- The bounds that the Qt containers put on a map: fewer than 2^31 entries, and strings of
fewer than 2^31 code units. -/
def WithinQtSizes (m : QVariantMap) : Prop :=
  m.length < 2147483648 ∧
  ∀ e ∈ m, e.1.length < 2147483648 ∧ e.2.toString.length < 2147483648

instance (m : QVariantMap) : Decidable (WithinQtSizes m) := by
  unfold WithinQtSizes
  infer_instance

/-! ## Property translator (`propertiesToDBus`, `propertiesToQml`) -/

/-- The constant `defaultDomain`. -/
def defaultDomain : QString := QStringLiteral "merproject.org"

/-- Modelled from the spec: the enumeration `VpnModel::ConnectionType`, declared in
`vpnmodel.h`; the spec lists its enumerators as OpenVPN, OpenConnect, VPNC, L2TP, PPTP. -/
inductive ConnectionType where
  | OpenVPN
  | OpenConnect
  | VPNC
  | L2TP
  | PPTP
  deriving DecidableEq

/-- Modelled from the spec: the enumeration `VpnModel::ConnectionState`, declared in
`vpnmodel.h`; the spec lists its enumerators as Idle, Failure, Configuration, Ready,
Disconnect. -/
inductive ConnectionState where
  | Idle
  | Failure
  | Configuration
  | Ready
  | Disconnect
  deriving DecidableEq

/-- Modelled from the spec: `static_cast<int>` of a `ConnectionType`, the enumerators
numbered from 0 in the order of their declaration. -/
def ConnectionType.toInt : ConnectionType → Int
  | .OpenVPN => 0
  | .OpenConnect => 1
  | .VPNC => 2
  | .L2TP => 3
  | .PPTP => 4

/-- Modelled from the spec: `static_cast<int>` of a `ConnectionState`, the enumerators
numbered from 0 in the order of their declaration. -/
def ConnectionState.toInt : ConnectionState → Int
  | .Idle => 0
  | .Failure => 1
  | .Configuration => 2
  | .Ready => 3
  | .Disconnect => 4

/-- Embedding of `propertyConversions`: for the keys `type` and `state`, the pairs of DBus value
and QML value. -/
def propertyConversions : List (QString × List (QVariant × QVariant)) :=
  [(QStringLiteral "type",
     [(QVariant.string (QStringLiteral "openvpn"), QVariant.int ConnectionType.OpenVPN.toInt),
      (QVariant.string (QStringLiteral "openconnect"),
        QVariant.int ConnectionType.OpenConnect.toInt),
      (QVariant.string (QStringLiteral "vpnc"), QVariant.int ConnectionType.VPNC.toInt),
      (QVariant.string (QStringLiteral "l2tp"), QVariant.int ConnectionType.L2TP.toInt),
      (QVariant.string (QStringLiteral "pptp"), QVariant.int ConnectionType.PPTP.toInt)]),
   (QStringLiteral "state",
     [(QVariant.string (QStringLiteral "idle"), QVariant.int ConnectionState.Idle.toInt),
      (QVariant.string (QStringLiteral "failure"), QVariant.int ConnectionState.Failure.toInt),
      (QVariant.string (QStringLiteral "configuration"),
        QVariant.int ConnectionState.Configuration.toInt),
      (QVariant.string (QStringLiteral "ready"), QVariant.int ConnectionState.Ready.toInt),
      (QVariant.string (QStringLiteral "disconnect"),
        QVariant.int ConnectionState.Disconnect.toInt)])]

/-- Whether a code unit is ASCII white space. -/
def QChar.isSpace (c : QChar) : Bool :=
  c.val = 32 || (9 ≤ c.val && c.val ≤ 13)

/-- Value of a run of decimal digits, `none` when a unit is not a digit. -/
def digitsValue : QString → Nat → Option Nat
  | [], acc => some acc
  | c :: cs, acc =>
    if 48 ≤ c.val ∧ c.val ≤ 57 then digitsValue cs (acc * 10 + (c.val - 48)) else none

/-- Embedding of `QString::toLongLong` in base 10: white space around the number is skipped, a
sign may lead it, and the value has to fit 64 bits. -/
def toLongLong (s : QString) : Option Int :=
  let t := ((s.dropWhile QChar.isSpace).reverse.dropWhile QChar.isSpace).reverse
  let signed : Bool × QString :=
    match t with
    | c :: cs => if c.val = 45 then (true, cs) else if c.val = 43 then (false, cs) else (false, t)
    | [] => (false, [])
  match signed.2 with
  | [] => none
  | d :: ds =>
    match digitsValue (d :: ds) 0 with
    | none => none
    | some n =>
      if signed.1 then (if n ≤ 9223372036854775808 then some (-(n : Int)) else none)
      else (if n < 9223372036854775808 then some (n : Int) else none)

/-- Conversion `int(qlonglong)`: the low 32 bits, read as a signed number. -/
def truncateToInt (v : Int) : Int :=
  (v + 2147483648) % 4294967296 - 2147483648

/-- Embedding of `QVariant::operator==` against a variant that holds a `QString`: the string is
converted to the type of the left side when the types differ. -/
def QVariant.equalsString (v : QVariant) (s : QString) : Bool :=
  match v with
  | .string t => t == s
  | .int n =>
    match toLongLong s with
    | some k => n == truncateToInt k
    | none => false
  | .bool b =>
    let l := toLower s
    b == !(l == QStringLiteral "0" || l == QStringLiteral "false" || l.isEmpty)
  | _ => false

/-- Embedding of `QVariant::operator==` against a variant that holds an `int`: numbers compare
by value, and against a string the number is converted to text. -/
def QVariant.equalsInt (v : QVariant) (i : Int) : Bool :=
  match v with
  | .int n => n == i
  | .bool b => (if b then 1 else 0) == i
  | .string t => t == number i
  | _ => false

/-- Embedding of `QVariant::operator==` as `convertValue` uses it: the right side is a value of
the conversion table, a string or an `int`. -/
def QVariant.equalsTableValue (v : QVariant) (t : QVariant) : Bool :=
  match t with
  | .string s => v.equalsString s
  | .int i => v.equalsInt i
  | _ => false

/-- Embedding of `convertValue`. -/
def convertValue (key : QString) (value : QVariant) (toDBus : Bool) : QVariant :=
  match qmapFind (toLower key) propertyConversions with
  | some list =>
    match list.find? (fun pair => value.equalsTableValue (if toDBus then pair.2 else pair.1)) with
    | some lit => if toDBus then lit.1 else lit.2
    | none => value
  | none => value

/-- Embedding of `convertToQml`. -/
def convertToQml (key : QString) (value : QVariant) : QVariant := convertValue key value false

/-- Embedding of `convertToDBus`. -/
def convertToDBus (key : QString) (value : QVariant) : QVariant := convertValue key value true

/-- The key with `initial.toUpper()` written over its first code unit. -/
def upperInitial : QString → QString
  | [] => []
  | c :: cs => c.toUpper :: cs

/-- The key with `initial.toLower()` written over its first code unit. -/
def lowerInitial : QString → QString
  | [] => []
  | c :: cs => c.toLower :: cs

/-- Inner loop of `propertiesToDBus`: the provider properties go to the top level. -/
def insertAll : QVariantMap → QVariantMap → QVariantMap
  | [], rv => rv
  | (key, value) :: rest, rv => insertAll rest (qmapInsert key value rv)

/-- Loop of `propertiesToDBus` over the entries of `fromQml`, in key order. -/
def propertiesToDBusLoop : QVariantMap → QVariantMap → QVariantMap
  | [], rv => rv
  | (key, value) :: rest, rv =>
    if key = QStringLiteral "providerProperties" then
      propertiesToDBusLoop rest (insertAll value.toMap rv)
    else
      let key1 := upperInitial key
      propertiesToDBusLoop rest (qmapInsert key1 (convertToDBus key1 value) rv)

/-- Embedding of `propertiesToDBus`. -/
def propertiesToDBus (fromQml : QVariantMap) : QVariantMap := propertiesToDBusLoop fromQml []

/-- Embedding of `extract<QVariantMap>` of the `QDBusArgument` a variant holds. -/
def extractMap : QVariant → QVariant
  | .dbusMap m => .map m
  | _ => .map []

/-- Embedding of `extractArray<QVariantMap>` of the `QDBusArgument` a variant holds. -/
def extractArray : QVariant → QVariant
  | .dbusArray l => .list (l.map QVariant.map)
  | _ => .list []

/-- Loop of `propertiesToQml` over the entries of `fromDBus`, in key order; the state is
`rv` and `providerProperties`. -/
def propertiesToQmlLoop : QVariantMap → QVariantMap → QVariantMap → QVariantMap × QVariantMap
  | [], rv, providerProperties => (rv, providerProperties)
  | (key, value) :: rest, rv, providerProperties =>
    if indexOf key (QChar.ofChar '.') ≠ -1 then
      propertiesToQmlLoop rest rv (qmapInsert key value providerProperties)
    else
      let key1 := lowerInitial key
      let value1 :=
        if key1 = QStringLiteral "iPv4" ∨ key1 = QStringLiteral "iPv6" then extractMap value
        else if key1 = QStringLiteral "serverRoutes" ∨ key1 = QStringLiteral "userRoutes" then
          extractArray value
        else value
      propertiesToQmlLoop rest (qmapInsert key1 (convertToQml key1 value1) rv) providerProperties

/-- Embedding of `propertiesToQml`. -/
def propertiesToQml (fromDBus : QVariantMap) : QVariantMap :=
  let (rv, providerProperties) := propertiesToQmlLoop fromDBus [] []
  if !providerProperties.isEmpty then
    qmapInsert (QStringLiteral "providerProperties") (QVariant.map providerProperties) rv
  else rv

/-- The property map that `updateConnection` passes to `updateItem`: the provider properties
of the update merged into those of the connection, and a `domain` equal to the default
domain erased. -/
def updateConnectionProperties (existingProperties updateProperties : QVariantMap) :
    QVariantMap :=
  let properties :=
    match qmapFind (QStringLiteral "providerProperties") updateProperties with
    | some updated =>
      qmapInsert (QStringLiteral "providerProperties")
        (QVariant.map (insertAll updated.toMap existingProperties)) updateProperties
    | none => updateProperties
  match qmapFind (QStringLiteral "domain") properties with
  | some domain =>
    if domain.toString = defaultDomain then qmapRemove (QStringLiteral "domain") properties
    else properties
  | none => properties

/-- A wire key of the casing table: not empty, its initial an ASCII capital, and no `.`. -/
def CapitalizedKey (key : QString) : Prop :=
  match key with
  | [] => False
  | c :: _ => (65 ≤ c.val ∧ c.val ≤ 90) ∧ QChar.ofChar '.' ∉ key

instance (key : QString) : Decidable (CapitalizedKey key) := by
  unfold CapitalizedKey
  cases key <;> infer_instance

/-- The fields that `propertiesToQml` extracts from a `QDBusArgument`. -/
def extractedKeys : List QString :=
  [QStringLiteral "IPv4", QStringLiteral "IPv6", QStringLiteral "ServerRoutes",
   QStringLiteral "UserRoutes"]

/-- A value of the lookup table: under a key that `convertValue` converts, the value is one
of the DBus values the table lists for it. -/
def TableValued (e : QString × QVariant) : Prop :=
  ∀ list, qmapFind (toLower e.1) propertyConversions = some list →
    ∃ pair ∈ list, e.2 = pair.1

/-- An entry of a wire map that the translation is to give back: its key is in the casing
table, is not a structurally extracted field and is not the name reserved for the nested
provider properties, and its value comes from the lookup table where there is one. -/
def WireEntry (e : QString × QVariant) : Prop :=
  CapitalizedKey e.1 ∧ e.1 ∉ extractedKeys ∧ e.1 ≠ QStringLiteral "ProviderProperties" ∧
    TableValued e

/-- The presentation entry that `propertiesToQml` makes of a top-level wire entry. -/
def qmlEntry (e : QString × QVariant) : QString × QVariant :=
  (lowerInitial e.1, convertToQml (lowerInitial e.1) e.2)

/-- Whether the key of an entry contains a `.`. -/
def dotted (e : QString × QVariant) : Bool := decide (QChar.ofChar '.' ∈ e.1)

/-! ## Provisioning importer (`VpnModel::processOpenVpnProvisioningFile`) -/

/-- What the importer takes from its surroundings: the SHA-1 of a text as hexadecimal
digits, whether the output directory exists or can be made, which files can be opened for
writing, and the absolute directory of the profile file. -/
structure ImportEnv where
  sha1Hex : QString → QString
  outputDirAvailable : Bool
  canWrite : QString → Bool
  profileDir : QString

/-- The local state of `processOpenVpnProvisioningFile`, and the files it has written (path
and content). -/
structure ImportState where
  rv : QVariantMap
  embeddedMarker : QString
  embeddedContent : QString
  extraOptions : List QString
  files : List (QString × QString)

/-- The state before the first line. -/
def ImportState.initial : ImportState :=
  { rv := [], embeddedMarker := [], embeddedContent := [], extraOptions := [], files := [] }

/-- The constant `outputPath`. -/
def outputPath : QString := QStringLiteral "/home/nemo/.local/share/system/vpn-provisioning"

/-- The lambda `normaliseProtocol`. -/
def normaliseProtocol (proto : QString) : QString :=
  if proto = QStringLiteral "tcp" then QStringLiteral "tcp-client" else proto

/-- Embedding of `QDir::absoluteFilePath` of a directory given by its absolute path. -/
def absoluteFilePath (dir fileName : QString) : QString :=
  if startsWith fileName (QChar.ofChar '/') then fileName
  else if fileName.isEmpty then dir
  else if dir.getLast? = some (QChar.ofChar '/') then dir ++ fileName
  else dir ++ QChar.ofChar '/' :: fileName

/-- The text after the white space that leads a line (`^\s*`). -/
def skipSpaces (s : QString) : QString := s.dropWhile QChar.isSpace

/-- Embedding of `line.contains(commentLeader)`: the pattern `^\s*(?:\#|\;)`. -/
def matchesCommentLeader (line : QString) : Bool :=
  match skipSpaces line with
  | c :: _ => c == QChar.ofChar '#' || c == QChar.ofChar ';'
  | [] => false

/-- The pattern `([^\/>]+)>` at the start of a text: the captured marker. -/
def matchMarker (s : QString) : Option QString :=
  let run := s.takeWhile (fun c => !(c == QChar.ofChar '/') && !(c == QChar.ofChar '>'))
  if run.isEmpty then none
  else
    match s.drop run.length with
    | c :: _ => if c = QChar.ofChar '>' then some run else none
    | [] => none

/-- Embedding of `line.contains(embeddedLeader, &match)`: the pattern `^\s*<([^\/>]+)>` and its
capture. -/
def matchEmbeddedLeader (line : QString) : Option QString :=
  match skipSpaces line with
  | c :: rest => if c = QChar.ofChar '<' then matchMarker rest else none
  | [] => none

/-- Embedding of `line.contains(embeddedTrailer, &match)`: the pattern `^\s*<\/([^\/>]+)>` and its
capture. -/
def matchEmbeddedTrailer (line : QString) : Option QString :=
  match skipSpaces line with
  | c :: d :: rest =>
    if c = QChar.ofChar '<' ∧ d = QChar.ofChar '/' then matchMarker rest else none
  | _ => none

/-- Scan of `line.split(whitespace, QString::SkipEmptyParts)`; `cur` is the part being
read. -/
def splitWhitespaceFrom : QString → QString → List QString
  | [], cur => if cur.isEmpty then [] else [cur]
  | c :: cs, cur =>
    if c.isSpace then
      if cur.isEmpty then splitWhitespaceFrom cs []
      else cur :: splitWhitespaceFrom cs []
    else splitWhitespaceFrom cs (cur ++ [c])

/-- Embedding of `line.split(whitespace, QString::SkipEmptyParts)`. -/
def splitWhitespace (line : QString) : List QString := splitWhitespaceFrom line []

/-- Embedding of `QStringList::join(QChar(' '))`. -/
def joinSpace : List QString → QString
  | [] => []
  | [a] => a
  | a :: b :: rest => a ++ QChar.ofChar ' ' :: joinSpace (b :: rest)

/-- Embedding of `QList::at(i)`: the element at an index within the list, `none` beyond its end.
-/
def listAt (l : List QString) (i : Nat) : Option QString := l.get? i

/-- An entry `rv.insert(key, value)` with a string value. -/
def ImportState.insert (st : ImportState) (key : String) (value : QString) : ImportState :=
  { st with rv := qmapInsert (QStringLiteral key) (QVariant.string value) st.rv }

/-- The trailer branch of the line loop: the embedded block between the leader and a
trailer with the marker `marker` is closed. -/
def closeEmbedded (env : ImportEnv) (st : ImportState) (marker : QString) : ImportState :=
  let st1 : ImportState :=
    if marker ≠ st.embeddedMarker then st
    else if st.embeddedContent.isEmpty then st
    else if st.embeddedMarker = QStringLiteral "connection" then
      { st with extraOptions := st.extraOptions ++
          [QStringLiteral "<connection>\n" ++ st.embeddedContent ++
            QStringLiteral "</connection>"] }
    else if !env.outputDirAvailable then st
    else
      let outputFileName :=
        env.sha1Hex st.embeddedContent ++ QChar.ofChar '.' :: st.embeddedMarker
      let fileName := absoluteFilePath outputPath outputFileName
      if !env.canWrite fileName then st
      else
        let written : QString × QString := (fileName, st.embeddedContent)
        let st2 : ImportState := { st with files := st.files ++ [written] }
        if st.embeddedMarker = QStringLiteral "ca" then
          st2.insert "OpenVPN.CACert" fileName
        else if st.embeddedMarker = QStringLiteral "cert" then
          st2.insert "OpenVPN.Cert" fileName
        else if st.embeddedMarker = QStringLiteral "key" then
          st2.insert "OpenVPN.Key" fileName
        else
          { st2 with extraOptions := st2.extraOptions ++
              [st.embeddedMarker ++ QChar.ofChar ' ' :: fileName] }
  { st1 with embeddedMarker := [], embeddedContent := [] }

/-- The `remote` branch. -/
def remoteDirective (st : ImportState) (line : QString) (arguments : List QString) :
    ImportState :=
  if !qmapContains st.rv (QStringLiteral "Host") then
    let st1 :=
      match arguments with
      | a0 :: _ => st.insert "Host" a0
      | [] => st
    let st2 :=
      match arguments with
      | _ :: a1 :: _ => st1.insert "OpenVPN.Port" a1
      | _ => st1
    match arguments with
    | _ :: _ :: a2 :: _ => st2.insert "OpenVPN.Proto" (normaliseProtocol a2)
    | _ => st2
  else { st with extraOptions := st.extraOptions ++ [line] }

/-- The `ca` / `cert` / `key` / `auth-user-pass` branch; it reads `arguments.at(1)`. -/
def fileDirective (env : ImportEnv) (st : ImportState) (directive : QString)
    (arguments : List QString) : Option ImportState :=
  if !arguments.isEmpty then
    match listAt arguments 1 with
    | none => none
    | some arg =>
      let file :=
        if !startsWith arg (QChar.ofChar '/') then absoluteFilePath env.profileDir arg else arg
      if directive = QStringLiteral "ca" then some (st.insert "OpenVPN.CACert" file)
      else if directive = QStringLiteral "cert" then some (st.insert "OpenVPN.Cert" file)
      else if directive = QStringLiteral "key" then some (st.insert "OpenVPN.Key" file)
      else if directive = QStringLiteral "auth-user-pass" then
        some (st.insert "OpenVPN.AuthUserPass" file)
      else some st
  else if directive = QStringLiteral "auth-user-pass" then
    some (st.insert "OpenVPN.AuthUserPass" (QStringLiteral "-"))
  else some st

/-- A directive whose arguments, joined by a space, become the value of one key. -/
def joinedDirective (st : ImportState) (key : String) (arguments : List QString) :
    ImportState :=
  if !arguments.isEmpty then st.insert key (joinSpace arguments) else st

/-- The last branch of the line loop: a line outside an embedded block is split into a
directive and its arguments. -/
def processDirective (env : ImportEnv) (st : ImportState) (line : QString) :
    Option ImportState :=
  match splitWhitespace line with
  | [] => some st
  | directive :: arguments =>
    if directive = QStringLiteral "remote" then some (remoteDirective st line arguments)
    else if directive = QStringLiteral "ca" ∨ directive = QStringLiteral "cert" ∨
        directive = QStringLiteral "key" ∨ directive = QStringLiteral "auth-user-pass" then
      fileDirective env st directive arguments
    else if directive = QStringLiteral "mtu" ∨ directive = QStringLiteral "tun-mtu" then
      some (joinedDirective st "OpenVPN.MTU" arguments)
    else if directive = QStringLiteral "ns-cert-type" then
      some (joinedDirective st "OpenVPN.NSCertType" arguments)
    else if directive = QStringLiteral "proto" then
      if !arguments.isEmpty then
        if !qmapContains st.rv (QStringLiteral "OpenVPN.Proto") then
          some (st.insert "OpenVPN.Proto" (normaliseProtocol (joinSpace arguments)))
        else some st
      else some st
    else if directive = QStringLiteral "port" then
      if !qmapContains st.rv (QStringLiteral "OpenVPN.Port") then
        some (joinedDirective st "OpenVPN.Port" arguments)
      else some st
    else if directive = QStringLiteral "askpass" then
      if !arguments.isEmpty then some (st.insert "OpenVPN.AskPass" (joinSpace arguments))
      else some (st.insert "OpenVPN.AskPass" [])
    else if directive = QStringLiteral "auth-nocache" then
      some (st.insert "OpenVPN.AuthNoCache" (QStringLiteral "true"))
    else if directive = QStringLiteral "tls-remote" then
      some (joinedDirective st "OpenVPN.TLSRemote" arguments)
    else if directive = QStringLiteral "cipher" then
      some (joinedDirective st "OpenVPN.Cipher" arguments)
    else if directive = QStringLiteral "auth" then
      some (joinedDirective st "OpenVPN.Auth" arguments)
    else if directive = QStringLiteral "comp-lzo" then
      if !arguments.isEmpty then some (st.insert "OpenVPN.CompLZO" (joinSpace arguments))
      else some (st.insert "OpenVPN.CompLZO" (QStringLiteral "adaptive"))
    else if directive = QStringLiteral "remote-cert-tls" then
      some (joinedDirective st "OpenVPN.RemoteCertTls" arguments)
    else some { st with extraOptions := st.extraOptions ++ [line] }

/-- Body of the line loop for one line; `none` when the line makes the importer read a list
element that is not there. -/
def processLine (env : ImportEnv) (st : ImportState) (line : QString) : Option ImportState :=
  if matchesCommentLeader line then some st
  else
    match matchEmbeddedLeader line with
    | some marker => some { st with embeddedMarker := marker }
    | none =>
      match matchEmbeddedTrailer line with
      | some marker => some (closeEmbedded env st marker)
      | none =>
        if !st.embeddedMarker.isEmpty then
          some { st with embeddedContent := st.embeddedContent ++ (line ++ QStringLiteral "\n") }
        else processDirective env st line

/-- The line loop over the lines that `readLine` yields. -/
def processLines (env : ImportEnv) : ImportState → List QString → Option ImportState
  | st, [] => some st
  | st, line :: rest =>
    match processLine env st line with
    | some st1 => processLines env st1 rest
    | none => none

/-- The end of `processOpenVpnProvisioningFile`: the extra options are written to a
configuration file. -/
def writeExtraOptions (env : ImportEnv) (st : ImportState) : ImportState :=
  if !st.extraOptions.isEmpty then
    if !env.outputDirAvailable then st
    else
      let outputFileName := env.sha1Hex st.extraOptions.flatten ++ QStringLiteral ".conf"
      let fileName := absoluteFilePath outputPath outputFileName
      if !env.canWrite fileName then st
      else
        let written : QString × QString :=
          (fileName, (st.extraOptions.map (fun line => line ++ QStringLiteral "\n")).flatten)
        let st1 : ImportState := { st with files := st.files ++ [written] }
        st1.insert "OpenVPN.ConfigFile" fileName
  else st

/-- The importer run on the lines of a profile: the final state, or `none` when a line made
it read beyond the end of a list. -/
def importProfile (env : ImportEnv) (lines : List QString) : Option ImportState :=
  (processLines env ImportState.initial lines).map (writeExtraOptions env)

/-- Embedding of `VpnModel::processOpenVpnProvisioningFile`: the wire map returned for the lines
of a profile. -/
def processOpenVpnProvisioningFile (env : ImportEnv) (lines : List QString) :
    Option QVariantMap :=
  (importProfile env lines).map (fun st => st.rv)

/-- An environment in which nothing can be written, for evaluating the importer. -/
def ImportEnv.readOnly : ImportEnv :=
  { sha1Hex := fun _ => [], outputDirAvailable := false, canWrite := fun _ => false,
    profileDir := QStringLiteral "/home/nemo" }

/-- An environment in which everything can be written, with a fixed text standing for the
digest, for evaluating the importer. -/
def ImportEnv.writable : ImportEnv :=
  { sha1Hex := fun _ => QStringLiteral "0a1b", outputDirAvailable := true,
    canWrite := fun _ => true, profileDir := QStringLiteral "/home/nemo" }

/-! ## Importer: the keys a line can set -/

/-- The keys that the first `remote` directive populates. -/
def remoteKeys : List QString :=
  [QStringLiteral "Host", QStringLiteral "OpenVPN.Port", QStringLiteral "OpenVPN.Proto"]

/-- The keys that a line other than a `remote`, `port` or `proto` directive can set. -/
def otherKeys : List String :=
  ["OpenVPN.CACert", "OpenVPN.Cert", "OpenVPN.Key", "OpenVPN.AuthUserPass", "OpenVPN.MTU",
   "OpenVPN.NSCertType", "OpenVPN.AskPass", "OpenVPN.AuthNoCache", "OpenVPN.TLSRemote",
   "OpenVPN.Cipher", "OpenVPN.Auth", "OpenVPN.CompLZO", "OpenVPN.RemoteCertTls",
   "OpenVPN.ConfigFile"]

/-- The map of `st1` is that of `st`, or that of `st` with one of the other keys set. -/
def SetsOtherKey (st st1 : ImportState) : Prop :=
  st1.rv = st.rv ∨ ∃ key value, key ∈ otherKeys ∧ st1.rv = (st.insert key value).rv

/-- What one line can do to the map once `Host` is set: nothing, set one of the other keys,
or set `OpenVPN.Port` or `OpenVPN.Proto` when the key was absent. -/
def StepChange (st st1 : ImportState) : Prop :=
  st1.rv = st.rv ∨ SetsOtherKey st st1 ∨
    (qmapContains st.rv (QStringLiteral "OpenVPN.Port") = false ∧
      ∃ value, st1.rv = (st.insert "OpenVPN.Port" value).rv) ∨
    (qmapContains st.rv (QStringLiteral "OpenVPN.Proto") = false ∧
      ∃ value, st1.rv = (st.insert "OpenVPN.Proto" value).rv)

/-- The map holds the three values that a `remote` directive populates. -/
def Populated (rv : QVariantMap) (host port proto : QString) : Prop :=
  qmapFind (QStringLiteral "Host") rv = some (QVariant.string host) ∧
  qmapFind (QStringLiteral "OpenVPN.Port") rv = some (QVariant.string port) ∧
  qmapFind (QStringLiteral "OpenVPN.Proto") rv = some (QVariant.string proto)

/-! ## Importer: the effect of one line -/

/-- What a directive line leaves alone: the embedded marker and content and the written
files; the extra options stay or grow by the line itself. -/
def DirectiveFrame (st st1 : ImportState) (line : QString) : Prop :=
  st1.embeddedMarker = st.embeddedMarker ∧ st1.embeddedContent = st.embeddedContent ∧
  st1.files = st.files ∧
  (st1.extraOptions = st.extraOptions ∨ st1.extraOptions = st.extraOptions ++ [line])

/-- What one line can do to the map: nothing; set one of the other keys; set `OpenVPN.Port`
when it was absent; set `OpenVPN.Proto`, when it was absent, to a normalised protocol; or,
while `Host` is absent, what a `remote` directive does. -/
def RvEffect (st st1 : ImportState) (line : QString) : Prop :=
  st1.rv = st.rv ∨ SetsOtherKey st st1 ∨
    (qmapContains st.rv (QStringLiteral "OpenVPN.Port") = false ∧
      ∃ value, st1.rv = (st.insert "OpenVPN.Port" value).rv) ∨
    (qmapContains st.rv (QStringLiteral "OpenVPN.Proto") = false ∧
      ∃ x, st1.rv = (st.insert "OpenVPN.Proto" (normaliseProtocol x)).rv) ∨
    (qmapContains st.rv (QStringLiteral "Host") = false ∧
      ∃ arguments, splitWhitespace line = QStringLiteral "remote" :: arguments ∧
        st1.rv = (remoteDirective st line arguments).rv)

/-- Outside an embedded block no content is held. -/
def NormalState (st : ImportState) : Prop :=
  st.embeddedMarker = [] → st.embeddedContent = []

/-- The map does not hold the bare protocol `tcp`. -/
def NoBareTcp (rv : QVariantMap) : Prop :=
  qmapFind (QStringLiteral "OpenVPN.Proto") rv ≠ some (QVariant.string (QStringLiteral "tcp"))

/-- No line of `lines` is, where the importer meets it, a `remote` directive that names a
host outside an embedded block. -/
def NoHostRemote (env : ImportEnv) (lines : List QString) : Prop :=
  ∀ (a : List QString) (x : QString) (b : List QString) (sa : ImportState)
    (host : QString) (rest : List QString),
    lines = a ++ x :: b → processLines env ImportState.initial a = some sa →
    sa.embeddedMarker = [] → splitWhitespace x ≠ QStringLiteral "remote" :: host :: rest

/-! ## The importer: content of a block, directives passed through, and reads past the end -/

/-- The lines of a block as `embeddedContent.append(line + "\n")` accumulates them. -/
def blockContent (lines : List QString) : QString :=
  (lines.map (fun line => line ++ QStringLiteral "\n")).flatten

/-- The lines of a block that are not comment lines. -/
def contentLines (body : List QString) : List QString :=
  body.filter (fun line => !matchesCommentLeader line)

/-- The directives that the importer handles itself: the names that the chain of
comparisons on `directive` tests. -/
def recognizedDirectives : List QString :=
  [QStringLiteral "remote", QStringLiteral "ca", QStringLiteral "cert", QStringLiteral "key",
   QStringLiteral "auth-user-pass", QStringLiteral "mtu", QStringLiteral "tun-mtu",
   QStringLiteral "ns-cert-type", QStringLiteral "proto", QStringLiteral "port",
   QStringLiteral "askpass", QStringLiteral "auth-nocache", QStringLiteral "tls-remote",
   QStringLiteral "cipher", QStringLiteral "auth", QStringLiteral "comp-lzo",
   QStringLiteral "remote-cert-tls"]

/-- A line that is neither a comment nor an opening or closing tag, and whose first token is
not a directive that the importer handles itself. -/
def isUnrecognizedDirective (line : QString) : Bool :=
  !matchesCommentLeader line && (matchEmbeddedLeader line).isNone &&
    (matchEmbeddedTrailer line).isNone &&
    match splitWhitespace line with
    | [] => false
    | directive :: _ => !recognizedDirectives.contains directive

set_option linter.dupNamespace false

/-- Modelled from the spec: the record class `VpnConnection`, declared in `vpnmodel.h`; the
spec lists its attributes. -/
structure VpnConnection where
  path_ : QString
  name_ : QString
  state_ : Int
  type_ : Int
  host_ : QString
  domain_ : QString
  automaticUpDown_ : Bool
  storeCredentials_ : Bool
  immutable_ : Bool
  index_ : Int
  providerProperties_ : QVariantMap

/-- Embedding of the constructor `VpnConnection::VpnConnection(path)`: the state is
`Disconnect` and the type `OpenVPN`. -/
def VpnConnection.new (path : QString) : VpnConnection :=
  { path_ := path
    name_ := []
    state_ := ConnectionState.Disconnect.toInt
    type_ := ConnectionType.OpenVPN.toInt
    host_ := []
    domain_ := []
    automaticUpDown_ := false
    storeCredentials_ := false
    immutable_ := false
    index_ := 0
    providerProperties_ := [] }

/-- Embedding of `numericValue`, on the `int` that a record holds as its state. -/
def numericValue (state : Int) : Int :=
  if state = ConnectionState.Ready.toInt then 3
  else if state = ConnectionState.Configuration.toInt then 2
  else if state = ConnectionState.Failure.toInt then 1
  else 0

/-- State of `CredentialsRepository`: the files of its directory, name and content. -/
structure CredentialsRepository where
  files : List (QString × QByteArray)

/-- Embedding of `CredentialsRepository::credentialsExist`. -/
def CredentialsRepository.credentialsExist (r : CredentialsRepository) (location : QString) :
    Bool :=
  qmapContains r.files location

/-- Embedding of `CredentialsRepository::storeCredentials`; `opened` is the outcome of
`credentialsFile.open`. -/
def CredentialsRepository.storeCredentials (r : CredentialsRepository) (location : QString)
    (credentials : QVariantMap) (opened : Bool) : Bool × CredentialsRepository :=
  if !opened then (false, r)
  else (true, { files := qmapInsert location (encodeCredentials credentials) r.files })

/-- Embedding of `CredentialsRepository::removeCredentials`; `removed` is the outcome of
`baseDir_.remove`. -/
def CredentialsRepository.removeCredentials (r : CredentialsRepository) (location : QString)
    (removed : Bool) : Bool × CredentialsRepository :=
  if qmapContains r.files location then
    if !removed then (false, r)
    else (true, { files := qmapRemove location r.files })
  else (true, r)

/-- Embedding of `CredentialsRepository::credentials`: a file that is not there cannot be
opened. -/
def CredentialsRepository.credentials (r : CredentialsRepository) (location : QString) :
    QVariantMap :=
  match qmapFind location r.files with
  | none => []
  | some encoded => decodeCredentials encoded

/-- A signal that the model emits. -/
inductive ModelSignal where
  | itemChanged (path : QString)
  | connectionStateChanged (path : QString) (state : Int)
  | bestStateChanged

/-- A call that the model sends to the remote manager. -/
inductive ManagerCall where
  | Remove (path : QString)
  | Create (properties : QVariantMap)

/-- State of `VpnModel`: the rows of the list model, the paths that have a proxy in
`connections_`, the two repositories, `bestState_`, and the signals emitted so far. -/
structure VpnModel where
  items : List VpnConnection
  connections_ : List QString
  tokenFiles_ : TokenFileRepository
  credentials_ : CredentialsRepository
  bestState_ : Int
  emitted : List ModelSignal

/-- Embedding of `VpnModel::connection`: the first row with the path. -/
def VpnModel.connection (m : VpnModel) (path : QString) : Option VpnConnection :=
  m.items.find? (fun c => c.path_ == path)

/-- Loop of `updateConnection` that looks for the best state, from `maxState`. -/
def maxStateLoop : List VpnConnection → Int → Int
  | [], maxState => maxState
  | c :: rest, maxState =>
    maxStateLoop rest (if numericValue c.state_ > numericValue maxState then c.state_ else maxState)

/-- Loop of `updateConnection` that looks for the row to sort before: the index of the first
row whose name is greater than `name`, counted from `index`. -/
def sortIndexLoop (name : QString) : List VpnConnection → Nat → Nat
  | [], index => index
  | existing :: rest, index =>
    if qstringLt name existing.name_ then index else sortIndexLoop name rest (index + 1)

/-- Modelled from the spec: `ObjectListModel::moveItem`, of the list container that the model
derives from. With both indices within the list, the row at `oldIndex` is taken out and put
back so that it is the row at `newIndex` afterwards (`QList::move`); otherwise nothing is
done. -/
def moveItem {α : Type} (l : List α) (oldIndex newIndex : Nat) : List α :=
  if newIndex < l.length then
    match l.get? oldIndex with
    | none => l
    | some x => (l.eraseIdx oldIndex).take newIndex ++ x :: (l.eraseIdx oldIndex).drop newIndex
  else l

/-- Embedding of `VpnModel::updateConnection` for the row at `currentIndex`; `updateItem` is
`ObjectListModel::updateItem`, which writes the properties to the record and tells whether
anything changed. -/
def VpnModel.updateConnection (updateItem : VpnConnection → QVariantMap → Bool × VpnConnection)
    (m : VpnModel) (currentIndex : Nat) (updateProperties : QVariantMap) : VpnModel :=
  match m.items.get? currentIndex with
  | none => m
  | some conn =>
    let properties := updateConnectionProperties conn.providerProperties_ updateProperties
    let oldState := conn.state_
    let updated := updateItem conn properties
    let conn1 := updated.2
    let items1 := m.items.set currentIndex conn1
    if updated.1 then
      let itemCount := items1.length
      let m1 : VpnModel := { m with items := items1, emitted := m.emitted ++ [.itemChanged conn1.path_] }
      let m2 : VpnModel :=
        if conn1.state_ ≠ oldState then
          let maxState := maxStateLoop items1 ConnectionState.Idle.toInt
          let m3 : VpnModel :=
            { m1 with emitted := m1.emitted ++ [.connectionStateChanged conn1.path_ conn1.state_] }
          if m.bestState_ ≠ maxState then
            { m3 with bestState_ := maxState, emitted := m3.emitted ++ [.bestStateChanged] }
          else m3
        else m1
      if itemCount > 1 then
        let index := sortIndexLoop conn1.name_ items1 0
        if (index : Int) ≠ (currentIndex : Int) ∧ (index : Int) - 1 ≠ (currentIndex : Int) then
          let newIndex := if currentIndex < index then index - 1 else index
          { m2 with items := moveItem items1 currentIndex newIndex }
        else m2
      else m2
    else { m with items := items1 }

/-- Embedding of `VpnModel::newConnection`: a fresh record is appended, and the path gets a
proxy in `connections_`. -/
def VpnModel.newConnection (m : VpnModel) (path : QString) : VpnModel :=
  { m with
    items := m.items ++ [VpnConnection.new path]
    connections_ := if m.connections_.contains path then m.connections_
      else path :: m.connections_ }

/-- Embedding of the handler of `ConnectionAdded`: a record is made for an unknown path, and
the record of the path is updated with the properties and the two stored flags. -/
def VpnModel.connectionAdded (updateItem : VpnConnection → QVariantMap → Bool × VpnConnection)
    (m : VpnModel) (path : QString) (properties : QVariantMap) : VpnModel :=
  let m1 :=
    match m.connection path with
    | some _ => m
    | none => m.newConnection path
  let qmlProperties :=
    qmapInsert (QStringLiteral "storeCredentials")
      (QVariant.bool (m.credentials_.credentialsExist (locationForObjectPath path)))
      (qmapInsert (QStringLiteral "automaticUpDown")
        (QVariant.bool (m.tokenFiles_.tokenExists (tokenForObjectPath path)))
        (propertiesToQml properties))
  match m1.items.findIdx? (fun c => c.path_ == path) with
  | some currentIndex => m1.updateConnection updateItem currentIndex qmlProperties
  | none => m1

/-- Embedding of the handler of `ConnectionRemoved`: the record with the path is removed
from the rows, and the proxy of the path from `connections_`. -/
def VpnModel.connectionRemoved (m : VpnModel) (path : QString) : VpnModel :=
  let items1 :=
    match m.connection path with
    | some _ => m.items.eraseP (fun c => c.path_ == path)
    | none => m.items
  { m with items := items1, connections_ := m.connections_.erase path }

/-- Embedding of `QVariantMap::value(key)`: an invalid variant when the key is absent. -/
def qmapValue (key : QString) (m : QVariantMap) : QVariant :=
  (qmapFind key m).getD QVariant.invalid

/-- Embedding of `QVariant::toBool`. -/
def QVariant.toBool : QVariant → Bool
  | .bool b => b
  | .int i => i != 0
  | .string s =>
    let l := toLower s
    !(l == QStringLiteral "0" || l == QStringLiteral "false" || l.isEmpty)
  | _ => false

/-- What the reply handler of `modifyConnection` has captured. -/
structure ModifyContinuation where
  token : QString
  automatic : Bool
  wasAutomatic : Bool
  location : QString
  canStoreCredentials : Bool
  couldStoreCredentials : Bool

/-- Embedding of `VpnModel::modifyConnection` up to its return: the model afterwards, the
calls sent to the manager, and the handler left waiting for the reply to `Create`. -/
def VpnModel.modifyConnection (m : VpnModel) (path : QString) (properties : QVariantMap) :
    VpnModel × List ManagerCall × Option ModifyContinuation :=
  match m.connection path with
  | some conn =>
    let updatedProperties :=
      qmapRemove (QStringLiteral "storeCredentials")
        (qmapRemove (QStringLiteral "automaticUpDown")
          (qmapRemove (QStringLiteral "immutable")
            (qmapRemove (QStringLiteral "index")
              (qmapRemove (QStringLiteral "state")
                (qmapRemove (QStringLiteral "path") properties)))))
    let domain := (qmapValue (QStringLiteral "domain") updatedProperties).toString
    let updatedProperties1 :=
      if domain.isEmpty then
        qmapInsert (QStringLiteral "domain") (QVariant.string defaultDomain) updatedProperties
      else updatedProperties
    let token := tokenForObjectPath path
    let location := locationForObjectPath path
    (m, [ManagerCall.Remove conn.path_, ManagerCall.Create (propertiesToDBus updatedProperties1)],
      some
        { token := token
          automatic := (qmapValue (QStringLiteral "automaticUpDown") properties).toBool
          wasAutomatic := m.tokenFiles_.tokenExists token
          location := location
          canStoreCredentials := (qmapValue (QStringLiteral "storeCredentials") properties).toBool
          couldStoreCredentials := m.credentials_.credentialsExist location })
  | none => (m, [], none)

/-- Embedding of the reply handler of `modifyConnection`; `isError` is `reply.isError()`,
and the two outcomes are those of the file operation on the token and on the credentials. -/
def VpnModel.modifyConnectionFinished (m : VpnModel) (k : ModifyContinuation) (isError : Bool)
    (tokenFileOk credentialsFileOk : Bool) : VpnModel :=
  if isError then m
  else
    let tokenFiles1 :=
      if k.automatic ≠ k.wasAutomatic then
        if k.automatic then m.tokenFiles_.ensureToken k.token tokenFileOk
        else m.tokenFiles_.removeToken k.token tokenFileOk
      else m.tokenFiles_
    let credentials1 :=
      if k.canStoreCredentials ≠ k.couldStoreCredentials then
        if k.canStoreCredentials then
          (m.credentials_.storeCredentials k.location [] credentialsFileOk).2
        else (m.credentials_.removeCredentials k.location credentialsFileOk).2
      else m.credentials_
    { m with tokenFiles_ := tokenFiles1, credentials_ := credentials1 }

/-- Rows in non-decreasing order of name: no row has a name less than that of a row before
it. -/
def NameSorted (l : List VpnConnection) : Prop :=
  l.Pairwise (fun a b => qstringLt b.name_ a.name_ = false)

instance (l : List VpnConnection) : Decidable (NameSorted l) := by
  unfold NameSorted
  infer_instance

/-- An `updateItem` for the examples: the roles `name` and `state` are written to the record,
and the result tells whether either changed. -/
def updateNameAndState (conn : VpnConnection) (roles : QVariantMap) : Bool × VpnConnection :=
  let name :=
    match qmapFind (QStringLiteral "name") roles with
    | some (QVariant.string s) => s
    | _ => conn.name_
  let state :=
    match qmapFind (QStringLiteral "state") roles with
    | some (QVariant.int i) => i
    | _ => conn.state_
  (decide (name ≠ conn.name_) || decide (state ≠ conn.state_),
    { conn with name_ := name, state_ := state })


/-- The model as constructed, with what the two directories hold. -/
def VpnModel.initial (tokenFiles_ : TokenFileRepository) (credentials_ : CredentialsRepository) :
    VpnModel :=
  { items := []
    connections_ := []
    tokenFiles_ := tokenFiles_
    credentials_ := credentials_
    bestState_ := ConnectionState.Idle.toInt
    emitted := [] }

/-- Wire properties of a connection, for the examples: its name and its state. -/
def wireNameState (name state : String) : QVariantMap :=
  qmapInsert (QStringLiteral "State") (QVariant.string (QStringLiteral state))
    (qmapInsert (QStringLiteral "Name") (QVariant.string (QStringLiteral name)) [])

/-- Example: three connections have arrived, in the states idle, failure and ready. -/
def VpnModel.idleFailureReady : VpnModel :=
  ((((VpnModel.initial { tokens_ := [] } { files := [] }).connectionAdded updateNameAndState
      (QStringLiteral "/net/connman/vpn/connection/home") (wireNameState "Home" "idle")).connectionAdded
      updateNameAndState
      (QStringLiteral "/net/connman/vpn/connection/lab") (wireNameState "Lab" "failure")).connectionAdded
      updateNameAndState
      (QStringLiteral "/net/connman/vpn/connection/work") (wireNameState "Work" "ready"))
/-! ## The model: flags, credentials, and the events of the manager -/

/-- The rows with the first record of the path `path`, the one that `VpnModel::connection`
finds, replaced by `f` of it. -/
def modifyRecord (path : QString) (f : VpnConnection → VpnConnection) :
    List VpnConnection → List VpnConnection
  | [] => []
  | c :: rest => if c.path_ == path then f c :: rest else c :: modifyRecord path f rest

/-- Embedding of `VpnModel::setAutomaticConnection`; `tokenFileOk` is the outcome of the file
operation on the token. -/
def VpnModel.setAutomaticConnection (m : VpnModel) (path : QString) (enabled : Bool)
    (tokenFileOk : Bool) : VpnModel :=
  match m.connection path with
  | some conn =>
    let token := tokenForObjectPath path
    let wasEnabled := m.tokenFiles_.tokenExists token
    if enabled ≠ wasEnabled then
      let tokenFiles1 :=
        if enabled then m.tokenFiles_.ensureToken token tokenFileOk
        else m.tokenFiles_.removeToken token tokenFileOk
      { m with
        tokenFiles_ := tokenFiles1
        items := modifyRecord path (fun c => { c with automaticUpDown_ := enabled }) m.items
        emitted := m.emitted ++ [.itemChanged conn.path_] }
    else m
  | none => m

/-- Embedding of `VpnModel::connectionCredentials`: the credentials returned and the model
afterwards. -/
def VpnModel.connectionCredentials (m : VpnModel) (path : QString) : QVariantMap × VpnModel :=
  match m.connection path with
  | some conn =>
    let location := locationForObjectPath path
    let enabled := m.credentials_.credentialsExist location
    let rv := if enabled then m.credentials_.credentials location else []
    if conn.storeCredentials_ ≠ enabled then
      (rv, { m with
        items := modifyRecord path (fun c => { c with storeCredentials_ := enabled }) m.items
        emitted := m.emitted ++ [.itemChanged conn.path_] })
    else (rv, m)
  | none => ([], m)

/-- Embedding of `VpnModel::setConnectionCredentials`; `opened` is the outcome of opening the
credentials file for writing. -/
def VpnModel.setConnectionCredentials (m : VpnModel) (path : QString)
    (credentials : QVariantMap) (opened : Bool) : VpnModel :=
  match m.connection path with
  | some conn =>
    let credentials1 :=
      (m.credentials_.storeCredentials (locationForObjectPath path) credentials opened).2
    let items1 :=
      if !conn.storeCredentials_ then
        modifyRecord path (fun c => { c with storeCredentials_ := true }) m.items
      else m.items
    { m with
      credentials_ := credentials1
      items := items1
      emitted := m.emitted ++ [.itemChanged conn.path_] }
  | none => m

/-- Embedding of `VpnModel::connectionCredentialsEnabled`: the value returned and the model
afterwards. -/
def VpnModel.connectionCredentialsEnabled (m : VpnModel) (path : QString) : Bool × VpnModel :=
  match m.connection path with
  | some conn =>
    let location := locationForObjectPath path
    let enabled := m.credentials_.credentialsExist location
    if conn.storeCredentials_ ≠ enabled then
      (enabled, { m with
        items := modifyRecord path (fun c => { c with storeCredentials_ := enabled }) m.items
        emitted := m.emitted ++ [.itemChanged conn.path_] })
    else (enabled, m)
  | none => (false, m)

/-- Embedding of `VpnModel::disableConnectionCredentials`; `removed` is the outcome of
removing the credentials file. -/
def VpnModel.disableConnectionCredentials (m : VpnModel) (path : QString) (removed : Bool) :
    VpnModel :=
  match m.connection path with
  | some conn =>
    let location := locationForObjectPath path
    let credentials1 :=
      if m.credentials_.credentialsExist location then
        (m.credentials_.removeCredentials location removed).2
      else m.credentials_
    let items1 :=
      if conn.storeCredentials_ then
        modifyRecord path (fun c => { c with storeCredentials_ := false }) m.items
      else m.items
    { m with
      credentials_ := credentials1
      items := items1
      emitted := m.emitted ++ [.itemChanged conn.path_] }
  | none => m

/-- Loop of the reply handler of `fetchVpnList` over the connections of the reply: a record
is made for each path, as the last row, and updated; the tokens of the paths are collected. -/
def fetchVpnListLoop (updateItem : VpnConnection → QVariantMap → Bool × VpnConnection) :
    VpnModel → List (QString × QVariantMap) → List QString → VpnModel × List QString
  | m, [], tokens => (m, tokens)
  | m, (path, properties) :: rest, tokens =>
    let qmlProperties :=
      qmapInsert (QStringLiteral "storeCredentials")
        (QVariant.bool (m.credentials_.credentialsExist (locationForObjectPath path)))
        (qmapInsert (QStringLiteral "automaticUpDown")
          (QVariant.bool (m.tokenFiles_.tokenExists (tokenForObjectPath path)))
          (propertiesToQml properties))
    let m1 := m.newConnection path
    let m2 := m1.updateConnection updateItem m.items.length qmlProperties
    fetchVpnListLoop updateItem m2 rest (tokens ++ [tokenForObjectPath path])

/-- Embedding of the reply handler of `VpnModel::fetchVpnList`; `isError` is
`reply.isError()`, `connections` the value of the reply. -/
def VpnModel.fetchVpnListFinished
    (updateItem : VpnConnection → QVariantMap → Bool × VpnConnection) (m : VpnModel)
    (isError : Bool) (connections : List (QString × QVariantMap)) : VpnModel :=
  if isError then m
  else
    let done := fetchVpnListLoop updateItem m connections []
    { done.1 with tokenFiles_ := done.1.tokenFiles_.removeUnknownTokens done.2 }

/-- Embedding of the handler of `serviceUnregistered`: the rows are cleared. -/
def VpnModel.serviceUnregistered (m : VpnModel) : VpnModel :=
  { m with items := [] }

/-- Embedding of the handler of `PropertyChanged` that `newConnection` binds to a record,
here the record at the row `currentIndex`. -/
def VpnModel.propertyChanged
    (updateItem : VpnConnection → QVariantMap → Bool × VpnConnection) (m : VpnModel)
    (currentIndex : Nat) (name : QString) (value : QVariant) : VpnModel :=
  m.updateConnection updateItem currentIndex (propertiesToQml (qmapInsert name value []))

/-- The paths of the records are pairwise different. -/
def UniquePaths (m : VpnModel) : Prop :=
  (m.items.map (fun c => c.path_)).Nodup

instance (m : VpnModel) : Decidable (UniquePaths m) := by
  unfold UniquePaths
  infer_instance

/-- The flag `storeCredentials` of the record of a path, if there is one. -/
def VpnModel.storeCredentialsFlag (m : VpnModel) (path : QString) : Option Bool :=
  (m.connection path).map (fun c => c.storeCredentials_)

/-- The flag `automaticUpDown` of the record of a path, if there is one. -/
def VpnModel.automaticUpDownFlag (m : VpnModel) (path : QString) : Option Bool :=
  (m.connection path).map (fun c => c.automaticUpDown_)

/-- A record with a name and a state, for the examples. -/
def VpnConnection.named (path name : String) (state : ConnectionState) : VpnConnection :=
  { VpnConnection.new (QStringLiteral path) with
    name_ := QStringLiteral name
    state_ := state.toInt }

/-- A model that holds the given records and best state, for the examples. -/
def VpnModel.holding (items : List VpnConnection) (bestState : ConnectionState) : VpnModel :=
  { VpnModel.initial { tokens_ := [] } { files := [] } with
    items := items
    connections_ := items.map (fun c => c.path_)
    bestState_ := bestState.toInt }

/-- Example: of the three connections of `VpnModel.idleFailureReady`, the one at `lab` has
been set to connect automatically and has been given credentials to store. -/
def VpnModel.labAutomatic : VpnModel :=
  (VpnModel.idleFailureReady.setAutomaticConnection
    (QStringLiteral "/net/connman/vpn/connection/lab") true true).setConnectionCredentials
    (QStringLiteral "/net/connman/vpn/connection/lab") [] true

/-- An `updateItem` for the examples: the role `providerProperties` is written to the record.
-/
def updateProviderProperties (conn : VpnConnection) (roles : QVariantMap) :
    Bool × VpnConnection :=
  match qmapFind (QStringLiteral "providerProperties") roles with
  | some (QVariant.map updated) => (true, { conn with providerProperties_ := updated })
  | _ => (false, conn)

/-! ## Lemmas: paths and tokens -/

/-- Position of the last occurrence of a code unit, counted from the front. -/
def lastOccurrence (c : QChar) : QString → Option Nat
  | [] => none
  | x :: xs =>
    match lastOccurrence c xs with
    | some j => some (j + 1)
    | none => if x = c then some 0 else none

theorem lastOccurrence_eq_none (c : QChar) (s : QString) :
    lastOccurrence c s = none ↔ c ∉ s := by
  induction s with
  | nil => simp [lastOccurrence]
  | cons x xs ih =>
    cases h : lastOccurrence c xs with
    | some j =>
      have hx : ¬ c ∉ xs := fun hn => by simp [ih.mpr hn] at h
      have hmem : c ∈ xs := Classical.not_not.mp hx
      simp [lastOccurrence, h, hmem]
    | none =>
      have hx : c ∉ xs := ih.mp h
      by_cases hc : x = c
      · simp [lastOccurrence, h, hc]
      · have hc2 : ¬ c = x := fun e => hc e.symm
        simp [lastOccurrence, h, hc, hc2, hx]

theorem lastOccurrence_lt (c : QChar) (s : QString) (j : Nat)
    (h : lastOccurrence c s = some j) : j < s.length := by
  induction s generalizing j with
  | nil => simp [lastOccurrence] at h
  | cons x xs ih =>
    cases hx : lastOccurrence c xs with
    | some k =>
      simp [lastOccurrence, hx] at h
      have := ih k hx
      simp; omega
    | none =>
      by_cases hc : x = c <;> simp [lastOccurrence, hx, hc] at h
      simp; omega

theorem lastIndexOfFrom_eq (c : QChar) (s : QString) (i : Nat) (found : Int) :
    lastIndexOfFrom c s i found =
      match lastOccurrence c s with
      | some j => ((i + j : Nat) : Int)
      | none => found := by
  induction s generalizing i found with
  | nil => simp [lastIndexOfFrom, lastOccurrence]
  | cons x xs ih =>
    rw [lastIndexOfFrom, ih]
    cases hx : lastOccurrence c xs with
    | some k => simp only [lastOccurrence, hx]; push_cast; ring
    | none => by_cases hc : x = c <;> simp [lastOccurrence, hx, hc]

theorem split_ne_nil (sep : QChar) (s : QString) : split sep s ≠ [] := by
  cases s with
  | nil => simp [split]
  | cons x xs =>
    by_cases hc : x = sep
    · simp [split, hc]
    · cases h : split sep xs <;> simp [split, hc, h]

theorem split_of_not_mem (sep : QChar) (s : QString) (h : sep ∉ s) : split sep s = [s] := by
  induction s with
  | nil => simp [split]
  | cons x xs ih =>
    have hx : ¬ x = sep := fun e => h (by simp [e])
    have hxs : sep ∉ xs := fun e => h (by simp [e])
    simp [split, hx, ih hxs]

theorem split_of_lastOccurrence (sep : QChar) (s : QString) (j : Nat)
    (h : lastOccurrence sep s = some j) :
    ∃ init, init ≠ [] ∧ split sep s = init ++ [s.drop (j + 1)] := by
  induction s generalizing j with
  | nil => simp [lastOccurrence] at h
  | cons x xs ih =>
    cases hx : lastOccurrence sep xs with
    | some k =>
      obtain ⟨init, hne, hsplit⟩ := ih k hx
      have hj : j = k + 1 := by simpa [lastOccurrence, hx] using h.symm
      subst hj
      by_cases hc : x = sep
      · exact ⟨[] :: init, by simp, by simp [split, hc, hsplit]⟩
      · cases init with
        | nil => exact absurd rfl hne
        | cons w ws => exact ⟨(x :: w) :: ws, by simp, by simp [split, hc, hsplit]⟩
    | none =>
      by_cases hc : x = sep
      · have hj : j = 0 := by simpa [lastOccurrence, hx, hc] using h.symm
        subst hj
        have hxs : sep ∉ xs := (lastOccurrence_eq_none sep xs).mp hx
        exact ⟨[[]], by simp, by simp [split, hc, split_of_not_mem sep xs hxs]⟩
      · simp [lastOccurrence, hx, hc] at h

theorem lastSegment_eq (path : QString) :
    lastSegment path =
      match lastOccurrence (QChar.ofChar '/') path with
      | some j => path.drop (j + 1)
      | none => path := by
  unfold lastSegment
  cases h : lastOccurrence (QChar.ofChar '/') path with
  | some j =>
    obtain ⟨init, _, hsplit⟩ := split_of_lastOccurrence _ path j h
    simp [hsplit, List.getLastD_eq_getLast?]
  | none =>
    have hn := (lastOccurrence_eq_none _ path).mp h
    simp [split_of_not_mem _ path hn]

theorem tokenForObjectPath_eq (path : QString) :
    tokenForObjectPath path =
      match lastOccurrence (QChar.ofChar '/') path with
      | some j => path.drop (j + 1)
      | none => [] := by
  unfold tokenForObjectPath lastIndexOf
  rw [lastIndexOfFrom_eq]
  cases h : lastOccurrence (QChar.ofChar '/') path with
  | some j =>
    have hlt := lastOccurrence_lt _ path j h
    have h1 : ¬ (((0 + j : Nat) : Int) = -1) := by omega
    have h2 : ¬ (((0 + j : Nat) : Int) + 1 > (path.length : Int)) := by omega
    have h3 : ¬ (((0 + j : Nat) : Int) + 1 < 0) := by omega
    have h4 : (((0 + j : Nat) : Int) + 1).toNat = j + 1 := by omega
    simp only [ne_eq, h1, not_false_eq_true, if_true, mid, h2, h3, if_false, h4]
  | none => simp

theorem not_mem_drop_lastOccurrence (c : QChar) (s : QString) (j : Nat)
    (h : lastOccurrence c s = some j) : c ∉ s.drop (j + 1) := by
  induction s generalizing j with
  | nil => simp [lastOccurrence] at h
  | cons x xs ih =>
    cases hx : lastOccurrence c xs with
    | some k =>
      have hj : j = k + 1 := by simpa [lastOccurrence, hx] using h.symm
      subst hj
      simpa using ih k hx
    | none =>
      by_cases hc : x = c
      · have hj : j = 0 := by simpa [lastOccurrence, hx, hc] using h.symm
        subst hj
        simpa using (lastOccurrence_eq_none c xs).mp hx
      · simp [lastOccurrence, hx, hc] at h

theorem take_lastOccurrence (c : QChar) (s : QString) (j : Nat)
    (h : lastOccurrence c s = some j) : s = s.take j ++ c :: s.drop (j + 1) := by
  induction s generalizing j with
  | nil => simp [lastOccurrence] at h
  | cons x xs ih =>
    cases hx : lastOccurrence c xs with
    | some k =>
      have hj : j = k + 1 := by simpa [lastOccurrence, hx] using h.symm
      subst hj
      simpa using ih k hx
    | none =>
      by_cases hc : x = c
      · have hj : j = 0 := by simpa [lastOccurrence, hx, hc] using h.symm
        subst hj
        simp [hc]
      · simp [lastOccurrence, hx, hc] at h

theorem tokenExists_iff (r : TokenFileRepository) (t : QString) :
    r.tokenExists t = true ↔ t ∈ r.tokens_ := by
  simp [TokenFileRepository.tokenExists]

theorem ensureToken_tokens (r : TokenFileRepository) (t : QString) :
    (r.ensureToken t true).tokens_ = if t ∈ r.tokens_ then r.tokens_ else r.tokens_ ++ [t] := by
  by_cases h : t ∈ r.tokens_ <;> simp [TokenFileRepository.ensureToken, h]

theorem removeToken_tokens (r : TokenFileRepository) (t : QString) :
    (r.removeToken t true).tokens_ = r.tokens_.erase t := by
  by_cases h : t ∈ r.tokens_
  · simp [TokenFileRepository.removeToken, h]
  · simp [TokenFileRepository.removeToken, h, List.erase_of_not_mem h]

theorem call_nodup (r : TokenFileRepository) (c : TokenCall) (h : r.tokens_.Nodup) :
    (r.call c).tokens_.Nodup := by
  cases c with
  | ensure t =>
    simp only [TokenFileRepository.call, ensureToken_tokens]
    by_cases hm : t ∈ r.tokens_
    · simpa [hm] using h
    · simp only [hm, if_false]
      exact List.Nodup.append h (by simp) (by simpa using hm)
  | remove t =>
    simp only [TokenFileRepository.call, removeToken_tokens]
    exact h.erase t

theorem call_other (r : TokenFileRepository) (c : TokenCall) (t : QString)
    (h : c.token ≠ t) : (r.call c).tokenExists t = r.tokenExists t := by
  have ht : ∀ u : QString, u ≠ t → ¬ t = u := fun u hu e => hu e.symm
  cases c with
  | ensure u =>
    have hu : u ≠ t := h
    rw [Bool.eq_iff_iff, tokenExists_iff, tokenExists_iff]
    simp only [TokenFileRepository.call, ensureToken_tokens]
    by_cases hm : u ∈ r.tokens_
    · simp [hm]
    · simp [hm, ht u hu]
  | remove u =>
    have hu : u ≠ t := h
    rw [Bool.eq_iff_iff, tokenExists_iff, tokenExists_iff]
    simp only [TokenFileRepository.call, removeToken_tokens]
    exact List.mem_erase_of_ne (ht u hu)

theorem call_naming (r : TokenFileRepository) (c : TokenCall) (t : QString)
    (hn : r.tokens_.Nodup) (h : c.token = t) :
    (r.call c).tokenExists t = (match c with | .ensure _ => true | .remove _ => false) := by
  cases c with
  | ensure u =>
    have hu : u = t := h
    subst hu
    rw [tokenExists_iff]
    simp only [TokenFileRepository.call, ensureToken_tokens]
    by_cases hm : u ∈ r.tokens_ <;> simp [hm]
  | remove u =>
    have hu : u = t := h
    subst hu
    rw [Bool.eq_false_iff, Ne, tokenExists_iff]
    simp only [TokenFileRepository.call, removeToken_tokens]
    exact fun hm => (List.Nodup.mem_erase_iff hn).mp hm |>.1 rfl

theorem removeUnknownTokensLoop_eq_filter (known tokens : List QString) :
    removeUnknownTokensLoop known tokens = tokens.filter (fun t => known.contains t) := by
  induction tokens with
  | nil => rfl
  | cons t rest ih =>
    by_cases h : known.contains t = true
    · simp only [removeUnknownTokensLoop, h, if_true, ih, List.filter_cons_of_pos]
    · simp only [removeUnknownTokensLoop, h, if_false, ih, Bool.false_eq_true]
      rw [List.filter_cons_of_neg (by simpa using h)]

/-! ## Lemmas: ordered maps and the credential codec -/

theorem qstringLt_asymm (a b : QString) (h : qstringLt a b = true) : qstringLt b a = false := by
  induction a generalizing b with
  | nil => cases b <;> simp [qstringLt] at h ⊢
  | cons x xs ih =>
    cases b with
    | nil => simp [qstringLt] at h
    | cons y ys =>
      simp only [qstringLt] at h ⊢
      by_cases hxy : x < y
      · have hyx : ¬ y < x := fun e => absurd hxy (not_lt_of_gt e)
        simp [hxy, hyx]
      · by_cases hyx : y < x
        · simp [hxy, hyx] at h
        · simp only [hxy, hyx, if_false] at h ⊢
          exact ih ys h

theorem qstringLt_irrefl (a : QString) : qstringLt a a = false := by
  cases h : qstringLt a a with
  | false => rfl
  | true => have := qstringLt_asymm a a h; simp [h] at this

theorem qstringLt_total (a b : QString) (h1 : qstringLt a b = false)
    (h2 : qstringLt b a = false) : a = b := by
  induction a generalizing b with
  | nil => cases b <;> simp [qstringLt] at h1 ⊢
  | cons x xs ih =>
    cases b with
    | nil => simp [qstringLt] at h2
    | cons y ys =>
      simp only [qstringLt] at h1 h2
      by_cases hxy : x < y
      · simp [hxy] at h1
      · by_cases hyx : y < x
        · simp [hyx] at h2
        · simp only [hxy, hyx, if_false] at h1 h2
          have hx : x = y := le_antisymm (not_lt.mp hyx) (not_lt.mp hxy)
          rw [hx, ih ys h1 h2]

theorem qstringLt_trans (a b c : QString) (h1 : qstringLt a b = true)
    (h2 : qstringLt b c = true) : qstringLt a c = true := by
  induction a generalizing b c with
  | nil =>
    cases c with
    | nil => cases b <;> simp [qstringLt] at h1 h2
    | cons z zs => simp [qstringLt]
  | cons x xs ih =>
    cases b with
    | nil => simp [qstringLt] at h1
    | cons y ys =>
      cases c with
      | nil => simp [qstringLt] at h2
      | cons z zs =>
        simp only [qstringLt] at h1 h2 ⊢
        by_cases hxy : x < y
        · by_cases hyz : y < z
          · simp [lt_trans hxy hyz]
          · by_cases hzy : z < y
            · simp [hyz, hzy] at h2
            · have hy : y = z := le_antisymm (not_lt.mp hzy) (not_lt.mp hyz)
              subst hy
              simp [hxy]
        · by_cases hyx : y < x
          · simp [hxy, hyx] at h1
          · have hx : x = y := le_antisymm (not_lt.mp hyx) (not_lt.mp hxy)
            subst hx
            simp only [hxy, if_false] at h1
            by_cases hxz : x < z
            · simp [hxz]
            · by_cases hzx : z < x
              · simp [hxz, hzx] at h2
              · simp only [hxz, hzx, if_false] at h2 ⊢
                exact ih ys zs h1 h2

theorem qmapInsert_append {V : Type} (key : QString) (value : V) (m : List (QString × V))
    (h : ∀ e ∈ m, qstringLt e.1 key = true) : qmapInsert key value m = m ++ [(key, value)] := by
  induction m with
  | nil => rfl
  | cons e rest ih =>
    obtain ⟨k, v⟩ := e
    have hk : qstringLt k key = true := h (k, v) (by simp)
    have hk2 : qstringLt key k = false := qstringLt_asymm k key hk
    have hrest := ih (fun e he => h e (by simp [he]))
    simp [qmapInsert, hk, hk2, hrest]

theorem qmapFind_insert_self {V : Type} (key : QString) (value : V) (m : List (QString × V)) :
    qmapFind key (qmapInsert key value m) = some value := by
  induction m with
  | nil => simp [qmapInsert, qmapFind]
  | cons e rest ih =>
    obtain ⟨k, v⟩ := e
    by_cases h1 : qstringLt key k = true
    · simp [qmapInsert, h1, qmapFind]
    · by_cases h2 : qstringLt k key = true
      · have hne : ¬ k = key := fun e => by
          rw [e, qstringLt_irrefl] at h2; exact Bool.noConfusion h2
        simp [qmapInsert, h1, h2, qmapFind, hne, ih]
      · simp [qmapInsert, h1, h2, qmapFind]

theorem qmapFind_insert_other {V : Type} (key other : QString) (value : V)
    (m : List (QString × V)) (hne : key ≠ other) :
    qmapFind other (qmapInsert key value m) = qmapFind other m := by
  induction m with
  | nil => simp [qmapInsert, qmapFind, hne]
  | cons e rest ih =>
    obtain ⟨k, v⟩ := e
    by_cases h1 : qstringLt key k = true
    · simp [qmapInsert, h1, qmapFind, hne]
    · by_cases h2 : qstringLt k key = true
      · simp [qmapInsert, h1, h2, qmapFind, ih]
      · have hk : key = k := qstringLt_total key k (by simpa using h1) (by simpa using h2)
        subst hk
        simp [qmapInsert, h1, qmapFind, hne]

theorem base64Digit_alphabetAt : ∀ i : Fin 64, base64Digit (alphabetAt i.val) = some i.val := by
  decide

theorem base64Digit_alphabetAt_lt (i : Nat) (h : i < 64) :
    base64Digit (alphabetAt i) = some i := base64Digit_alphabetAt ⟨i, h⟩

theorem base64Digit_padchar : base64Digit padchar = none := by decide

theorem fromBase64Loop_chunk (a b c : Byte) (rest : QByteArray) :
    fromBase64Loop
      (alphabetAt ((a.val * 65536 + b.val * 256 + c.val) / 262144 % 64) ::
       alphabetAt ((a.val * 65536 + b.val * 256 + c.val) / 4096 % 64) ::
       alphabetAt ((a.val * 65536 + b.val * 256 + c.val) / 64 % 64) ::
       alphabetAt ((a.val * 65536 + b.val * 256 + c.val) % 64) :: rest) 0 0 =
      a :: b :: c :: fromBase64Loop rest 0 0 := by
  obtain ⟨x, hx⟩ := a
  obtain ⟨y, hy⟩ := b
  obtain ⟨z, hz⟩ := c
  simp only [fromBase64Loop]
  rw [base64Digit_alphabetAt_lt _ (Nat.mod_lt _ (by decide)),
    base64Digit_alphabetAt_lt _ (Nat.mod_lt _ (by decide)),
    base64Digit_alphabetAt_lt _ (Nat.mod_lt _ (by decide)),
    base64Digit_alphabetAt_lt _ (Nat.mod_lt _ (by decide))]
  simp only [Nat.zero_mul, Nat.zero_add, Nat.reduceAdd, Nat.reduceSub, Nat.reducePow,
    ge_iff_le, Nat.reduceLeDiff, if_true, if_false, Byte.ofNat]
  congr 1
  · apply Fin.ext; simp only; omega
  congr 1
  · apply Fin.ext; simp only; omega
  congr 1
  · apply Fin.ext; simp only; omega
  · rw [Nat.mod_one]

theorem fromBase64Loop_tail2 (a b : Byte) :
    fromBase64Loop
      [alphabetAt ((a.val * 65536 + b.val * 256) / 262144 % 64),
       alphabetAt ((a.val * 65536 + b.val * 256) / 4096 % 64),
       alphabetAt ((a.val * 65536 + b.val * 256) / 64 % 64), padchar] 0 0 = [a, b] := by
  obtain ⟨x, hx⟩ := a
  obtain ⟨y, hy⟩ := b
  simp only [fromBase64Loop]
  rw [base64Digit_alphabetAt_lt _ (Nat.mod_lt _ (by decide)),
    base64Digit_alphabetAt_lt _ (Nat.mod_lt _ (by decide)),
    base64Digit_alphabetAt_lt _ (Nat.mod_lt _ (by decide)), base64Digit_padchar]
  simp only [Nat.zero_mul, Nat.zero_add, Nat.reduceAdd, Nat.reduceSub, Nat.reducePow,
    ge_iff_le, Nat.reduceLeDiff, if_true, if_false, Byte.ofNat]
  congr 1
  · apply Fin.ext; simp only; omega
  congr 1
  · apply Fin.ext; simp only; omega

theorem fromBase64Loop_tail1 (a : Byte) :
    fromBase64Loop
      [alphabetAt (a.val * 65536 / 262144 % 64),
       alphabetAt (a.val * 65536 / 4096 % 64), padchar, padchar] 0 0 = [a] := by
  obtain ⟨x, hx⟩ := a
  simp only [fromBase64Loop]
  rw [base64Digit_alphabetAt_lt _ (Nat.mod_lt _ (by decide)),
    base64Digit_alphabetAt_lt _ (Nat.mod_lt _ (by decide)), base64Digit_padchar]
  simp only [Nat.zero_mul, Nat.zero_add, Nat.reduceAdd, Nat.reduceSub, Nat.reducePow,
    ge_iff_le, Nat.reduceLeDiff, if_true, if_false, Byte.ofNat]
  congr 1
  apply Fin.ext; simp only; omega

theorem fromBase64_toBase64 (bytes : QByteArray) : fromBase64 (toBase64 bytes) = bytes := by
  unfold fromBase64
  induction bytes using toBase64.induct with
  | case1 => rfl
  | case2 a => exact fromBase64Loop_tail1 a
  | case3 a b => exact fromBase64Loop_tail2 a b
  | case4 a b c rest ih =>
    simp only [toBase64]
    rw [fromBase64Loop_chunk, ih]

theorem readUInt32_writeUInt32 (n : Nat) (rest : QByteArray) (h : n < 4294967296) :
    readUInt32 (writeUInt32 n ++ rest) = (n, rest) := by
  simp only [writeUInt32, Byte.ofNat, List.cons_append, List.nil_append, readUInt32]
  congr 1
  omega

theorem utf16Bytes_length (s : QString) : (utf16Bytes s).length = 2 * s.length := by
  induction s with
  | nil => rfl
  | cons c cs ih => simp [utf16Bytes, ih]; omega

theorem utf16Units_utf16Bytes (s : QString) : utf16Units (utf16Bytes s) = s := by
  induction s with
  | nil => rfl
  | cons c cs ih =>
    obtain ⟨x, hx⟩ := c
    simp only [utf16Bytes, utf16Units, Byte.ofNat, ih]
    congr 1
    apply Fin.ext; simp only; omega

theorem readQString_writeQString (s : QString) (rest : QByteArray)
    (h : s.length < 2147483648) : readQString (writeQString s ++ rest) = (s, rest) := by
  have hlen : 2 * s.length % 4294967296 = 2 * s.length := Nat.mod_eq_of_lt (by omega)
  unfold readQString writeQString
  rw [hlen, List.append_assoc, readUInt32_writeUInt32 _ _ (by omega)]
  simp only
  have h1 : ¬ (2 * s.length = 4294967295) := by omega
  rw [if_neg h1]
  by_cases h0 : s.length = 0
  · have hs : s = [] := List.length_eq_zero.mp h0
    subst hs
    simp [utf16Bytes]
  · have h2 : 2 * s.length > 0 := by omega
    have h3 : ¬ (2 * s.length % 2 = 1) := by omega
    have h4 : ¬ ((utf16Bytes s ++ rest).length < 2 * s.length) := by
      simp [utf16Bytes_length]
    rw [if_pos h2, if_neg h3, if_neg h4]
    have h5 : (utf16Bytes s).length = 2 * s.length := utf16Bytes_length s
    rw [List.take_left' h5, List.drop_left' h5, utf16Units_utf16Bytes]

theorem decodeItems_encodeItems (m acc : QVariantMap) (rest : QByteArray)
    (hstr : StringValued m)
    (hsize : ∀ e ∈ m, e.1.length < 2147483648 ∧ e.2.toString.length < 2147483648)
    (hord : QMapOrdered (acc ++ m)) :
    decodeItems m.length (encodeItems m ++ rest) acc = acc ++ m := by
  induction m generalizing acc with
  | nil => simp [decodeItems]
  | cons e tail ih =>
    obtain ⟨k, v⟩ := e
    have hv : v.isString = true := hstr (k, v) (by simp)
    obtain ⟨s, hs⟩ : ∃ s, v = QVariant.string s := by
      cases v <;> simp [QVariant.isString] at hv
      exact ⟨_, rfl⟩
    subst hs
    have hk := (hsize (k, QVariant.string s) (by simp)).1
    have hsl := (hsize (k, QVariant.string s) (by simp)).2
    simp only [QVariant.toString] at hsl
    simp only [List.length_cons, decodeItems, encodeItems, QVariant.toString,
      List.append_assoc]
    rw [readQString_writeQString k _ hk]
    simp only
    rw [readQString_writeQString s _ hsl]
    simp only
    have hacc : ∀ e ∈ acc, qstringLt e.1 k = true := by
      intro e he
      have := List.pairwise_append.mp hord
      exact this.2.2 e he (k, QVariant.string s) (by simp)
    rw [qmapInsert_append k _ acc hacc]
    have hord2 : QMapOrdered ((acc ++ [(k, QVariant.string s)]) ++ tail) := by
      simpa [QMapOrdered] using hord
    have := ih (acc ++ [(k, QVariant.string s)]) (fun e he => hstr e (by simp [he]))
      (fun e he => hsize e (by simp [he])) hord2
    rw [this]
    simp

/-! ## Lemmas: the property translator -/

theorem indexOf_ne_neg_one (s : QString) (c : QChar) : indexOf s c ≠ -1 ↔ c ∈ s := by
  unfold indexOf
  by_cases h : c ∈ s
  · simp only [h, if_true, iff_true]
    omega
  · simp [h]

theorem toLower_val_of_upper (c : QChar) (h : 65 ≤ c.val ∧ c.val ≤ 90) :
    (QChar.toLower c).val = c.val + 32 := by
  unfold QChar.toLower
  rw [if_pos h]
  simp only
  omega

theorem toUpper_toLower_of_upper (c : QChar) (h : 65 ≤ c.val ∧ c.val ≤ 90) :
    QChar.toUpper (QChar.toLower c) = c := by
  have hv := toLower_val_of_upper c h
  apply Fin.ext
  unfold QChar.toUpper
  rw [if_pos (by omega)]
  simp only
  omega

theorem toLower_of_not_upper (c : QChar) (h : ¬ (65 ≤ c.val ∧ c.val ≤ 90)) :
    QChar.toLower c = c := by
  unfold QChar.toLower
  rw [if_neg h]

theorem toLower_toLower (c : QChar) : QChar.toLower (QChar.toLower c) = QChar.toLower c := by
  by_cases h : 65 ≤ c.val ∧ c.val ≤ 90
  · have hv := toLower_val_of_upper c h
    exact toLower_of_not_upper _ (by omega)
  · rw [toLower_of_not_upper c h, toLower_of_not_upper c h]

theorem toLower_lowerInitial (key : QString) : toLower (lowerInitial key) = toLower key := by
  cases key with
  | nil => rfl
  | cons c cs => simp [lowerInitial, toLower, toLower_toLower]

theorem toLower_ne_dot (c : QChar) (h : c ≠ QChar.ofChar '.') :
    QChar.toLower c ≠ QChar.ofChar '.' := by
  by_cases hu : 65 ≤ c.val ∧ c.val ≤ 90
  · have hv := toLower_val_of_upper c hu
    intro e
    have : (QChar.toLower c).val = 46 := by rw [e]; rfl
    omega
  · unfold QChar.toLower
    rw [if_neg hu]
    exact h

theorem not_mem_lowerInitial (key : QString) (h : QChar.ofChar '.' ∉ key) :
    QChar.ofChar '.' ∉ lowerInitial key := by
  cases key with
  | nil => simp [lowerInitial]
  | cons c cs =>
    simp only [lowerInitial, List.mem_cons, not_or] at h ⊢
    exact ⟨fun e => toLower_ne_dot c (fun e2 => h.1 e2.symm) e.symm, h.2⟩

theorem upperInitial_lowerInitial (key : QString) (h : CapitalizedKey key) :
    upperInitial (lowerInitial key) = key := by
  cases key with
  | nil => rfl
  | cons c cs =>
    simp only [CapitalizedKey] at h
    simp [lowerInitial, upperInitial, toUpper_toLower_of_upper c h.1]

theorem lowerInitial_ne (key target : QString) (h : CapitalizedKey key)
    (hne : key ≠ upperInitial target) : lowerInitial key ≠ target := by
  intro e
  apply hne
  rw [← e, upperInitial_lowerInitial key h]

theorem qstringLt_lowerInitial (a b : QString) (ha : CapitalizedKey a) (hb : CapitalizedKey b)
    (h : qstringLt a b = true) : qstringLt (lowerInitial a) (lowerInitial b) = true := by
  cases a with
  | nil => exact absurd ha (by simp [CapitalizedKey])
  | cons x xs =>
    cases b with
    | nil => exact absurd hb (by simp [CapitalizedKey])
    | cons y ys =>
      simp only [CapitalizedKey] at ha hb
      have hx := toLower_val_of_upper x ha.1
      have hy := toLower_val_of_upper y hb.1
      simp only [lowerInitial, qstringLt, Fin.lt_def, hx, hy] at h ⊢
      simpa using h

theorem mem_qmapInsert {V : Type} (key : QString) (value : V) (m : List (QString × V))
    (e : QString × V) (h : e ∈ qmapInsert key value m) : e = (key, value) ∨ e ∈ m := by
  induction m with
  | nil => simpa [qmapInsert] using h
  | cons d rest ih =>
    obtain ⟨k, v⟩ := d
    by_cases h1 : qstringLt key k = true
    · simp only [qmapInsert, h1, if_true, List.mem_cons] at h
      rcases h with hm | hm | hm
      · exact Or.inl hm
      · exact Or.inr (by simp [hm])
      · exact Or.inr (by simp [hm])
    · by_cases h2 : qstringLt k key = true
      · simp only [qmapInsert, h1, h2, if_true, Bool.false_eq_true, if_false, List.mem_cons] at h
        rcases h with hm | hm
        · exact Or.inr (by simp [hm])
        · rcases ih hm with hm2 | hm2
          · exact Or.inl hm2
          · exact Or.inr (by simp [hm2])
      · simp only [qmapInsert, h1, h2, Bool.false_eq_true, if_false, List.mem_cons] at h
        rcases h with hm | hm
        · exact Or.inl hm
        · exact Or.inr (by simp [hm])

theorem qmapFind_qmapRemove {V : Type} (key : QString) (m : List (QString × V)) :
    qmapFind key (qmapRemove key m) = none := by
  induction m with
  | nil => rfl
  | cons d rest ih =>
    obtain ⟨k, v⟩ := d
    by_cases h : k = key
    · simpa [qmapRemove, h] using ih
    · simpa [qmapRemove, h, qmapFind] using ih

theorem qmapFind_eq_none {V : Type} (key : QString) (m : List (QString × V)) :
    qmapFind key m = none ↔ ∀ e ∈ m, e.1 ≠ key := by
  induction m with
  | nil => simp [qmapFind]
  | cons d rest ih =>
    obtain ⟨k, v⟩ := d
    by_cases h : k = key
    · simp [qmapFind, h]
    · simp [qmapFind, h, ih]

theorem insertAll_of_ordered (l acc : QVariantMap) (h : QMapOrdered (acc ++ l)) :
    insertAll l acc = acc ++ l := by
  induction l generalizing acc with
  | nil => simp [insertAll]
  | cons e rest ih =>
    obtain ⟨k, v⟩ := e
    have hacc : ∀ d ∈ acc, qstringLt d.1 k = true := fun d hd =>
      (List.pairwise_append.mp h).2.2 d hd (k, v) (by simp)
    have h2 : QMapOrdered ((acc ++ [(k, v)]) ++ rest) := by simpa [QMapOrdered] using h
    simp only [insertAll]
    rw [qmapInsert_append k v acc hacc, ih _ h2]
    simp

theorem convertValue_of_not_converted (key : QString) (value : QVariant) (toDBus : Bool)
    (h : qmapFind (toLower key) propertyConversions = none) :
    convertValue key value toDBus = value := by
  unfold convertValue
  rw [h]

theorem convert_round_trip (key : QString) (value : QVariant) (h : TableValued (key, value)) :
    convertToDBus key (convertToQml (lowerInitial key) value) = value := by
  unfold convertToDBus convertToQml convertValue
  rw [toLower_lowerInitial]
  cases hf : qmapFind (toLower key) propertyConversions with
  | none => simp
  | some list =>
    obtain ⟨pair, hpair, hv⟩ := h list hf
    simp only at hv
    subst hv
    simp only [propertyConversions, qmapFind] at hf
    split_ifs at hf with h1 h2
    · cases hf
      simp only [List.mem_cons, List.mem_singleton, List.not_mem_nil, or_false] at hpair
      rcases hpair with h | h | h | h | h <;> subst h <;> rfl
    · cases hf
      simp only [List.mem_cons, List.mem_singleton, List.not_mem_nil, or_false] at hpair
      rcases hpair with h | h | h | h | h <;> subst h <;> rfl

theorem ordered_map_qmlEntry (m : QVariantMap) (hcap : ∀ e ∈ m, CapitalizedKey e.1)
    (h : QMapOrdered m) : QMapOrdered (m.map qmlEntry) := by
  unfold QMapOrdered at *
  rw [List.pairwise_map]
  exact List.Pairwise.imp_of_mem
    (fun ha hb hab => qstringLt_lowerInitial _ _ (hcap _ ha) (hcap _ hb) hab) h

theorem capitalized_no_dot (key : QString) (h : CapitalizedKey key) :
    QChar.ofChar '.' ∉ key := by
  cases key with
  | nil => simp
  | cons c cs => exact h.2

theorem propertiesToQmlLoop_capitalized (l rv pp : QVariantMap)
    (hl : ∀ e ∈ l, CapitalizedKey e.1 ∧ e.1 ∉ extractedKeys)
    (hord : QMapOrdered (rv ++ l.map qmlEntry)) :
    propertiesToQmlLoop l rv pp = (rv ++ l.map qmlEntry, pp) := by
  induction l generalizing rv with
  | nil => simp [propertiesToQmlLoop]
  | cons e rest ih =>
    obtain ⟨k, v⟩ := e
    obtain ⟨hcap, hext⟩ := hl (k, v) (by simp)
    have hdot : ¬ (indexOf k (QChar.ofChar '.') ≠ -1) := fun hd =>
      capitalized_no_dot k hcap ((indexOf_ne_neg_one k _).mp hd)
    simp only [extractedKeys, List.mem_cons, List.mem_singleton, List.not_mem_nil, or_false,
      not_or] at hext
    have e1 : lowerInitial k ≠ QStringLiteral "iPv4" :=
      lowerInitial_ne k _ hcap (by rw [show upperInitial (QStringLiteral "iPv4") =
        QStringLiteral "IPv4" from by decide]; exact hext.1)
    have e2 : lowerInitial k ≠ QStringLiteral "iPv6" :=
      lowerInitial_ne k _ hcap (by rw [show upperInitial (QStringLiteral "iPv6") =
        QStringLiteral "IPv6" from by decide]; exact hext.2.1)
    have e3 : lowerInitial k ≠ QStringLiteral "serverRoutes" :=
      lowerInitial_ne k _ hcap (by rw [show upperInitial (QStringLiteral "serverRoutes") =
        QStringLiteral "ServerRoutes" from by decide]; exact hext.2.2.1)
    have e4 : lowerInitial k ≠ QStringLiteral "userRoutes" :=
      lowerInitial_ne k _ hcap (by rw [show upperInitial (QStringLiteral "userRoutes") =
        QStringLiteral "UserRoutes" from by decide]; exact hext.2.2.2)
    have hacc : ∀ d ∈ rv, qstringLt d.1 (lowerInitial k) = true := fun d hd =>
      (List.pairwise_append.mp hord).2.2 d hd (qmlEntry (k, v)) (by simp)
    have hord2 : QMapOrdered ((rv ++ [qmlEntry (k, v)]) ++ rest.map qmlEntry) := by
      simpa [QMapOrdered] using hord
    simp only [propertiesToQmlLoop, hdot, if_false, e1, e2, e3, e4, or_self]
    rw [qmapInsert_append _ _ rv hacc]
    have := ih (rv ++ [qmlEntry (k, v)]) (fun d hd => hl d (by simp [hd])) hord2
    simp only [qmlEntry] at this ⊢
    rw [this]
    simp [qmlEntry]

theorem propertiesToDBusLoop_qmlEntry (l acc : QVariantMap) (hl : ∀ e ∈ l, WireEntry e)
    (hord : QMapOrdered (acc ++ l)) :
    propertiesToDBusLoop (l.map qmlEntry) acc = acc ++ l := by
  induction l generalizing acc with
  | nil => simp [propertiesToDBusLoop]
  | cons e rest ih =>
    obtain ⟨k, v⟩ := e
    obtain ⟨hcap, _, hpp, htab⟩ := hl (k, v) (by simp)
    have e1 : lowerInitial k ≠ QStringLiteral "providerProperties" :=
      lowerInitial_ne k _ hcap (by rw [show upperInitial (QStringLiteral "providerProperties") =
        QStringLiteral "ProviderProperties" from by decide]; exact hpp)
    have hacc : ∀ d ∈ acc, qstringLt d.1 k = true := fun d hd =>
      (List.pairwise_append.mp hord).2.2 d hd (k, v) (by simp)
    have hord2 : QMapOrdered ((acc ++ [(k, v)]) ++ rest) := by
      simpa [QMapOrdered] using hord
    simp only [List.map_cons, qmlEntry, propertiesToDBusLoop, e1, if_false]
    rw [upperInitial_lowerInitial k hcap, convert_round_trip k v htab,
      qmapInsert_append _ _ acc hacc]
    have := ih (acc ++ [(k, v)]) (fun d hd => hl d (by simp [hd])) hord2
    rw [this]
    simp

theorem lowerInitial_eq (key target : QString) (h : lowerInitial key = target) :
    key = target ∨ key = upperInitial target := by
  cases key with
  | nil => left; simpa [lowerInitial] using h
  | cons c cs =>
    subst h
    by_cases hu : 65 ≤ c.val ∧ c.val ≤ 90
    · right
      simp [lowerInitial, upperInitial, toUpper_toLower_of_upper c hu]
    · left
      simp [lowerInitial, toLower_of_not_upper c hu]

theorem propertiesToQmlLoop_cons (e : QString × QVariant) (rest rv pp : QVariantMap) :
    ∃ rv1 pp1, propertiesToQmlLoop (e :: rest) rv pp = propertiesToQmlLoop rest rv1 pp1 := by
  obtain ⟨k, v⟩ := e
  by_cases hd : indexOf k (QChar.ofChar '.') ≠ -1
  · exact ⟨rv, qmapInsert k v pp, by rw [propertiesToQmlLoop, if_pos hd]⟩
  · exact ⟨_, pp, by rw [propertiesToQmlLoop, if_neg hd]⟩

theorem propertiesToQmlLoop_find_frame (l rv pp : QVariantMap) (key : QString)
    (h : ∀ e ∈ l, QChar.ofChar '.' ∉ e.1 → lowerInitial e.1 ≠ key) :
    qmapFind key (propertiesToQmlLoop l rv pp).1 = qmapFind key rv := by
  induction l generalizing rv pp with
  | nil => simp [propertiesToQmlLoop]
  | cons e rest ih =>
    obtain ⟨k, v⟩ := e
    have hrest : ∀ e ∈ rest, QChar.ofChar '.' ∉ e.1 → lowerInitial e.1 ≠ key :=
      fun d hd => h d (by simp [hd])
    by_cases hd : indexOf k (QChar.ofChar '.') ≠ -1
    · rw [propertiesToQmlLoop, if_pos hd]
      exact ih rv _ hrest
    · have hk : QChar.ofChar '.' ∉ k := fun hm => hd ((indexOf_ne_neg_one k _).mpr hm)
      rw [propertiesToQmlLoop, if_neg hd]
      rw [ih _ pp hrest]
      exact qmapFind_insert_other _ _ _ _ (h (k, v) (by simp) hk)

theorem propertiesToQmlLoop_find_domain (l rv pp : QVariantMap) (v : QVariant)
    (hord : QMapOrdered l) (hD : qmapFind (QStringLiteral "Domain") l = some v)
    (hd : ∀ e ∈ l, e.1 ≠ QStringLiteral "domain") :
    qmapFind (QStringLiteral "domain") (propertiesToQmlLoop l rv pp).1 = some v := by
  induction l generalizing rv pp with
  | nil => simp [qmapFind] at hD
  | cons e rest ih =>
    obtain ⟨k, x⟩ := e
    have hordr : QMapOrdered rest := (List.pairwise_cons.mp hord).2
    have hdr : ∀ e ∈ rest, e.1 ≠ QStringLiteral "domain" := fun d hm => hd d (by simp [hm])
    by_cases hk : k = QStringLiteral "Domain"
    · subst hk
      have hx : x = v := by simpa [qmapFind] using hD
      subst hx
      have hstep : propertiesToQmlLoop ((QStringLiteral "Domain", x) :: rest) rv pp =
          propertiesToQmlLoop rest (qmapInsert (QStringLiteral "domain") x rv) pp := rfl
      rw [hstep, propertiesToQmlLoop_find_frame rest _ pp (QStringLiteral "domain"),
        qmapFind_insert_self]
      intro d hm _ hlow
      have hlt : qstringLt (QStringLiteral "Domain") d.1 = true :=
        (List.pairwise_cons.mp hord).1 d hm
      rcases lowerInitial_eq d.1 _ hlow with h1 | h1
      · exact hdr d hm h1
      · rw [h1, show upperInitial (QStringLiteral "domain") = QStringLiteral "Domain" from
          by decide, qstringLt_irrefl] at hlt
        exact Bool.noConfusion hlt
    · have hDr : qmapFind (QStringLiteral "Domain") rest = some v := by
        simpa [qmapFind, hk] using hD
      obtain ⟨rv1, pp1, hstep⟩ := propertiesToQmlLoop_cons (k, x) rest rv pp
      rw [hstep]
      exact ih rv1 pp1 hordr hDr hdr

theorem propertiesToQmlLoop_no_dot (l rv pp : QVariantMap)
    (h : ∀ e ∈ rv, QChar.ofChar '.' ∉ e.1) :
    ∀ e ∈ (propertiesToQmlLoop l rv pp).1, QChar.ofChar '.' ∉ e.1 := by
  induction l generalizing rv pp with
  | nil => simpa [propertiesToQmlLoop] using h
  | cons e rest ih =>
    obtain ⟨k, v⟩ := e
    by_cases hd : indexOf k (QChar.ofChar '.') ≠ -1
    · rw [propertiesToQmlLoop, if_pos hd]
      exact ih rv _ h
    · have hk : QChar.ofChar '.' ∉ k := fun hm => hd ((indexOf_ne_neg_one k _).mpr hm)
      rw [propertiesToQmlLoop, if_neg hd]
      apply ih
      intro d hm
      rcases mem_qmapInsert _ _ _ _ hm with h1 | h1
      · rw [h1]
        exact not_mem_lowerInitial k hk
      · exact h d h1

theorem propertiesToQmlLoop_providerProperties (l rv pp : QVariantMap)
    (hord : QMapOrdered (pp ++ l.filter dotted)) :
    (propertiesToQmlLoop l rv pp).2 = pp ++ l.filter dotted := by
  induction l generalizing rv pp with
  | nil => simp [propertiesToQmlLoop]
  | cons e rest ih =>
    obtain ⟨k, v⟩ := e
    by_cases hd : indexOf k (QChar.ofChar '.') ≠ -1
    · have hk : dotted (k, v) = true := by
        simpa [dotted] using (indexOf_ne_neg_one k _).mp hd
      rw [List.filter_cons_of_pos hk] at hord ⊢
      have hacc : ∀ d ∈ pp, qstringLt d.1 k = true := fun d hm =>
        (List.pairwise_append.mp hord).2.2 d hm (k, v) (by simp)
      have hord2 : QMapOrdered ((pp ++ [(k, v)]) ++ rest.filter dotted) := by
        simpa [QMapOrdered] using hord
      rw [propertiesToQmlLoop, if_pos hd]
      rw [qmapInsert_append k v pp hacc, ih rv _ hord2]
      simp
    · have hk : ¬ dotted (k, v) = true := by
        simpa [dotted] using fun hm => hd ((indexOf_ne_neg_one k _).mpr hm)
      rw [List.filter_cons_of_neg hk] at hord ⊢
      rw [propertiesToQmlLoop, if_neg hd]
      exact ih _ pp hord

theorem ordered_filter (m : QVariantMap) (p : QString × QVariant → Bool) (h : QMapOrdered m) :
    QMapOrdered (m.filter p) :=
  List.Pairwise.sublist (List.filter_sublist m) h

/-! ## Lemmas: the provisioning importer -/

theorem splitWhitespaceFrom_of_ne_nil (cs cur : QString) (h : cur ≠ []) :
    ∃ w ws, splitWhitespaceFrom cs cur = (cur ++ w) :: ws := by
  induction cs generalizing cur with
  | nil =>
    refine ⟨[], [], ?_⟩
    cases cur with
    | nil => exact absurd rfl h
    | cons x xs => simp [splitWhitespaceFrom]
  | cons c cs ih =>
    by_cases hc : c.isSpace = true
    · refine ⟨[], splitWhitespaceFrom cs [], ?_⟩
      cases cur with
      | nil => exact absurd rfl h
      | cons x xs => simp [splitWhitespaceFrom, hc]
    · obtain ⟨w, ws, hw⟩ := ih (cur ++ [c]) (by simp)
      refine ⟨c :: w, ws, ?_⟩
      simp only [splitWhitespaceFrom, hc, Bool.false_eq_true, if_false, hw]
      simp

theorem splitWhitespace_head (line w : QString) (ws : List QString)
    (h : splitWhitespace line = w :: ws) :
    ∃ c w1 r, w = c :: w1 ∧ skipSpaces line = c :: r := by
  unfold splitWhitespace at h
  induction line with
  | nil => simp [splitWhitespaceFrom] at h
  | cons c cs ih =>
    by_cases hc : c.isSpace = true
    · simp only [splitWhitespaceFrom, hc, if_true, List.isEmpty_nil] at h
      obtain ⟨d, w1, r, hw, hs⟩ := ih h
      exact ⟨d, w1, r, hw, by simpa [skipSpaces, List.dropWhile, hc] using hs⟩
    · obtain ⟨v, vs, hv⟩ := splitWhitespaceFrom_of_ne_nil cs [c] (by simp)
      simp only [splitWhitespaceFrom, hc, Bool.false_eq_true, if_false, List.nil_append,
        hv] at h
      have hw : [c] ++ v = w := (List.cons.inj h).1
      exact ⟨c, v, cs, by simpa using hw.symm, by simp [skipSpaces, List.dropWhile, hc]⟩

theorem directive_line_is_plain (line w : QString) (ws : List QString) (c : QChar)
    (w1 : QString) (h : splitWhitespace line = w :: ws) (hw : w = c :: w1)
    (h1 : c ≠ QChar.ofChar '#') (h2 : c ≠ QChar.ofChar ';') (h3 : c ≠ QChar.ofChar '<') :
    matchesCommentLeader line = false ∧ matchEmbeddedLeader line = none ∧
      matchEmbeddedTrailer line = none := by
  obtain ⟨d, v, r, hd, hs⟩ := splitWhitespace_head line w ws h
  have hcd : d = c := by
    rw [hd] at hw
    exact (List.cons.inj hw).1
  subst hcd
  refine ⟨?_, ?_, ?_⟩
  · simp [matchesCommentLeader, hs, h1, h2]
  · simp [matchEmbeddedLeader, hs, h3]
  · unfold matchEmbeddedTrailer
    rw [hs]
    cases r with
    | nil => rfl
    | cons e r2 => simp [h3]

theorem remote_line_is_plain (line : QString) (arguments : List QString)
    (h : splitWhitespace line = QStringLiteral "remote" :: arguments) :
    matchesCommentLeader line = false ∧ matchEmbeddedLeader line = none ∧
      matchEmbeddedTrailer line = none :=
  directive_line_is_plain line _ arguments (QChar.ofChar 'r') (QStringLiteral "emote") h rfl
    (by decide) (by decide) (by decide)

theorem processLine_remote (env : ImportEnv) (st : ImportState) (line : QString)
    (arguments : List QString) (hout : st.embeddedMarker = [])
    (h : splitWhitespace line = QStringLiteral "remote" :: arguments) :
    processLine env st line = some (remoteDirective st line arguments) := by
  obtain ⟨h1, h2, h3⟩ := remote_line_is_plain line arguments h
  simp [processLine, h1, h2, h3, hout, processDirective, h]

theorem processLines_append (env : ImportEnv) (st : ImportState) (a b : List QString) :
    processLines env st (a ++ b) =
      (processLines env st a).bind (fun s => processLines env s b) := by
  induction a generalizing st with
  | nil => simp [processLines]
  | cons line rest ih =>
    simp only [List.cons_append, processLines]
    cases processLine env st line with
    | none => simp
    | some s1 => simpa using ih s1

theorem otherKeys_ne (key : String) (target : QString) (hk : key ∈ otherKeys)
    (ht : target ∈ remoteKeys) : QStringLiteral key ≠ target := by
  simp only [otherKeys, List.mem_cons, List.mem_singleton, List.not_mem_nil, or_false] at hk
  simp only [remoteKeys, List.mem_cons, List.mem_singleton, List.not_mem_nil, or_false] at ht
  rcases ht with h | h | h <;> subst h <;>
    rcases hk with h | h | h | h | h | h | h | h | h | h | h | h | h | h <;> subst h <;> decide

theorem SetsOtherKey.find (st st1 : ImportState) (target : QString) (h : SetsOtherKey st st1)
    (ht : target ∈ remoteKeys) : qmapFind target st1.rv = qmapFind target st.rv := by
  rcases h with h | ⟨key, value, hk, h⟩
  · rw [h]
  · rw [h]
    exact qmapFind_insert_other _ _ _ _ (otherKeys_ne key target hk ht)

theorem setsOtherKey_insert (st : ImportState) (key : String) (value : QString)
    (hk : key ∈ otherKeys) : SetsOtherKey st (st.insert key value) :=
  Or.inr ⟨key, value, hk, rfl⟩

theorem closeEmbedded_sets (env : ImportEnv) (st : ImportState) (marker : QString) :
    SetsOtherKey st (closeEmbedded env st marker) := by
  unfold closeEmbedded
  simp only
  split_ifs
  · exact Or.inl rfl
  · exact Or.inl rfl
  · exact Or.inl rfl
  · exact Or.inl rfl
  · exact Or.inl rfl
  · exact Or.inr ⟨"OpenVPN.CACert", _, by decide, rfl⟩
  · exact Or.inr ⟨"OpenVPN.Cert", _, by decide, rfl⟩
  · exact Or.inr ⟨"OpenVPN.Key", _, by decide, rfl⟩
  · exact Or.inl rfl

theorem joinedDirective_sets (st : ImportState) (key : String) (arguments : List QString)
    (hk : key ∈ otherKeys) : SetsOtherKey st (joinedDirective st key arguments) := by
  unfold joinedDirective
  split_ifs
  · exact setsOtherKey_insert st key _ hk
  · exact Or.inl rfl

theorem fileDirective_sets (env : ImportEnv) (st st1 : ImportState) (directive : QString)
    (arguments : List QString) (h : fileDirective env st directive arguments = some st1) :
    SetsOtherKey st st1 := by
  unfold fileDirective at h
  cases hat : listAt arguments 1 with
  | none =>
    rw [hat] at h
    simp only at h
    split_ifs at h
    · cases h
      exact setsOtherKey_insert st _ _ (by decide)
    · cases h
      exact Or.inl rfl
  | some arg =>
    rw [hat] at h
    simp only at h
    split_ifs at h <;> cases h <;>
      first
      | exact Or.inl rfl
      | exact setsOtherKey_insert st _ _ (by decide)

theorem remoteDirective_of_host (st : ImportState) (line : QString) (arguments : List QString)
    (h : qmapContains st.rv (QStringLiteral "Host") = true) :
    remoteDirective st line arguments = { st with extraOptions := st.extraOptions ++ [line] } := by
  simp [remoteDirective, h]

theorem processDirective_change (env : ImportEnv) (st st1 : ImportState) (line : QString)
    (hHost : qmapContains st.rv (QStringLiteral "Host") = true)
    (h : processDirective env st line = some st1) : StepChange st st1 := by
  unfold processDirective at h
  split at h
  · cases h
    exact Or.inl rfl
  · rename_i directive arguments _
    by_cases c0 : directive = QStringLiteral "remote"
    · rw [if_pos c0] at h
      cases h
      rw [remoteDirective_of_host _ _ _ hHost]
      exact Or.inl rfl
    rw [if_neg c0] at h
    by_cases c1 : directive = QStringLiteral "ca" ∨ directive = QStringLiteral "cert" ∨
        directive = QStringLiteral "key" ∨ directive = QStringLiteral "auth-user-pass"
    · rw [if_pos c1] at h
      exact Or.inr (Or.inl (fileDirective_sets _ _ _ _ _ h))
    rw [if_neg c1] at h
    by_cases c2 : directive = QStringLiteral "mtu" ∨ directive = QStringLiteral "tun-mtu"
    · rw [if_pos c2] at h
      cases h
      exact Or.inr (Or.inl (joinedDirective_sets _ _ _ (by decide)))
    rw [if_neg c2] at h
    by_cases c3 : directive = QStringLiteral "ns-cert-type"
    · rw [if_pos c3] at h
      cases h
      exact Or.inr (Or.inl (joinedDirective_sets _ _ _ (by decide)))
    rw [if_neg c3] at h
    by_cases c4 : directive = QStringLiteral "proto"
    · rw [if_pos c4] at h
      cases ha : arguments.isEmpty <;>
        cases hc : qmapContains st.rv (QStringLiteral "OpenVPN.Proto") <;>
        simp only [ha, hc, Bool.not_true, Bool.not_false, Bool.false_eq_true, if_true,
          if_false] at h <;> cases h
      · exact Or.inr (Or.inr (Or.inr ⟨hc, _, rfl⟩))
      · exact Or.inl rfl
      · exact Or.inl rfl
      · exact Or.inl rfl
    rw [if_neg c4] at h
    by_cases c5 : directive = QStringLiteral "port"
    · rw [if_pos c5] at h
      cases hc : qmapContains st.rv (QStringLiteral "OpenVPN.Port") <;>
        simp only [hc, Bool.not_true, Bool.not_false, Bool.false_eq_true, if_true,
          if_false] at h <;> cases h
      · unfold joinedDirective
        split_ifs
        · exact Or.inr (Or.inr (Or.inl ⟨hc, _, rfl⟩))
        · exact Or.inl rfl
      · exact Or.inl rfl
    rw [if_neg c5] at h
    by_cases c6 : directive = QStringLiteral "askpass"
    · rw [if_pos c6] at h
      cases ha : arguments.isEmpty <;>
        simp only [ha, Bool.not_true, Bool.not_false, Bool.false_eq_true, if_true,
          if_false] at h <;> cases h <;>
        exact Or.inr (Or.inl (setsOtherKey_insert _ _ _ (by decide)))
    rw [if_neg c6] at h
    by_cases c7 : directive = QStringLiteral "auth-nocache"
    · rw [if_pos c7] at h
      cases h
      exact Or.inr (Or.inl (setsOtherKey_insert _ _ _ (by decide)))
    rw [if_neg c7] at h
    by_cases c8 : directive = QStringLiteral "tls-remote"
    · rw [if_pos c8] at h
      cases h
      exact Or.inr (Or.inl (joinedDirective_sets _ _ _ (by decide)))
    rw [if_neg c8] at h
    by_cases c9 : directive = QStringLiteral "cipher"
    · rw [if_pos c9] at h
      cases h
      exact Or.inr (Or.inl (joinedDirective_sets _ _ _ (by decide)))
    rw [if_neg c9] at h
    by_cases c10 : directive = QStringLiteral "auth"
    · rw [if_pos c10] at h
      cases h
      exact Or.inr (Or.inl (joinedDirective_sets _ _ _ (by decide)))
    rw [if_neg c10] at h
    by_cases c11 : directive = QStringLiteral "comp-lzo"
    · rw [if_pos c11] at h
      cases ha : arguments.isEmpty <;>
        simp only [ha, Bool.not_true, Bool.not_false, Bool.false_eq_true, if_true,
          if_false] at h <;> cases h <;>
        exact Or.inr (Or.inl (setsOtherKey_insert _ _ _ (by decide)))
    rw [if_neg c11] at h
    by_cases c12 : directive = QStringLiteral "remote-cert-tls"
    · rw [if_pos c12] at h
      cases h
      exact Or.inr (Or.inl (joinedDirective_sets _ _ _ (by decide)))
    rw [if_neg c12] at h
    cases h
    exact Or.inl rfl

theorem insert_find_other (st : ImportState) (key : String) (value target : QString)
    (hne : QStringLiteral key ≠ target) :
    qmapFind target (st.insert key value).rv = qmapFind target st.rv :=
  qmapFind_insert_other _ _ _ _ hne

theorem processLine_change (env : ImportEnv) (st st1 : ImportState) (line : QString)
    (hHost : qmapContains st.rv (QStringLiteral "Host") = true)
    (h : processLine env st line = some st1) : StepChange st st1 := by
  unfold processLine at h
  by_cases c0 : matchesCommentLeader line = true
  · rw [if_pos c0] at h
    cases h
    exact Or.inl rfl
  rw [if_neg c0] at h
  cases c1 : matchEmbeddedLeader line with
  | some marker =>
    rw [c1] at h
    cases h
    exact Or.inl rfl
  | none =>
    rw [c1] at h
    cases c2 : matchEmbeddedTrailer line with
    | some marker =>
      rw [c2] at h
      cases h
      exact Or.inr (Or.inl (closeEmbedded_sets env st marker))
    | none =>
      rw [c2] at h
      simp only at h
      by_cases c3 : (!st.embeddedMarker.isEmpty) = true
      · rw [if_pos c3] at h
        cases h
        exact Or.inl rfl
      · rw [if_neg c3] at h
        exact processDirective_change env st st1 line hHost h

theorem StepChange.populated (st st1 : ImportState) (host port proto : QString)
    (h : StepChange st st1) (hp : Populated st.rv host port proto) :
    Populated st1.rv host port proto := by
  obtain ⟨h1, h2, h3⟩ := hp
  rcases h with h | h | ⟨hc, _⟩ | ⟨hc, _⟩
  · rw [Populated, h]
    exact ⟨h1, h2, h3⟩
  · exact ⟨(SetsOtherKey.find st st1 _ h (by decide)).trans h1,
      (SetsOtherKey.find st st1 _ h (by decide)).trans h2,
      (SetsOtherKey.find st st1 _ h (by decide)).trans h3⟩
  · simp [qmapContains, h2] at hc
  · simp [qmapContains, h3] at hc

theorem processLines_populated (env : ImportEnv) (st st1 : ImportState) (lines : List QString)
    (host port proto : QString) (hp : Populated st.rv host port proto)
    (h : processLines env st lines = some st1) : Populated st1.rv host port proto := by
  induction lines generalizing st with
  | nil =>
    simp only [processLines] at h
    cases h
    exact hp
  | cons line rest ih =>
    simp only [processLines] at h
    cases hl : processLine env st line with
    | none => rw [hl] at h; cases h
    | some s1 =>
      rw [hl] at h
      have hHost : qmapContains st.rv (QStringLiteral "Host") = true := by
        simp [qmapContains, hp.1]
      exact ih s1 (StepChange.populated st s1 _ _ _
        (processLine_change env st s1 line hHost hl) hp) h

theorem writeExtraOptions_populated (env : ImportEnv) (st : ImportState)
    (host port proto : QString) (hp : Populated st.rv host port proto) :
    Populated (writeExtraOptions env st).rv host port proto := by
  unfold writeExtraOptions
  by_cases c1 : (!st.extraOptions.isEmpty) = true
  · rw [if_pos c1]
    by_cases c2 : (!env.outputDirAvailable) = true
    · rw [if_pos c2]
      exact hp
    · rw [if_neg c2]
      simp only
      split_ifs
      · exact hp
      · obtain ⟨h1, h2, h3⟩ := hp
        exact ⟨(insert_find_other _ _ _ _ (by decide)).trans h1,
          (insert_find_other _ _ _ _ (by decide)).trans h2,
          (insert_find_other _ _ _ _ (by decide)).trans h3⟩
  · rw [if_neg c1]
    exact hp

theorem remoteDirective_populates (st : ImportState) (line host port proto : QString)
    (h : qmapContains st.rv (QStringLiteral "Host") = false) :
    Populated (remoteDirective st line [host, port, proto]).rv host port
      (normaliseProtocol proto) := by
  simp only [remoteDirective, h, Bool.not_false, if_true, ImportState.insert]
  refine ⟨?_, ?_, ?_⟩
  · rw [qmapFind_insert_other _ _ _ _ (by decide), qmapFind_insert_other _ _ _ _ (by decide),
      qmapFind_insert_self]
  · rw [qmapFind_insert_other _ _ _ _ (by decide), qmapFind_insert_self]
  · rw [qmapFind_insert_self]

theorem directiveFrame_refl (st : ImportState) (line : QString) : DirectiveFrame st st line :=
  ⟨rfl, rfl, rfl, Or.inl rfl⟩

theorem directiveFrame_insert (st : ImportState) (key : String) (value line : QString) :
    DirectiveFrame st (st.insert key value) line :=
  ⟨rfl, rfl, rfl, Or.inl rfl⟩

theorem joinedDirective_frame (st : ImportState) (key : String) (arguments : List QString)
    (line : QString) : DirectiveFrame st (joinedDirective st key arguments) line := by
  unfold joinedDirective
  split_ifs
  · exact directiveFrame_insert _ _ _ _
  · exact directiveFrame_refl _ _

theorem remoteDirective_frame (st : ImportState) (line : QString) (arguments : List QString) :
    DirectiveFrame st (remoteDirective st line arguments) line := by
  unfold remoteDirective
  split_ifs
  · rcases arguments with _ | ⟨a0, _ | ⟨a1, _ | ⟨a2, rest⟩⟩⟩ <;>
      exact ⟨rfl, rfl, rfl, Or.inl rfl⟩
  · exact ⟨rfl, rfl, rfl, Or.inr rfl⟩

theorem fileDirective_frame (env : ImportEnv) (st st1 : ImportState) (directive : QString)
    (arguments : List QString) (line : QString)
    (h : fileDirective env st directive arguments = some st1) : DirectiveFrame st st1 line := by
  unfold fileDirective at h
  cases hat : listAt arguments 1 with
  | none =>
    rw [hat] at h
    simp only at h
    split_ifs at h <;> cases h <;> exact ⟨rfl, rfl, rfl, Or.inl rfl⟩
  | some arg =>
    rw [hat] at h
    simp only at h
    split_ifs at h <;> cases h <;> exact ⟨rfl, rfl, rfl, Or.inl rfl⟩

theorem processDirective_effect (env : ImportEnv) (st st1 : ImportState) (line : QString)
    (h : processDirective env st line = some st1) :
    DirectiveFrame st st1 line ∧ RvEffect st st1 line := by
  unfold processDirective at h
  cases hsplit : splitWhitespace line with
  | nil =>
    rw [hsplit] at h
    cases h
    exact ⟨directiveFrame_refl _ _, Or.inl rfl⟩
  | cons directive arguments =>
    rw [hsplit] at h
    replace h : (if directive = QStringLiteral "remote" then
        some (remoteDirective st line arguments) else _) = some st1 := h
    by_cases c0 : directive = QStringLiteral "remote"
    · rw [if_pos c0] at h
      cases h
      cases hc : qmapContains st.rv (QStringLiteral "Host") with
      | true =>
        rw [remoteDirective_of_host _ _ _ hc]
        exact ⟨⟨rfl, rfl, rfl, Or.inr rfl⟩, Or.inl rfl⟩
      | false =>
        exact ⟨remoteDirective_frame _ _ _,
          Or.inr (Or.inr (Or.inr (Or.inr ⟨hc, arguments, by rw [hsplit, c0], rfl⟩)))⟩
    rw [if_neg c0] at h
    by_cases c1 : directive = QStringLiteral "ca" ∨ directive = QStringLiteral "cert" ∨
        directive = QStringLiteral "key" ∨ directive = QStringLiteral "auth-user-pass"
    · rw [if_pos c1] at h
      exact ⟨fileDirective_frame _ _ _ _ _ _ h, Or.inr (Or.inl (fileDirective_sets _ _ _ _ _ h))⟩
    rw [if_neg c1] at h
    by_cases c2 : directive = QStringLiteral "mtu" ∨ directive = QStringLiteral "tun-mtu"
    · rw [if_pos c2] at h
      cases h
      exact ⟨joinedDirective_frame _ _ _ _,
        Or.inr (Or.inl (joinedDirective_sets _ _ _ (by decide)))⟩
    rw [if_neg c2] at h
    by_cases c3 : directive = QStringLiteral "ns-cert-type"
    · rw [if_pos c3] at h
      cases h
      exact ⟨joinedDirective_frame _ _ _ _,
        Or.inr (Or.inl (joinedDirective_sets _ _ _ (by decide)))⟩
    rw [if_neg c3] at h
    by_cases c4 : directive = QStringLiteral "proto"
    · rw [if_pos c4] at h
      cases ha : arguments.isEmpty <;>
        cases hc : qmapContains st.rv (QStringLiteral "OpenVPN.Proto") <;>
        simp only [ha, hc, Bool.not_true, Bool.not_false, Bool.false_eq_true, if_true,
          if_false] at h <;> cases h
      · exact ⟨directiveFrame_insert _ _ _ _, Or.inr (Or.inr (Or.inr (Or.inl ⟨hc, _, rfl⟩)))⟩
      · exact ⟨directiveFrame_refl _ _, Or.inl rfl⟩
      · exact ⟨directiveFrame_refl _ _, Or.inl rfl⟩
      · exact ⟨directiveFrame_refl _ _, Or.inl rfl⟩
    rw [if_neg c4] at h
    by_cases c5 : directive = QStringLiteral "port"
    · rw [if_pos c5] at h
      cases hc : qmapContains st.rv (QStringLiteral "OpenVPN.Port") <;>
        simp only [hc, Bool.not_true, Bool.not_false, Bool.false_eq_true, if_true,
          if_false] at h <;> cases h
      · refine ⟨joinedDirective_frame _ _ _ _, ?_⟩
        unfold joinedDirective
        split_ifs
        · exact Or.inr (Or.inr (Or.inl ⟨hc, _, rfl⟩))
        · exact Or.inl rfl
      · exact ⟨directiveFrame_refl _ _, Or.inl rfl⟩
    rw [if_neg c5] at h
    by_cases c6 : directive = QStringLiteral "askpass"
    · rw [if_pos c6] at h
      cases ha : arguments.isEmpty <;>
        simp only [ha, Bool.not_true, Bool.not_false, Bool.false_eq_true, if_true,
          if_false] at h <;> cases h <;>
        exact ⟨directiveFrame_insert _ _ _ _,
          Or.inr (Or.inl (setsOtherKey_insert _ _ _ (by decide)))⟩
    rw [if_neg c6] at h
    by_cases c7 : directive = QStringLiteral "auth-nocache"
    · rw [if_pos c7] at h
      cases h
      exact ⟨directiveFrame_insert _ _ _ _,
        Or.inr (Or.inl (setsOtherKey_insert _ _ _ (by decide)))⟩
    rw [if_neg c7] at h
    by_cases c8 : directive = QStringLiteral "tls-remote"
    · rw [if_pos c8] at h
      cases h
      exact ⟨joinedDirective_frame _ _ _ _,
        Or.inr (Or.inl (joinedDirective_sets _ _ _ (by decide)))⟩
    rw [if_neg c8] at h
    by_cases c9 : directive = QStringLiteral "cipher"
    · rw [if_pos c9] at h
      cases h
      exact ⟨joinedDirective_frame _ _ _ _,
        Or.inr (Or.inl (joinedDirective_sets _ _ _ (by decide)))⟩
    rw [if_neg c9] at h
    by_cases c10 : directive = QStringLiteral "auth"
    · rw [if_pos c10] at h
      cases h
      exact ⟨joinedDirective_frame _ _ _ _,
        Or.inr (Or.inl (joinedDirective_sets _ _ _ (by decide)))⟩
    rw [if_neg c10] at h
    by_cases c11 : directive = QStringLiteral "comp-lzo"
    · rw [if_pos c11] at h
      cases ha : arguments.isEmpty <;>
        simp only [ha, Bool.not_true, Bool.not_false, Bool.false_eq_true, if_true,
          if_false] at h <;> cases h <;>
        exact ⟨directiveFrame_insert _ _ _ _,
          Or.inr (Or.inl (setsOtherKey_insert _ _ _ (by decide)))⟩
    rw [if_neg c11] at h
    by_cases c12 : directive = QStringLiteral "remote-cert-tls"
    · rw [if_pos c12] at h
      cases h
      exact ⟨joinedDirective_frame _ _ _ _,
        Or.inr (Or.inl (joinedDirective_sets _ _ _ (by decide)))⟩
    rw [if_neg c12] at h
    cases h
    exact ⟨⟨rfl, rfl, rfl, Or.inr rfl⟩, Or.inl rfl⟩

theorem processLine_comment (env : ImportEnv) (st : ImportState) (line : QString)
    (h : matchesCommentLeader line = true) : processLine env st line = some st := by
  simp [processLine, h]

theorem processLine_leader (env : ImportEnv) (st : ImportState) (line marker : QString)
    (h1 : matchesCommentLeader line = false) (h2 : matchEmbeddedLeader line = some marker) :
    processLine env st line = some { st with embeddedMarker := marker } := by
  simp [processLine, h1, h2]

theorem processLine_trailer (env : ImportEnv) (st : ImportState) (line marker : QString)
    (h1 : matchesCommentLeader line = false) (h2 : matchEmbeddedLeader line = none)
    (h3 : matchEmbeddedTrailer line = some marker) :
    processLine env st line = some (closeEmbedded env st marker) := by
  simp [processLine, h1, h2, h3]

theorem processLine_content (env : ImportEnv) (st : ImportState) (line : QString)
    (h1 : matchesCommentLeader line = false) (h2 : matchEmbeddedLeader line = none)
    (h3 : matchEmbeddedTrailer line = none) (h4 : st.embeddedMarker ≠ []) :
    processLine env st line =
      some { st with embeddedContent := st.embeddedContent ++ (line ++ QStringLiteral "\n") } := by
  have h5 : st.embeddedMarker.isEmpty = false := by
    cases hm : st.embeddedMarker with
    | nil => exact absurd hm h4
    | cons c cs => rfl
  simp [processLine, h1, h2, h3, h5]

theorem processLine_directive (env : ImportEnv) (st : ImportState) (line : QString)
    (h1 : matchesCommentLeader line = false) (h2 : matchEmbeddedLeader line = none)
    (h3 : matchEmbeddedTrailer line = none) (h4 : st.embeddedMarker = []) :
    processLine env st line = processDirective env st line := by
  simp [processLine, h1, h2, h3, h4]

theorem matchMarker_ne_nil (s marker : QString) (h : matchMarker s = some marker) :
    marker ≠ [] := by
  unfold matchMarker at h
  simp only at h
  split_ifs at h with h1
  intro hm
  split at h
  · split_ifs at h
    cases h
    simp [hm] at h1
  · cases h

theorem matchEmbeddedLeader_ne_nil (line marker : QString)
    (h : matchEmbeddedLeader line = some marker) : marker ≠ [] := by
  unfold matchEmbeddedLeader at h
  split at h
  · split_ifs at h
    exact matchMarker_ne_nil _ _ h
  · cases h

theorem closeEmbedded_marker (env : ImportEnv) (st : ImportState) (marker : QString) :
    (closeEmbedded env st marker).embeddedMarker = [] ∧
      (closeEmbedded env st marker).embeddedContent = [] := ⟨rfl, rfl⟩

/-- The cases of `processLine`, by the kind of the line. -/
theorem processLine_kind (env : ImportEnv) (st : ImportState) (line : QString) :
    processLine env st line = some st ∨
    (∃ marker, marker ≠ [] ∧
      processLine env st line = some { st with embeddedMarker := marker }) ∨
    (∃ marker, processLine env st line = some (closeEmbedded env st marker)) ∨
    (st.embeddedMarker ≠ [] ∧ processLine env st line =
      some { st with embeddedContent := st.embeddedContent ++ (line ++ QStringLiteral "\n") }) ∨
    (st.embeddedMarker = [] ∧ processLine env st line = processDirective env st line) := by
  cases h1 : matchesCommentLeader line with
  | true => exact Or.inl (processLine_comment env st line h1)
  | false =>
    cases h2 : matchEmbeddedLeader line with
    | some marker =>
      exact Or.inr (Or.inl ⟨marker, matchEmbeddedLeader_ne_nil line marker h2,
        processLine_leader env st line marker h1 h2⟩)
    | none =>
      cases h3 : matchEmbeddedTrailer line with
      | some marker =>
        exact Or.inr (Or.inr (Or.inl ⟨marker, processLine_trailer env st line marker h1 h2 h3⟩))
      | none =>
        by_cases h4 : st.embeddedMarker = []
        · exact Or.inr (Or.inr (Or.inr (Or.inr
            ⟨h4, processLine_directive env st line h1 h2 h3 h4⟩)))
        · exact Or.inr (Or.inr (Or.inr (Or.inl
            ⟨h4, processLine_content env st line h1 h2 h3 h4⟩)))

theorem processLine_rv (env : ImportEnv) (st st1 : ImportState) (line : QString)
    (h : processLine env st line = some st1) : RvEffect st st1 line := by
  rcases processLine_kind env st line with hk | ⟨m, _, hk⟩ | ⟨m, hk⟩ | ⟨_, hk⟩ | ⟨_, hk⟩
  · rw [hk] at h; cases h; exact Or.inl rfl
  · rw [hk] at h; cases h; exact Or.inl rfl
  · rw [hk] at h; cases h; exact Or.inr (Or.inl (closeEmbedded_sets env st m))
  · rw [hk] at h; cases h; exact Or.inl rfl
  · rw [hk] at h; exact (processDirective_effect env st st1 line h).2

theorem processLine_rv_in_block (env : ImportEnv) (st st1 : ImportState) (line : QString)
    (hin : st.embeddedMarker ≠ []) (h : processLine env st line = some st1) :
    SetsOtherKey st st1 := by
  rcases processLine_kind env st line with hk | ⟨m, _, hk⟩ | ⟨m, hk⟩ | ⟨_, hk⟩ | ⟨hout, _⟩
  · rw [hk] at h; cases h; exact Or.inl rfl
  · rw [hk] at h; cases h; exact Or.inl rfl
  · rw [hk] at h; cases h; exact closeEmbedded_sets env st m
  · rw [hk] at h; cases h; exact Or.inl rfl
  · exact absurd hout hin

theorem processLine_normalState (env : ImportEnv) (st st1 : ImportState) (line : QString)
    (hn : NormalState st) (h : processLine env st line = some st1) : NormalState st1 := by
  rcases processLine_kind env st line with hk | ⟨m, hm, hk⟩ | ⟨m, hk⟩ | ⟨hin, hk⟩ | ⟨_, hk⟩
  · rw [hk] at h; cases h; exact hn
  · rw [hk] at h; cases h; exact fun he => absurd he hm
  · rw [hk] at h; cases h; exact fun _ => rfl
  · rw [hk] at h; cases h; exact fun he => absurd he hin
  · rw [hk] at h
    obtain ⟨hm, hc, _, _⟩ := (processDirective_effect env st st1 line h).1
    intro he
    rw [hc]
    exact hn (hm ▸ he)

theorem processLines_normalState (env : ImportEnv) (st st1 : ImportState)
    (lines : List QString) (hn : NormalState st) (h : processLines env st lines = some st1) :
    NormalState st1 := by
  induction lines generalizing st with
  | nil =>
    simp only [processLines] at h
    cases h
    exact hn
  | cons line rest ih =>
    simp only [processLines] at h
    cases hl : processLine env st line with
    | none => rw [hl] at h; cases h
    | some s1 =>
      rw [hl] at h
      exact ih s1 (processLine_normalState env st s1 line hn hl) h

theorem processLines_snoc (env : ImportEnv) (st st1 : ImportState) (lines : List QString)
    (line : QString) (h : processLines env st (lines ++ [line]) = some st1) :
    ∃ s, processLines env st lines = some s ∧ processLine env s line = some st1 := by
  rw [processLines_append] at h
  cases hl : processLines env st lines with
  | none => rw [hl] at h; cases h
  | some s =>
    rw [hl] at h
    simp only [Option.some_bind, processLines] at h
    cases hs : processLine env s line with
    | none => rw [hs] at h; cases h
    | some s1 =>
      rw [hs] at h
      have he : s1 = st1 := by simpa using h
      exact ⟨s, rfl, he ▸ hs⟩

theorem normaliseProtocol_ne_tcp (x : QString) : normaliseProtocol x ≠ QStringLiteral "tcp" := by
  unfold normaliseProtocol
  split_ifs with h
  · decide
  · exact h

theorem contains_eq_false_iff (rv : QVariantMap) (key : QString) :
    qmapContains rv key = false ↔ qmapFind key rv = none := by
  unfold qmapContains
  cases qmapFind key rv <;> simp

theorem remoteDirective_rv_cases (st : ImportState) (line : QString) (arguments : List QString)
    (hc : qmapContains st.rv (QStringLiteral "Host") = false) :
    (arguments = [] ∧ (remoteDirective st line arguments).rv = st.rv) ∨
    (∃ a0, arguments = [a0] ∧
      (remoteDirective st line arguments).rv = (st.insert "Host" a0).rv) ∨
    (∃ a0 a1, arguments = [a0, a1] ∧
      (remoteDirective st line arguments).rv =
        ((st.insert "Host" a0).insert "OpenVPN.Port" a1).rv) ∨
    (∃ a0 a1 a2 rest, arguments = a0 :: a1 :: a2 :: rest ∧
      (remoteDirective st line arguments).rv =
        (((st.insert "Host" a0).insert "OpenVPN.Port" a1).insert "OpenVPN.Proto"
          (normaliseProtocol a2)).rv) := by
  unfold remoteDirective
  rw [hc]
  simp only [Bool.not_false, if_true]
  rcases arguments with _ | ⟨a0, _ | ⟨a1, _ | ⟨a2, rest⟩⟩⟩
  · exact Or.inl ⟨rfl, rfl⟩
  · exact Or.inr (Or.inl ⟨a0, rfl, rfl⟩)
  · exact Or.inr (Or.inr (Or.inl ⟨a0, a1, rfl, rfl⟩))
  · exact Or.inr (Or.inr (Or.inr ⟨a0, a1, a2, rest, rfl, rfl⟩))

theorem RvEffect.noBareTcp (st st1 : ImportState) (line : QString) (h : RvEffect st st1 line)
    (hn : NoBareTcp st.rv) : NoBareTcp st1.rv := by
  unfold NoBareTcp at hn ⊢
  rcases h with h | h | ⟨_, value, h⟩ | ⟨_, x, h⟩ | ⟨hc, arguments, _, h⟩
  · rw [h]; exact hn
  · rw [SetsOtherKey.find st st1 _ h (by decide)]; exact hn
  · rw [h, insert_find_other _ _ _ _ (by decide)]; exact hn
  · rw [h]
    simp only [ImportState.insert, qmapFind_insert_self]
    intro he
    exact normaliseProtocol_ne_tcp x (QVariant.string.inj (Option.some.inj he))
  · rw [h]
    rcases remoteDirective_rv_cases st line arguments hc with
      ⟨_, hr⟩ | ⟨a0, _, hr⟩ | ⟨a0, a1, _, hr⟩ | ⟨a0, a1, a2, rest, _, hr⟩
    · rw [hr]; exact hn
    · rw [hr, insert_find_other _ _ _ _ (by decide)]; exact hn
    · rw [hr, insert_find_other _ _ _ _ (by decide), insert_find_other _ _ _ _ (by decide)]
      exact hn
    · rw [hr]
      simp only [ImportState.insert, qmapFind_insert_self]
      intro he
      exact normaliseProtocol_ne_tcp a2 (QVariant.string.inj (Option.some.inj he))

theorem processLines_noBareTcp (env : ImportEnv) (st st1 : ImportState) (lines : List QString)
    (hn : NoBareTcp st.rv) (h : processLines env st lines = some st1) : NoBareTcp st1.rv := by
  induction lines generalizing st with
  | nil =>
    simp only [processLines] at h
    cases h
    exact hn
  | cons line rest ih =>
    simp only [processLines] at h
    cases hl : processLine env st line with
    | none => rw [hl] at h; cases h
    | some s1 =>
      rw [hl] at h
      exact ih s1 (RvEffect.noBareTcp st s1 line (processLine_rv env st s1 line hl) hn) h

theorem writeExtraOptions_find (env : ImportEnv) (st : ImportState) (target : QString)
    (ht : QStringLiteral "OpenVPN.ConfigFile" ≠ target) :
    qmapFind target (writeExtraOptions env st).rv = qmapFind target st.rv := by
  unfold writeExtraOptions
  by_cases c1 : (!st.extraOptions.isEmpty) = true
  · rw [if_pos c1]
    by_cases c2 : (!env.outputDirAvailable) = true
    · rw [if_pos c2]
    · rw [if_neg c2]
      simp only
      split_ifs
      · rfl
      · exact insert_find_other _ _ _ _ ht
  · rw [if_neg c1]

theorem processOpenVpnProvisioningFile_eq_some (env : ImportEnv) (lines : List QString)
    (rv : QVariantMap) (h : processOpenVpnProvisioningFile env lines = some rv) :
    ∃ s, processLines env ImportState.initial lines = some s ∧
      rv = (writeExtraOptions env s).rv := by
  unfold processOpenVpnProvisioningFile importProfile at h
  cases hs : processLines env ImportState.initial lines with
  | none => rw [hs] at h; cases h
  | some s =>
    rw [hs] at h
    simp only [Option.map_some'] at h
    exact ⟨s, rfl, (Option.some.inj h).symm⟩

theorem remoteDirective_absent_of_no_arguments (st : ImportState) (line : QString) :
    (remoteDirective st line []).rv = st.rv ∨
      qmapContains st.rv (QStringLiteral "Host") = true := by
  cases hc : qmapContains st.rv (QStringLiteral "Host") with
  | true => exact Or.inr rfl
  | false =>
    rcases remoteDirective_rv_cases st line [] hc with
      ⟨_, hr⟩ | ⟨a0, he, _⟩ | ⟨a0, a1, he, _⟩ | ⟨a0, a1, a2, rest, he, _⟩
    · exact Or.inl hr
    · cases he
    · cases he
    · cases he

theorem noHostRemote_host_absent (env : ImportEnv) (lines : List QString) (s : ImportState)
    (hno : NoHostRemote env lines)
    (h : processLines env ImportState.initial lines = some s) :
    qmapContains s.rv (QStringLiteral "Host") = false := by
  induction lines using List.reverseRecOn generalizing s with
  | nil =>
    simp only [processLines] at h
    cases h
    rfl
  | append_singleton l x ih =>
    obtain ⟨sl, hl, hx⟩ := processLines_snoc env _ s l x h
    have hnol : NoHostRemote env l := by
      intro a y b sa host rest hsplit ha hm
      exact hno a y (b ++ [x]) sa host rest (by rw [hsplit]; simp) ha hm
    have habs := ih sl hnol hl
    rw [contains_eq_false_iff] at habs ⊢
    by_cases hm : sl.embeddedMarker = []
    · rcases processLine_rv env sl s x hx with
        hr | hr | ⟨_, value, hr⟩ | ⟨_, v, hr⟩ | ⟨hc, arguments, hsp, hr⟩
      · rw [hr]; exact habs
      · rw [SetsOtherKey.find sl s _ hr (by decide)]; exact habs
      · rw [hr, insert_find_other _ _ _ _ (by decide)]; exact habs
      · rw [hr, insert_find_other _ _ _ _ (by decide)]; exact habs
      · cases arguments with
        | nil =>
          rcases remoteDirective_rv_cases sl x [] hc with
            ⟨_, hr2⟩ | ⟨a0, he, _⟩ | ⟨a0, a1, he, _⟩ | ⟨a0, a1, a2, rest, he, _⟩
          · rw [hr, hr2]; exact habs
          · cases he
          · cases he
          · cases he
        | cons host rest =>
          exact absurd hsp (hno l x [] sl host rest rfl hl hm)
    · rw [SetsOtherKey.find sl s _ (processLine_rv_in_block env sl s x hm hx) (by decide)]
      exact habs

theorem remoteDirective_populates_more (st : ImportState) (line host port proto : QString)
    (rest : List QString) (h : qmapContains st.rv (QStringLiteral "Host") = false) :
    Populated (remoteDirective st line (host :: port :: proto :: rest)).rv host port
      (normaliseProtocol proto) := by
  simp only [remoteDirective, h, Bool.not_false, if_true, ImportState.insert]
  refine ⟨?_, ?_, ?_⟩
  · rw [qmapFind_insert_other _ _ _ _ (by decide), qmapFind_insert_other _ _ _ _ (by decide),
      qmapFind_insert_self]
  · rw [qmapFind_insert_other _ _ _ _ (by decide), qmapFind_insert_self]
  · rw [qmapFind_insert_self]

theorem trailer_line_is_tag (line marker : QString)
    (h : matchEmbeddedTrailer line = some marker) :
    matchesCommentLeader line = false ∧ matchEmbeddedLeader line = none := by
  unfold matchEmbeddedTrailer at h
  split at h
  · rename_i c d rest hs
    split_ifs at h with hcd
    obtain ⟨hc, hd⟩ := hcd
    subst hc
    subst hd
    refine ⟨?_, ?_⟩
    · unfold matchesCommentLeader
      rw [hs]
      show (QChar.ofChar '<' == QChar.ofChar '#' || QChar.ofChar '<' == QChar.ofChar ';') =
        false
      decide
    · unfold matchEmbeddedLeader
      rw [hs]
      simp [matchMarker, List.takeWhile]
  · cases h

theorem leader_line_not_comment (line marker : QString)
    (h : matchEmbeddedLeader line = some marker) : matchesCommentLeader line = false := by
  unfold matchEmbeddedLeader at h
  split at h
  · rename_i c rest hs
    split_ifs at h with hc
    subst hc
    unfold matchesCommentLeader
    rw [hs]
    show (QChar.ofChar '<' == QChar.ofChar '#' || QChar.ofChar '<' == QChar.ofChar ';') =
      false
    decide
  · cases h

theorem closeEmbedded_mismatch (env : ImportEnv) (st : ImportState) (marker : QString)
    (h : marker ≠ st.embeddedMarker) :
    closeEmbedded env st marker = { st with embeddedMarker := [], embeddedContent := [] } := by
  unfold closeEmbedded
  simp only [ne_eq, h, not_false_eq_true, if_true]

theorem processLines_in_block (env : ImportEnv) (st : ImportState) (body : List QString)
    (hin : st.embeddedMarker ≠ [])
    (hbody : ∀ l ∈ body, matchEmbeddedLeader l = none ∧ matchEmbeddedTrailer l = none) :
    ∃ c, processLines env st body = some { st with embeddedContent := c } := by
  induction body generalizing st with
  | nil => exact ⟨st.embeddedContent, rfl⟩
  | cons l rest ih =>
    obtain ⟨h2, h3⟩ := hbody l (by simp)
    have hrest : ∀ l ∈ rest, matchEmbeddedLeader l = none ∧ matchEmbeddedTrailer l = none :=
      fun x hx => hbody x (by simp [hx])
    cases h1 : matchesCommentLeader l with
    | true =>
      obtain ⟨c, hc⟩ := ih st hin hrest
      exact ⟨c, by simp only [processLines, processLine_comment env st l h1, hc]⟩
    | false =>
      obtain ⟨c, hc⟩ := ih
        { st with embeddedContent := st.embeddedContent ++ (l ++ QStringLiteral "\n") } hin hrest
      exact ⟨c, by simp only [processLines, processLine_content env st l h1 h2 h3 hin, hc]⟩


/-! ## Lemmas on the model -/

theorem maxStateLoop_spec (l : List VpnConnection) (init : Int) :
    numericValue init ≤ numericValue (maxStateLoop l init) ∧
    (∀ c ∈ l, numericValue c.state_ ≤ numericValue (maxStateLoop l init)) ∧
    (maxStateLoop l init = init ∨ ∃ c ∈ l, c.state_ = maxStateLoop l init) := by
  induction l generalizing init with
  | nil => simp [maxStateLoop]
  | cons c rest ih =>
    simp only [maxStateLoop]
    by_cases h : numericValue c.state_ > numericValue init
    · rw [if_pos h]
      obtain ⟨h1, h2, h3⟩ := ih c.state_
      refine ⟨by omega, ?_, ?_⟩
      · intro d hd
        rcases List.mem_cons.1 hd with rfl | hd
        · exact h1
        · exact h2 d hd
      · rcases h3 with h3 | ⟨d, hd, h3⟩
        · exact Or.inr ⟨c, List.mem_cons_self _ _, h3.symm⟩
        · exact Or.inr ⟨d, List.mem_cons_of_mem _ hd, h3⟩
    · rw [if_neg h]
      obtain ⟨h1, h2, h3⟩ := ih init
      refine ⟨h1, ?_, ?_⟩
      · intro d hd
        rcases List.mem_cons.1 hd with rfl | hd
        · omega
        · exact h2 d hd
      · rcases h3 with h3 | ⟨d, hd, h3⟩
        · exact Or.inl h3
        · exact Or.inr ⟨d, List.mem_cons_of_mem _ hd, h3⟩

theorem sortIndexLoop_eq (name : QString) (l : List VpnConnection) (index : Nat) :
    sortIndexLoop name l index =
      index + (l.takeWhile (fun c => !qstringLt name c.name_)).length := by
  induction l generalizing index with
  | nil => simp [sortIndexLoop]
  | cons c rest ih =>
    simp only [sortIndexLoop, List.takeWhile]
    cases h : qstringLt name c.name_
    · simp [ih]; omega
    · simp

theorem take_takeWhile_length {α : Type} (p : α → Bool) (l : List α) :
    l.take (l.takeWhile p).length = l.takeWhile p ∧
    l.drop (l.takeWhile p).length = l.dropWhile p := by
  induction l with
  | nil => simp
  | cons a rest ih =>
    simp only [List.takeWhile, List.dropWhile]
    cases h : p a
    · simp
    · simp [ih.1, ih.2]

theorem takeWhile_append_of_exists {α : Type} (p : α → Bool) (l1 l2 : List α)
    (h : ∃ a ∈ l1, p a = false) : (l1 ++ l2).takeWhile p = l1.takeWhile p := by
  induction l1 with
  | nil => simp at h
  | cons a rest ih =>
    simp only [List.cons_append, List.takeWhile]
    cases ha : p a
    · rfl
    · simp only
      congr 1
      apply ih
      obtain ⟨b, hb, hpb⟩ := h
      rcases List.mem_cons.1 hb with rfl | hb
      · rw [ha] at hpb; exact Bool.noConfusion hpb
      · exact ⟨b, hb, hpb⟩

theorem takeWhile_length_lt_of_exists {α : Type} (p : α → Bool) (l : List α)
    (h : ∃ a ∈ l, p a = false) : (l.takeWhile p).length < l.length := by
  induction l with
  | nil => simp at h
  | cons a rest ih =>
    simp only [List.takeWhile]
    cases ha : p a
    · simp
    · simp only [List.length_cons]
      obtain ⟨b, hb, hpb⟩ := h
      rcases List.mem_cons.1 hb with rfl | hb
      · rw [ha] at hpb; exact Bool.noConfusion hpb
      · have := ih ⟨b, hb, hpb⟩
        omega

theorem get?_decompose {α : Type} (l : List α) (i : Nat) (x : α) (h : l.get? i = some x) :
    ∃ pre post, l = pre ++ x :: post ∧ pre.length = i := by
  induction l generalizing i with
  | nil => simp at h
  | cons a rest ih =>
    cases i with
    | zero =>
      simp at h
      exact ⟨[], rest, by simp [h], rfl⟩
    | succ n =>
      simp at h
      obtain ⟨pre, post, e, hl⟩ := ih n (by simpa using h)
      exact ⟨a :: pre, post, by simp [e], by simp [hl]⟩

theorem set_middle {α : Type} (pre post : List α) (x y : α) :
    (pre ++ x :: post).set pre.length y = pre ++ y :: post := by
  induction pre with
  | nil => rfl
  | cons a rest ih => simp [List.set, ih]

theorem eraseIdx_middle {α : Type} (pre post : List α) (x : α) :
    (pre ++ x :: post).eraseIdx pre.length = pre ++ post := by
  induction pre with
  | nil => rfl
  | cons a rest ih => simp [List.eraseIdx, ih]

theorem get?_middle {α : Type} (pre post : List α) (x : α) :
    (pre ++ x :: post).get? pre.length = some x := by
  induction pre with
  | nil => rfl
  | cons a rest ih => simpa using ih

theorem moveItem_middle {α : Type} (pre post : List α) (x : α) (newIndex : Nat)
    (h : newIndex ≤ (pre ++ post).length) :
    moveItem (pre ++ x :: post) pre.length newIndex =
      (pre ++ post).take newIndex ++ x :: (pre ++ post).drop newIndex := by
  have hlt : newIndex < (pre ++ x :: post).length := by
    simp only [List.length_append, List.length_cons] at h ⊢
    omega
  simp only [moveItem, if_pos hlt, get?_middle, eraseIdx_middle]

theorem takeWhile_length_le {α : Type} (p : α → Bool) (l : List α) :
    (l.takeWhile p).length ≤ l.length := by
  induction l with
  | nil => simp
  | cons a rest ih =>
    simp only [List.takeWhile]
    cases p a
    · simp
    · simp only [List.length_cons]
      omega

theorem sortIndexLoop_middle (pre post : List VpnConnection) (conn1 : VpnConnection) :
    sortIndexLoop conn1.name_ (pre ++ conn1 :: post) 0 =
      if ((pre ++ post).takeWhile (fun c => !qstringLt conn1.name_ c.name_)).length < pre.length
      then ((pre ++ post).takeWhile (fun c => !qstringLt conn1.name_ c.name_)).length
      else ((pre ++ post).takeWhile (fun c => !qstringLt conn1.name_ c.name_)).length + 1 := by
  rw [sortIndexLoop_eq, Nat.zero_add]
  by_cases h : ∃ a ∈ pre, (fun c : VpnConnection => !qstringLt conn1.name_ c.name_) a = false
  · rw [takeWhile_append_of_exists _ _ _ h, takeWhile_append_of_exists _ _ _ h,
      if_pos (takeWhile_length_lt_of_exists _ _ h)]
  · have hall : ∀ a ∈ pre, (fun c : VpnConnection => !qstringLt conn1.name_ c.name_) a = true := by
      intro a ha
      by_contra hc
      exact h ⟨a, ha, by simpa using hc⟩
    rw [List.takeWhile_append_of_pos hall, List.takeWhile_append_of_pos hall]
    have hself : (fun c : VpnConnection => !qstringLt conn1.name_ c.name_) conn1 = true := by
      simp [qstringLt_irrefl]
    have hcons : List.takeWhile (fun c : VpnConnection => !qstringLt conn1.name_ c.name_)
        (conn1 :: post) =
        conn1 :: List.takeWhile (fun c : VpnConnection => !qstringLt conn1.name_ c.name_) post :=
      List.takeWhile_cons_of_pos hself
    rw [hcons]
    simp only [List.length_append, List.length_cons]
    rw [if_neg (by omega)]
    omega

theorem relocate_eq (pre post : List VpnConnection) (conn1 : VpnConnection) :
    (if ((sortIndexLoop conn1.name_ (pre ++ conn1 :: post) 0 : Nat) : Int) ≠ (pre.length : Int) ∧
        ((sortIndexLoop conn1.name_ (pre ++ conn1 :: post) 0 : Nat) : Int) - 1 ≠ (pre.length : Int)
      then moveItem (pre ++ conn1 :: post) pre.length
        (if pre.length < sortIndexLoop conn1.name_ (pre ++ conn1 :: post) 0
          then sortIndexLoop conn1.name_ (pre ++ conn1 :: post) 0 - 1
          else sortIndexLoop conn1.name_ (pre ++ conn1 :: post) 0)
      else pre ++ conn1 :: post) =
      (pre ++ post).takeWhile (fun c => !qstringLt conn1.name_ c.name_) ++
        conn1 :: (pre ++ post).dropWhile (fun c => !qstringLt conn1.name_ c.name_) := by
  have htd := take_takeWhile_length (fun c : VpnConnection => !qstringLt conn1.name_ c.name_)
    (pre ++ post)
  rw [sortIndexLoop_middle]
  have hle := takeWhile_length_le (fun c : VpnConnection => !qstringLt conn1.name_ c.name_)
    (pre ++ post)
  generalize hT : ((pre ++ post).takeWhile (fun c => !qstringLt conn1.name_ c.name_)).length = t
    at htd hle ⊢
  rw [← htd.1, ← htd.2]
  by_cases h1 : t < pre.length
  · simp only [if_pos h1]
    rw [if_pos (by omega), if_neg (by omega), moveItem_middle _ _ _ _ hle]
  · simp only [if_neg h1]
    by_cases h2 : t = pre.length
    · rw [if_neg (by omega)]
      subst h2
      simp
    · rw [if_pos (by omega), if_pos (by omega), moveItem_middle _ _ _ _ (by simpa using hle)]
      simp

theorem updateConnection_changed
    (updateItem : VpnConnection → QVariantMap → Bool × VpnConnection) (m : VpnModel)
    (pre post : List VpnConnection) (conn : VpnConnection) (updateProperties : QVariantMap)
    (hitems : m.items = pre ++ conn :: post)
    (hchanged : (updateItem conn
      (updateConnectionProperties conn.providerProperties_ updateProperties)).1 = true) :
    (m.updateConnection updateItem pre.length updateProperties).items =
      (pre ++ post).takeWhile (fun c => !qstringLt (updateItem conn
          (updateConnectionProperties conn.providerProperties_ updateProperties)).2.name_ c.name_) ++
        (updateItem conn
          (updateConnectionProperties conn.providerProperties_ updateProperties)).2 ::
        (pre ++ post).dropWhile (fun c => !qstringLt (updateItem conn
          (updateConnectionProperties conn.providerProperties_ updateProperties)).2.name_ c.name_) ∧
    (m.updateConnection updateItem pre.length updateProperties).bestState_ =
      (if (updateItem conn
          (updateConnectionProperties conn.providerProperties_ updateProperties)).2.state_ ≠
          conn.state_
        then maxStateLoop (pre ++ (updateItem conn
          (updateConnectionProperties conn.providerProperties_ updateProperties)).2 :: post)
          ConnectionState.Idle.toInt
        else m.bestState_) ∧
    (m.updateConnection updateItem pre.length updateProperties).tokenFiles_ = m.tokenFiles_ ∧
    (m.updateConnection updateItem pre.length updateProperties).credentials_ = m.credentials_ ∧
    (m.updateConnection updateItem pre.length updateProperties).connections_ = m.connections_ := by
  generalize hu : updateItem conn
    (updateConnectionProperties conn.providerProperties_ updateProperties) = u at hchanged ⊢
  have hget : m.items.get? pre.length = some conn := by rw [hitems]; exact get?_middle _ _ _
  have hset : m.items.set pre.length u.2 = pre ++ u.2 :: post := by
    rw [hitems]; exact set_middle _ _ _ _
  unfold VpnModel.updateConnection
  rw [hget]
  simp only [hu, hset, hchanged, if_true]
  by_cases hlen : (pre ++ u.2 :: post).length > 1
  · rw [if_pos hlen]
    rw [← relocate_eq pre post u.2]
    by_cases hmove : ((sortIndexLoop u.2.name_ (pre ++ u.2 :: post) 0 : Nat) : Int) ≠
        (pre.length : Int) ∧
        ((sortIndexLoop u.2.name_ (pre ++ u.2 :: post) 0 : Nat) : Int) - 1 ≠ (pre.length : Int)
    · rw [if_pos hmove, if_pos hmove]
      by_cases hs : u.2.state_ ≠ conn.state_
      · rw [if_pos hs, if_pos hs]
        by_cases hb : m.bestState_ ≠ maxStateLoop (pre ++ u.2 :: post) ConnectionState.Idle.toInt
        · rw [if_pos hb]; exact ⟨rfl, rfl, rfl, rfl, rfl⟩
        · rw [if_neg hb]; exact ⟨rfl, not_not.1 hb, rfl, rfl, rfl⟩
      · rw [if_neg hs, if_neg hs]; exact ⟨rfl, rfl, rfl, rfl, rfl⟩
    · rw [if_neg hmove, if_neg hmove]
      by_cases hs : u.2.state_ ≠ conn.state_
      · rw [if_pos hs, if_pos hs]
        by_cases hb : m.bestState_ ≠ maxStateLoop (pre ++ u.2 :: post) ConnectionState.Idle.toInt
        · rw [if_pos hb]; exact ⟨rfl, rfl, rfl, rfl, rfl⟩
        · rw [if_neg hb]; exact ⟨rfl, not_not.1 hb, rfl, rfl, rfl⟩
      · rw [if_neg hs, if_neg hs]; exact ⟨rfl, rfl, rfl, rfl, rfl⟩
  · rw [if_neg hlen]
    have hpre : pre = [] := by
      cases pre with
      | nil => rfl
      | cons a r => simp at hlen
    have hpost : post = [] := by
      cases post with
      | nil => rfl
      | cons a r => simp at hlen; omega
    subst hpre hpost
    simp only [List.nil_append, List.takeWhile_nil, List.dropWhile_nil]
    by_cases hs : u.2.state_ ≠ conn.state_
    · rw [if_pos hs, if_pos hs]
      by_cases hb : m.bestState_ ≠ maxStateLoop [u.2] ConnectionState.Idle.toInt
      · rw [if_pos hb]; exact ⟨rfl, rfl, rfl, rfl, rfl⟩
      · rw [if_neg hb]; exact ⟨rfl, not_not.1 hb, rfl, rfl, rfl⟩
    · rw [if_neg hs, if_neg hs]; exact ⟨rfl, rfl, rfl, rfl, rfl⟩

theorem dropWhile_head_false {α : Type} (p : α → Bool) (l : List α) (g : α) (rest : List α)
    (h : l.dropWhile p = g :: rest) : p g = false := by
  induction l with
  | nil => simp at h
  | cons a r ih =>
    simp only [List.dropWhile] at h
    cases ha : p a
    · rw [ha] at h
      simp only at h
      rw [← (List.cons.inj h).1]
      exact ha
    · rw [ha] at h
      exact ih h

theorem after_place_not_less (R : List VpnConnection) (name : QString) (h : NameSorted R) :
    ∀ e ∈ R.dropWhile (fun c => !qstringLt name c.name_), qstringLt e.name_ name = false := by
  have hsplit := List.takeWhile_append_dropWhile (fun c : VpnConnection => !qstringLt name c.name_) R
  have hD : NameSorted (R.dropWhile (fun c => !qstringLt name c.name_)) := by
    unfold NameSorted at h ⊢
    rw [← hsplit] at h
    exact (List.pairwise_append.1 h).2.1
  cases hd : R.dropWhile (fun c => !qstringLt name c.name_) with
  | nil => intro e he; simp at he
  | cons g rest =>
    have hg : qstringLt name g.name_ = true := by
      have := dropWhile_head_false _ _ _ _ hd
      simpa using this
    rw [hd] at hD
    unfold NameSorted at hD
    have hrest := (List.pairwise_cons.1 hD).1
    intro e he
    rcases List.mem_cons.1 he with rfl | he
    · exact qstringLt_asymm _ _ hg
    · cases hlt : qstringLt e.name_ name with
      | false => rfl
      | true =>
        have := qstringLt_trans _ _ _ hlt hg
        rw [hrest e he] at this
        exact Bool.noConfusion this

theorem nameSorted_place (R : List VpnConnection) (conn1 : VpnConnection) (h : NameSorted R) :
    NameSorted (R.takeWhile (fun c => !qstringLt conn1.name_ c.name_) ++
      conn1 :: R.dropWhile (fun c => !qstringLt conn1.name_ c.name_)) := by
  have hafter := after_place_not_less R conn1.name_ h
  have hsplit := List.takeWhile_append_dropWhile
    (fun c : VpnConnection => !qstringLt conn1.name_ c.name_) R
  unfold NameSorted at h ⊢
  rw [← hsplit] at h
  obtain ⟨hT, hD, hTD⟩ := List.pairwise_append.1 h
  refine List.pairwise_append.2 ⟨hT, List.pairwise_cons.2 ⟨hafter, hD⟩, ?_⟩
  intro a ha b hb
  rcases List.mem_cons.1 hb with rfl | hb
  · have := List.mem_takeWhile_imp ha
    simpa using this
  · exact hTD a ha b hb

theorem mem_place (R : List VpnConnection) (p : VpnConnection → Bool) (conn1 c : VpnConnection) :
    c ∈ R.takeWhile p ++ conn1 :: R.dropWhile p ↔ c = conn1 ∨ c ∈ R := by
  have hsplit := List.takeWhile_append_dropWhile p R
  constructor
  · intro h
    rcases List.mem_append.1 h with h | h
    · exact Or.inr (hsplit ▸ List.mem_append_left _ h)
    · rcases List.mem_cons.1 h with h | h
      · exact Or.inl h
      · exact Or.inr (hsplit ▸ List.mem_append_right _ h)
  · intro h
    rcases h with h | h
    · exact List.mem_append_right _ (h ▸ List.mem_cons_self _ _)
    · rw [← hsplit] at h
      rcases List.mem_append.1 h with h | h
      · exact List.mem_append_left _ h
      · exact List.mem_append_right _ (List.mem_cons_of_mem _ h)

/-! ## Lemmas on the flags and the credentials -/

theorem find?_modifyRecord (path : QString) (f : VpnConnection → VpnConnection)
    (hf : ∀ c, (f c).path_ = c.path_) (items : List VpnConnection) :
    (modifyRecord path f items).find? (fun c => c.path_ == path) =
      (items.find? (fun c => c.path_ == path)).map f := by
  induction items with
  | nil => rfl
  | cons c rest ih =>
    simp only [modifyRecord]
    by_cases hc : (c.path_ == path) = true
    · rw [if_pos hc]
      have hfc : ((f c).path_ == path) = true := by rw [hf]; exact hc
      simp only [List.find?, hfc, hc, Option.map]
    · rw [if_neg hc]
      have hc2 : (c.path_ == path) = false := by simpa using hc
      simp only [List.find?, hc2]
      exact ih

theorem tokenExists_ensureToken (r : TokenFileRepository) (t : QString) :
    (r.ensureToken t true).tokenExists t = true := by
  rw [tokenExists_iff, ensureToken_tokens]
  by_cases h : t ∈ r.tokens_
  · rw [if_pos h]; exact h
  · rw [if_neg h]; simp

theorem tokenExists_removeToken (r : TokenFileRepository) (t : QString)
    (hnodup : r.tokens_.Nodup) : (r.removeToken t true).tokenExists t = false := by
  have h : ¬ (r.removeToken t true).tokenExists t = true := by
    rw [tokenExists_iff, removeToken_tokens]
    exact fun hm => ((List.Nodup.mem_erase_iff hnodup).1 hm).1 rfl
  simpa using h

theorem credentialsExist_storeCredentials (r : CredentialsRepository) (location : QString)
    (credentials : QVariantMap) :
    (r.storeCredentials location credentials true).2.credentialsExist location = true := by
  simp [CredentialsRepository.storeCredentials, CredentialsRepository.credentialsExist,
    qmapContains, qmapFind_insert_self]

theorem credentialsExist_removeCredentials (r : CredentialsRepository) (location : QString) :
    (r.removeCredentials location true).2.credentialsExist location = false := by
  unfold CredentialsRepository.removeCredentials
  by_cases h : qmapContains r.files location = true
  · rw [if_pos h]
    simp [CredentialsRepository.credentialsExist, qmapContains, qmapFind_qmapRemove]
  · rw [if_neg h]
    simpa [CredentialsRepository.credentialsExist] using h

theorem modifyConnection_known (m : VpnModel) (path : QString) (properties : QVariantMap)
    (conn : VpnConnection) (h : m.connection path = some conn) :
    (m.modifyConnection path properties).2.2 =
      some
        { token := tokenForObjectPath path
          automatic := (qmapValue (QStringLiteral "automaticUpDown") properties).toBool
          wasAutomatic := m.tokenFiles_.tokenExists (tokenForObjectPath path)
          location := locationForObjectPath path
          canStoreCredentials :=
            (qmapValue (QStringLiteral "storeCredentials") properties).toBool
          couldStoreCredentials :=
            m.credentials_.credentialsExist (locationForObjectPath path) } := by
  unfold VpnModel.modifyConnection
  rw [h]

/-! ## Lemmas on the best state and on what an update leaves alone -/

theorem numericValue_nonneg (state : Int) : 0 ≤ numericValue state := by
  unfold numericValue
  split_ifs <;> decide

theorem numericValue_pos (state : Int) (h : 0 < numericValue state) :
    state = ConnectionState.Ready.toInt ∨ state = ConnectionState.Configuration.toInt ∨
      state = ConnectionState.Failure.toInt := by
  unfold numericValue at h
  split_ifs at h with h1 h2 h3
  · exact Or.inl h1
  · exact Or.inr (Or.inl h2)
  · exact Or.inr (Or.inr h3)
  · exact absurd h (by decide)

theorem maxStateLoop_eq_or_gt (l : List VpnConnection) (init : Int) :
    maxStateLoop l init = init ∨ numericValue init < numericValue (maxStateLoop l init) := by
  induction l generalizing init with
  | nil => exact Or.inl rfl
  | cons c rest ih =>
    simp only [maxStateLoop]
    by_cases h : numericValue c.state_ > numericValue init
    · rw [if_pos h]
      rcases ih c.state_ with h1 | h1
      · rw [h1]; exact Or.inr h
      · exact Or.inr (by omega)
    · rw [if_neg h]
      exact ih init

theorem maxStateLoop_ranked (l : List VpnConnection) :
    maxStateLoop l ConnectionState.Idle.toInt = ConnectionState.Idle.toInt ∨
      maxStateLoop l ConnectionState.Idle.toInt = ConnectionState.Failure.toInt ∨
      maxStateLoop l ConnectionState.Idle.toInt = ConnectionState.Configuration.toInt ∨
      maxStateLoop l ConnectionState.Idle.toInt = ConnectionState.Ready.toInt := by
  rcases maxStateLoop_eq_or_gt l ConnectionState.Idle.toInt with h | h
  · exact Or.inl h
  · have hpos : 0 < numericValue (maxStateLoop l ConnectionState.Idle.toInt) :=
      lt_of_le_of_lt (numericValue_nonneg _) h
    rcases numericValue_pos _ hpos with h1 | h1 | h1
    · exact Or.inr (Or.inr (Or.inr h1))
    · exact Or.inr (Or.inr (Or.inl h1))
    · exact Or.inr (Or.inl h1)

theorem maxStateLoop_of_rank_zero (l : List VpnConnection)
    (h : ∀ c ∈ l, numericValue c.state_ = 0) :
    maxStateLoop l ConnectionState.Idle.toInt = ConnectionState.Idle.toInt := by
  rcases maxStateLoop_eq_or_gt l ConnectionState.Idle.toInt with h1 | h1
  · exact h1
  · obtain ⟨-, -, h3⟩ := maxStateLoop_spec l ConnectionState.Idle.toInt
    rcases h3 with h3 | ⟨c, hc, h3⟩
    · exact h3
    · have h0 := h c hc
      rw [h3] at h0
      have hn := numericValue_nonneg ConnectionState.Idle.toInt
      omega

theorem updateConnection_unchanged
    (updateItem : VpnConnection → QVariantMap → Bool × VpnConnection) (m : VpnModel)
    (pre post : List VpnConnection) (conn : VpnConnection) (updateProperties : QVariantMap)
    (hitems : m.items = pre ++ conn :: post)
    (hsame : (updateItem conn
      (updateConnectionProperties conn.providerProperties_ updateProperties)).1 = false) :
    m.updateConnection updateItem pre.length updateProperties =
      { m with items := pre ++ (updateItem conn
          (updateConnectionProperties conn.providerProperties_ updateProperties)).2 :: post } := by
  have hget : m.items.get? pre.length = some conn := by rw [hitems]; exact get?_middle _ _ _
  have hset : m.items.set pre.length (updateItem conn
      (updateConnectionProperties conn.providerProperties_ updateProperties)).2 =
      pre ++ (updateItem conn
        (updateConnectionProperties conn.providerProperties_ updateProperties)).2 :: post := by
    rw [hitems]; exact set_middle _ _ _ _
  unfold VpnModel.updateConnection
  rw [hget]
  simp only [hsame, hset, Bool.false_eq_true, if_false]

theorem updateConnection_unknown
    (updateItem : VpnConnection → QVariantMap → Bool × VpnConnection) (m : VpnModel)
    (currentIndex : Nat) (updateProperties : QVariantMap)
    (h : m.items.get? currentIndex = none) :
    m.updateConnection updateItem currentIndex updateProperties = m := by
  unfold VpnModel.updateConnection
  rw [h]

theorem updateConnection_bestState_cases
    (updateItem : VpnConnection → QVariantMap → Bool × VpnConnection) (m : VpnModel)
    (currentIndex : Nat) (updateProperties : QVariantMap) :
    (m.updateConnection updateItem currentIndex updateProperties).bestState_ = m.bestState_ ∨
      ∃ l, (m.updateConnection updateItem currentIndex updateProperties).bestState_ =
        maxStateLoop l ConnectionState.Idle.toInt := by
  cases hget : m.items.get? currentIndex with
  | none => rw [updateConnection_unknown updateItem m currentIndex updateProperties hget]
            exact Or.inl rfl
  | some conn =>
    obtain ⟨pre, post, hitems, hlen⟩ := get?_decompose _ _ _ hget
    subst hlen
    cases hch : (updateItem conn
        (updateConnectionProperties conn.providerProperties_ updateProperties)).1 with
    | false =>
      rw [updateConnection_unchanged updateItem m pre post conn updateProperties hitems hch]
      exact Or.inl rfl
    | true =>
      obtain ⟨-, hb, -⟩ := updateConnection_changed updateItem m pre post conn updateProperties
        hitems hch
      rw [hb]
      by_cases hs : (updateItem conn
          (updateConnectionProperties conn.providerProperties_ updateProperties)).2.state_ ≠
          conn.state_
      · rw [if_pos hs]; exact Or.inr ⟨_, rfl⟩
      · rw [if_neg hs]; exact Or.inl rfl

/-! ## Lemmas on lines passed through, on the content of a block, and on reads past the end -/

theorem processDirective_unrecognized (env : ImportEnv) (st : ImportState) (line : QString)
    (directive : QString) (arguments : List QString)
    (hsplit : splitWhitespace line = directive :: arguments)
    (hun : recognizedDirectives.contains directive = false) :
    processDirective env st line =
      some { st with extraOptions := st.extraOptions ++ [line] } := by
  have hmem : ∀ d ∈ recognizedDirectives, directive ≠ d := by
    intro d hd he
    have : recognizedDirectives.contains directive = true := by
      rw [he]
      exact List.elem_eq_true_of_mem hd
    rw [hun] at this
    exact Bool.noConfusion this
  have n1 := hmem (QStringLiteral "remote") (by decide)
  have n2 := hmem (QStringLiteral "ca") (by decide)
  have n3 := hmem (QStringLiteral "cert") (by decide)
  have n4 := hmem (QStringLiteral "key") (by decide)
  have n5 := hmem (QStringLiteral "auth-user-pass") (by decide)
  have n6 := hmem (QStringLiteral "mtu") (by decide)
  have n7 := hmem (QStringLiteral "tun-mtu") (by decide)
  have n8 := hmem (QStringLiteral "ns-cert-type") (by decide)
  have n9 := hmem (QStringLiteral "proto") (by decide)
  have n10 := hmem (QStringLiteral "port") (by decide)
  have n11 := hmem (QStringLiteral "askpass") (by decide)
  have n12 := hmem (QStringLiteral "auth-nocache") (by decide)
  have n13 := hmem (QStringLiteral "tls-remote") (by decide)
  have n14 := hmem (QStringLiteral "cipher") (by decide)
  have n15 := hmem (QStringLiteral "auth") (by decide)
  have n16 := hmem (QStringLiteral "comp-lzo") (by decide)
  have n17 := hmem (QStringLiteral "remote-cert-tls") (by decide)
  unfold processDirective
  rw [hsplit]
  simp only
  rw [if_neg n1, if_neg (by simp only [n2, n3, n4, n5, or_self, not_false_eq_true]),
    if_neg (by simp only [n6, n7, or_self, not_false_eq_true]), if_neg n8, if_neg n9,
    if_neg n10, if_neg n11, if_neg n12, if_neg n13, if_neg n14, if_neg n15, if_neg n16,
    if_neg n17]

theorem processLine_unrecognized (env : ImportEnv) (st : ImportState) (line : QString)
    (hout : st.embeddedMarker = []) (hun : isUnrecognizedDirective line = true) :
    processLine env st line = some { st with extraOptions := st.extraOptions ++ [line] } := by
  unfold isUnrecognizedDirective at hun
  simp only [Bool.and_eq_true, Bool.not_eq_true', Option.isNone_iff_eq_none] at hun
  obtain ⟨⟨⟨h1, h2⟩, h3⟩, h4⟩ := hun
  rw [processLine_directive env st line h1 h2 h3 hout]
  cases hsplit : splitWhitespace line with
  | nil => rw [hsplit] at h4; exact Bool.noConfusion h4
  | cons directive arguments =>
    rw [hsplit] at h4
    exact processDirective_unrecognized env st line directive arguments hsplit
      (by simpa using h4)

theorem processLines_unrecognized (env : ImportEnv) (st : ImportState) (lines : List QString)
    (hout : st.embeddedMarker = [])
    (hun : ∀ line ∈ lines, isUnrecognizedDirective line = true) :
    processLines env st lines = some { st with extraOptions := st.extraOptions ++ lines } := by
  induction lines generalizing st with
  | nil => simp [processLines]
  | cons line rest ih =>
    simp only [processLines]
    rw [processLine_unrecognized env st line hout (hun line (by simp))]
    simp only
    have hrest := ih { st with extraOptions := st.extraOptions ++ [line] } hout
      (fun l hl => hun l (by simp [hl]))
    rw [hrest]
    simp

theorem blockContent_cons (line : QString) (rest : List QString) :
    blockContent (line :: rest) = (line ++ QStringLiteral "\n") ++ blockContent rest := by
  simp [blockContent]

theorem processLines_block_content (env : ImportEnv) (st : ImportState) (body : List QString)
    (hin : st.embeddedMarker ≠ [])
    (hbody : ∀ l ∈ body, matchEmbeddedLeader l = none ∧ matchEmbeddedTrailer l = none) :
    processLines env st body =
      some { st with embeddedContent := st.embeddedContent ++ blockContent (contentLines body) } := by
  unfold contentLines
  induction body generalizing st with
  | nil => simp [processLines, blockContent]
  | cons l rest ih =>
    obtain ⟨h2, h3⟩ := hbody l (by simp)
    have hrest : ∀ l ∈ rest, matchEmbeddedLeader l = none ∧ matchEmbeddedTrailer l = none :=
      fun x hx => hbody x (by simp [hx])
    cases h1 : matchesCommentLeader l with
    | true =>
      simp only [processLines, processLine_comment env st l h1, List.filter, h1, Bool.not_true]
      exact ih st hin hrest
    | false =>
      simp only [processLines, processLine_content env st l h1 h2 h3 hin, List.filter, h1,
        Bool.not_false]
      have hr := ih
        { st with embeddedContent := st.embeddedContent ++ (l ++ QStringLiteral "\n") } hin hrest
      rw [hr, blockContent_cons]
      simp only [List.append_assoc]

theorem closeEmbedded_written_and_routed (env : ImportEnv) (s : ImportState) (m c : QString)
    (hm : s.embeddedMarker = m) (hcs : s.embeddedContent = c) (hc : c ≠ [])
    (hconn : m ≠ QStringLiteral "connection")
    (hdir : env.outputDirAvailable = true)
    (hw : env.canWrite (absoluteFilePath outputPath
      (env.sha1Hex c ++ QChar.ofChar '.' :: m)) = true) :
    (closeEmbedded env s m).files = s.files ++ [(absoluteFilePath outputPath
        (env.sha1Hex c ++ QChar.ofChar '.' :: m), c)] ∧
      (closeEmbedded env s m).embeddedMarker = [] ∧
      (closeEmbedded env s m).embeddedContent = [] ∧
      (m = QStringLiteral "ca" →
        (closeEmbedded env s m).rv = qmapInsert (QStringLiteral "OpenVPN.CACert")
          (QVariant.string (absoluteFilePath outputPath
            (env.sha1Hex c ++ QChar.ofChar '.' :: m))) s.rv ∧
        (closeEmbedded env s m).extraOptions = s.extraOptions) ∧
      (m = QStringLiteral "cert" →
        (closeEmbedded env s m).rv = qmapInsert (QStringLiteral "OpenVPN.Cert")
          (QVariant.string (absoluteFilePath outputPath
            (env.sha1Hex c ++ QChar.ofChar '.' :: m))) s.rv ∧
        (closeEmbedded env s m).extraOptions = s.extraOptions) ∧
      (m = QStringLiteral "key" →
        (closeEmbedded env s m).rv = qmapInsert (QStringLiteral "OpenVPN.Key")
          (QVariant.string (absoluteFilePath outputPath
            (env.sha1Hex c ++ QChar.ofChar '.' :: m))) s.rv ∧
        (closeEmbedded env s m).extraOptions = s.extraOptions) ∧
      (m ≠ QStringLiteral "ca" → m ≠ QStringLiteral "cert" → m ≠ QStringLiteral "key" →
        (closeEmbedded env s m).rv = s.rv ∧
        (closeEmbedded env s m).extraOptions = s.extraOptions ++
          [m ++ QChar.ofChar ' ' :: absoluteFilePath outputPath
            (env.sha1Hex c ++ QChar.ofChar '.' :: m)]) := by
  have hempty : s.embeddedContent.isEmpty = false := by
    rw [hcs]
    cases c with
    | nil => exact absurd rfl hc
    | cons x xs => rfl
  subst hm
  subst hcs
  unfold closeEmbedded
  simp only [ne_eq, not_true_eq_false, if_false, hempty, Bool.false_eq_true, hconn, hdir,
    Bool.not_true, hw]
  have n1 : QStringLiteral "ca" ≠ QStringLiteral "cert" := by decide
  have n2 : QStringLiteral "ca" ≠ QStringLiteral "key" := by decide
  have n3 : QStringLiteral "cert" ≠ QStringLiteral "key" := by decide
  by_cases c1 : s.embeddedMarker = QStringLiteral "ca"
  · simp [c1, ImportState.insert, n1, n2]
  · by_cases c2 : s.embeddedMarker = QStringLiteral "cert"
    · simp [c2, ImportState.insert, n1.symm, n3]
    · by_cases c3 : s.embeddedMarker = QStringLiteral "key"
      · simp [c3, ImportState.insert, n2.symm, n3.symm]
      · simp [c1, c2, c3]

theorem processLines_block (env : ImportEnv) (s0 : ImportState) (opening marker : QString)
    (body : List QString) (hopen : matchEmbeddedLeader opening = some marker)
    (hbody : ∀ l ∈ body, matchEmbeddedLeader l = none ∧ matchEmbeddedTrailer l = none) :
    processLines env s0 (opening :: body) =
      some { s0 with embeddedMarker := marker, embeddedContent := s0.embeddedContent ++ blockContent (contentLines body) } := by
  simp only [processLines]
  rw [processLine_leader env s0 opening marker (leader_line_not_comment opening marker hopen)
    hopen]
  simp only
  rw [processLines_block_content env { s0 with embeddedMarker := marker } body
    (matchEmbeddedLeader_ne_nil opening marker hopen) hbody]

/-! ## Lemmas on the place of the changed record and on the merge of provider properties -/

theorem before_place_not_greater (R : List VpnConnection) (name : QString) :
    ∀ c ∈ R.takeWhile (fun c => !qstringLt name c.name_), qstringLt name c.name_ = false := by
  intro c hc
  have := List.mem_takeWhile_imp hc
  simpa using this

theorem after_place_greater (R : List VpnConnection) (name : QString) (h : NameSorted R) :
    ∀ e ∈ R.dropWhile (fun c => !qstringLt name c.name_), qstringLt name e.name_ = true := by
  have hsplit := List.takeWhile_append_dropWhile (fun c : VpnConnection => !qstringLt name c.name_) R
  have hD : NameSorted (R.dropWhile (fun c => !qstringLt name c.name_)) := by
    unfold NameSorted at h ⊢
    rw [← hsplit] at h
    exact (List.pairwise_append.1 h).2.1
  cases hd : R.dropWhile (fun c => !qstringLt name c.name_) with
  | nil => intro e he; simp at he
  | cons g rest =>
    have hg : qstringLt name g.name_ = true := by
      have := dropWhile_head_false _ _ _ _ hd
      simpa using this
    rw [hd] at hD
    unfold NameSorted at hD
    have hrest := (List.pairwise_cons.1 hD).1
    intro e he
    rcases List.mem_cons.1 he with rfl | he
    · exact hg
    · cases hlt : qstringLt name e.name_ with
      | true => rfl
      | false =>
        cases hgt : qstringLt e.name_ name with
        | true =>
          have := qstringLt_trans _ _ _ hgt hg
          rw [hrest e he] at this
          exact Bool.noConfusion this
        | false =>
          have heq : name = e.name_ := qstringLt_total _ _ hlt hgt
          have := hrest e he
          rw [← heq, hg] at this
          exact Bool.noConfusion this

theorem qmapFind_qmapRemove_other {V : Type} (key other : QString) (m : List (QString × V))
    (hne : key ≠ other) : qmapFind other (qmapRemove key m) = qmapFind other m := by
  induction m with
  | nil => rfl
  | cons d rest ih =>
    obtain ⟨k, v⟩ := d
    unfold qmapRemove at ih ⊢
    by_cases hk : k = key
    · subst hk
      simp [List.filter, qmapFind, hne, ih]
    · have hb : (!(k == key)) = true := by simpa using hk
      simp only [List.filter, hb, qmapFind]
      rw [ih]

theorem qmapFind_of_ordered_head {V : Type} (k : QString) (v : V) (rest : List (QString × V))
    (h : QMapOrdered ((k, v) :: rest)) : qmapFind k rest = none := by
  rw [qmapFind_eq_none]
  intro e he hek
  have hlt := (List.pairwise_cons.1 h).1 e he
  simp only at hlt
  rw [hek, qstringLt_irrefl] at hlt
  exact Bool.noConfusion hlt

theorem insertAll_find (updated existing : QVariantMap) (key : QString)
    (h : QMapOrdered updated) :
    qmapFind key (insertAll updated existing) =
      match qmapFind key updated with
      | some value => some value
      | none => qmapFind key existing := by
  induction updated generalizing existing with
  | nil => rfl
  | cons e rest ih =>
    obtain ⟨k, v⟩ := e
    have hrest : QMapOrdered rest := (List.pairwise_cons.1 h).2
    simp only [insertAll]
    rw [ih (qmapInsert k v existing) hrest]
    by_cases hk : k = key
    · subst hk
      rw [qmapFind_of_ordered_head k v rest h]
      simp [qmapFind, qmapFind_insert_self]
    · simp only [qmapFind, hk, if_false]
      cases qmapFind key rest with
      | some value => rfl
      | none => exact qmapFind_insert_other k key v existing hk

theorem updateConnectionProperties_providerProperties (existing updateProperties updated :
    QVariantMap)
    (h : qmapFind (QStringLiteral "providerProperties") updateProperties =
      some (QVariant.map updated)) :
    qmapFind (QStringLiteral "providerProperties")
        (updateConnectionProperties existing updateProperties) =
      some (QVariant.map (insertAll updated existing)) := by
  unfold updateConnectionProperties
  rw [h]
  simp only
  have hfind : qmapFind (QStringLiteral "providerProperties")
      (qmapInsert (QStringLiteral "providerProperties")
        (QVariant.map (insertAll (QVariant.map updated).toMap existing)) updateProperties) =
      some (QVariant.map (insertAll updated existing)) := qmapFind_insert_self _ _ _
  split
  · split_ifs
    · rw [qmapFind_qmapRemove_other _ _ _ (by decide)]
      exact hfind
    · exact hfind
  · exact hfind

theorem updateConnection_record_mem
    (updateItem : VpnConnection → QVariantMap → Bool × VpnConnection) (m : VpnModel)
    (currentIndex : Nat) (conn : VpnConnection) (updateProperties : QVariantMap)
    (hconn : m.items.get? currentIndex = some conn) :
    (updateItem conn (updateConnectionProperties conn.providerProperties_ updateProperties)).2 ∈
      (m.updateConnection updateItem currentIndex updateProperties).items := by
  obtain ⟨pre, post, hitems, hlen⟩ := get?_decompose _ _ _ hconn
  subst hlen
  cases hch : (updateItem conn
      (updateConnectionProperties conn.providerProperties_ updateProperties)).1 with
  | false =>
    rw [updateConnection_unchanged updateItem m pre post conn updateProperties hitems hch]
    simp
  | true =>
    rw [(updateConnection_changed updateItem m pre post conn updateProperties hitems hch).1,
      mem_place]
    exact Or.inl rfl
/-! ## Claims on the credential codec -/

/-- C1: for every mapping from string keys to string values (a `QMap`, so keys ascending and
unique, within the sizes a Qt container can have), decoding the encoded credentials gives
the mapping back: the same keys, each with the same value. -/
theorem decodeCredentials_encodeCredentials (m : QVariantMap) (hord : QMapOrdered m)
    (hstr : StringValued m) (hsize : WithinQtSizes m) :
    decodeCredentials (encodeCredentials m) = m := by
  unfold decodeCredentials encodeCredentials
  simp only [fromBase64_toBase64]
  have hlen : m.length % 4294967296 = m.length := Nat.mod_eq_of_lt (by have := hsize.1; omega)
  rw [hlen, List.append_assoc, readUInt32_writeUInt32 1 _ (by decide)]
  simp only [ne_eq, not_true_eq_false, if_false]
  rw [readUInt32_writeUInt32 _ _ (by have := hsize.1; omega)]
  simp only
  have := decodeItems_encodeItems m [] [] hstr hsize.2 (by simpa using hord)
  simpa using this

/-- C1 witness: the credentials `password = secret`, `user = bob` survive the round trip. -/
theorem decodeCredentials_encodeCredentials_witness :
    decodeCredentials (encodeCredentials
      [(QStringLiteral "password", QVariant.string (QStringLiteral "secret")),
       (QStringLiteral "user", QVariant.string (QStringLiteral "bob"))]) =
      [(QStringLiteral "password", QVariant.string (QStringLiteral "secret")),
       (QStringLiteral "user", QVariant.string (QStringLiteral "bob"))] :=
  decodeCredentials_encodeCredentials _ (by decide) (by decide) (by decide)

/-- C2: a stored blob whose version field (the first unsigned 32-bit value of the decoded
stream) is anything other than 1 decodes to the empty mapping, whatever bytes follow; the
decoder is a total function, so no error is raised. -/
theorem decodeCredentials_bad_version (encoded : QByteArray)
    (h : (readUInt32 (fromBase64 encoded)).1 ≠ 1) : decodeCredentials encoded = [] := by
  unfold decodeCredentials
  simp only
  rw [if_pos h]

/-- C2 witness: the blob `AAAAAgAAAAEAAAAC` (version 2, then the start of an item) decodes
to the empty mapping. -/
theorem decodeCredentials_bad_version_witness :
    decodeCredentials ("AAAAAgAAAAEAAAAC".toList.map Byte.ofChar) = [] :=
  decodeCredentials_bad_version _ (by decide)

/-- C4 (as stated, refuted): for the wire map whose only entry is
`Domain = merproject.org`, the presentation map that `propertiesToQml` produces does
contain the key `domain`, with the default domain as its value. -/
theorem propertiesToQml_default_domain_counterexample :
    qmapFind (QStringLiteral "Domain")
      [(QStringLiteral "Domain", QVariant.string defaultDomain)] =
      some (QVariant.string defaultDomain) ∧
    qmapContains (propertiesToQml [(QStringLiteral "Domain", QVariant.string defaultDomain)])
      (QStringLiteral "domain") = true ∧
    propertiesToQml [(QStringLiteral "Domain", QVariant.string defaultDomain)] =
      [(QStringLiteral "domain", QVariant.string defaultDomain)] :=
  ⟨rfl, by decide, rfl⟩

/-- C4 (amended): for every wire map whose `Domain` value equals the default domain (and
that has no key `domain` beside it), `propertiesToQml` keeps the entry as `domain` with its
value unchanged; the omission is made by `updateConnection`: the property map it hands on
for the translated update contains no `domain` key at all, whatever the connection's provider
properties are. -/
theorem updateConnection_omits_default_domain (m existing : QVariantMap)
    (hord : QMapOrdered m)
    (hD : qmapFind (QStringLiteral "Domain") m = some (QVariant.string defaultDomain))
    (hd : qmapFind (QStringLiteral "domain") m = none) :
    qmapFind (QStringLiteral "domain") (propertiesToQml m) =
      some (QVariant.string defaultDomain) ∧
    qmapFind (QStringLiteral "domain")
      (updateConnectionProperties existing (propertiesToQml m)) = none := by
  have hloop : ∀ rv pp, qmapFind (QStringLiteral "domain") (propertiesToQmlLoop m rv pp).1 =
      some (QVariant.string defaultDomain) := fun rv pp =>
    propertiesToQmlLoop_find_domain m rv pp _ hord hD ((qmapFind_eq_none _ m).mp hd)
  have hqml : qmapFind (QStringLiteral "domain") (propertiesToQml m) =
      some (QVariant.string defaultDomain) := by
    unfold propertiesToQml
    simp only
    split_ifs
    · rw [qmapFind_insert_other _ _ _ _ (by decide)]
      exact hloop [] []
    · exact hloop [] []
  refine ⟨hqml, ?_⟩
  unfold updateConnectionProperties
  cases hpp : qmapFind (QStringLiteral "providerProperties") (propertiesToQml m) with
  | none =>
    simp only [hqml, QVariant.toString, if_true]
    exact qmapFind_qmapRemove _ _
  | some updated =>
    simp only [qmapFind_insert_other _ _ _ _ (show QStringLiteral "providerProperties" ≠
      QStringLiteral "domain" from by decide), hqml, QVariant.toString, if_true]
    exact qmapFind_qmapRemove _ _

/-- C4 witness: the update `Domain = merproject.org`, `Name = Work`, `OpenVPN.Port = 1194`
reaches the record without a `domain` key. -/
theorem updateConnection_omits_default_domain_witness :
    qmapFind (QStringLiteral "domain")
      (updateConnectionProperties []
        (propertiesToQml
          [(QStringLiteral "Domain", QVariant.string defaultDomain),
           (QStringLiteral "Name", QVariant.string (QStringLiteral "Work")),
           (QStringLiteral "OpenVPN.Port", QVariant.string (QStringLiteral "1194"))])) = none :=
  (updateConnection_omits_default_domain
    [(QStringLiteral "Domain", QVariant.string defaultDomain),
     (QStringLiteral "Name", QVariant.string (QStringLiteral "Work")),
     (QStringLiteral "OpenVPN.Port", QVariant.string (QStringLiteral "1194"))] []
    (by decide) rfl rfl).2

/-- C5 (as stated, refuted): the wire map with the single key `ProviderProperties` has no
entry whose key contains `.`, and yet its presentation map has the key
`providerProperties`. -/
theorem propertiesToQml_providerProperties_counterexample :
    (∀ e ∈ [(QStringLiteral "ProviderProperties", QVariant.string (QStringLiteral "x"))],
      QChar.ofChar '.' ∉ e.1) ∧
    qmapContains (propertiesToQml
      [(QStringLiteral "ProviderProperties", QVariant.string (QStringLiteral "x"))])
      (QStringLiteral "providerProperties") = true := by
  refine ⟨?_, by decide⟩
  intro e he
  rw [List.mem_singleton.mp he]
  decide

/-- C5 (amended): for every wire map `m`, `propertiesToQml m` has no top-level key
containing `.`; when `m` has an entry whose key contains `.`, the key `providerProperties`
holds the sub-map of exactly those entries, keys and values unchanged; and when `m` has no
such entry and no key `ProviderProperties` or `providerProperties` of its own, the
presentation map has no `providerProperties` key. -/
theorem propertiesToQml_providerProperties (m : QVariantMap) (hord : QMapOrdered m) :
    (∀ e ∈ propertiesToQml m, QChar.ofChar '.' ∉ e.1) ∧
    ((∃ e ∈ m, QChar.ofChar '.' ∈ e.1) →
      qmapFind (QStringLiteral "providerProperties") (propertiesToQml m) =
        some (QVariant.map (m.filter dotted))) ∧
    ((∀ e ∈ m, QChar.ofChar '.' ∉ e.1 ∧ e.1 ≠ QStringLiteral "ProviderProperties" ∧
        e.1 ≠ QStringLiteral "providerProperties") →
      qmapFind (QStringLiteral "providerProperties") (propertiesToQml m) = none) := by
  have hpp : (propertiesToQmlLoop m [] []).2 = m.filter dotted := by
    have := propertiesToQmlLoop_providerProperties m [] []
      (by simpa using ordered_filter m dotted hord)
    simpa using this
  have hrv := propertiesToQmlLoop_no_dot m [] [] (by simp)
  refine ⟨?_, ?_, ?_⟩
  · intro e he
    unfold propertiesToQml at he
    simp only at he
    split_ifs at he
    · rcases mem_qmapInsert _ _ _ _ he with h1 | h1
      · rw [h1]
        show QChar.ofChar '.' ∉ QStringLiteral "providerProperties"
        decide
      · exact hrv e h1
    · exact hrv e he
  · rintro ⟨e, he, hdot⟩
    have hne : m.filter dotted ≠ [] := by
      intro hnil
      have : e ∈ m.filter dotted := List.mem_filter.mpr ⟨he, by simpa [dotted] using hdot⟩
      rw [hnil] at this
      exact List.not_mem_nil _ this
    unfold propertiesToQml
    simp only [hpp]
    rw [if_pos (by simpa using hne), qmapFind_insert_self]
  · intro hall
    have hnil : m.filter dotted = [] := by
      rw [List.filter_eq_nil_iff]
      intro e he
      simpa [dotted] using (hall e he).1
    unfold propertiesToQml
    simp only [hpp, hnil, List.isEmpty_nil, Bool.not_true, Bool.false_eq_true, if_false]
    rw [propertiesToQmlLoop_find_frame m [] [] _, qmapFind]
    intro e he _ hlow
    rcases lowerInitial_eq e.1 _ hlow with h1 | h1
    · exact (hall e he).2.2 h1
    · exact (hall e he).2.1 (by rw [h1]; decide)

/-- C5 witness: of the wire map `Name = Work`, `OpenVPN.Port = 1194`, `OpenVPN.Proto = udp`
the two namespaced entries, and nothing else, are in the `providerProperties` sub-map. -/
theorem propertiesToQml_providerProperties_witness :
    qmapFind (QStringLiteral "providerProperties")
      (propertiesToQml
        [(QStringLiteral "Name", QVariant.string (QStringLiteral "Work")),
         (QStringLiteral "OpenVPN.Port", QVariant.string (QStringLiteral "1194")),
         (QStringLiteral "OpenVPN.Proto", QVariant.string (QStringLiteral "udp"))]) =
      some (QVariant.map
        [(QStringLiteral "OpenVPN.Port", QVariant.string (QStringLiteral "1194")),
         (QStringLiteral "OpenVPN.Proto", QVariant.string (QStringLiteral "udp"))]) :=
  (propertiesToQml_providerProperties
    [(QStringLiteral "Name", QVariant.string (QStringLiteral "Work")),
     (QStringLiteral "OpenVPN.Port", QVariant.string (QStringLiteral "1194")),
     (QStringLiteral "OpenVPN.Proto", QVariant.string (QStringLiteral "udp"))]
    (by decide)).2.1
    ⟨(QStringLiteral "OpenVPN.Port", QVariant.string (QStringLiteral "1194")),
      List.Mem.tail _ (List.Mem.head _), by decide⟩

/-! ## Claims on the property translator -/

/-- C3 (as stated, refuted): the wire map with the single key `ProviderProperties`, a
non-empty capitalized key without `.` that is none of the extracted fields, does not come
back: its presentation form has the key `providerProperties`, which `propertiesToDBus`
flattens away. Nor does the wire map `TYPE = 0`, which has no `Type` or `State` entry: the
lookup table is consulted under the lowercased key, and the number comes back as the name
`openvpn`. -/
theorem propertiesToDBus_propertiesToQml_counterexample :
    CapitalizedKey (QStringLiteral "ProviderProperties") ∧
    QStringLiteral "ProviderProperties" ∉ extractedKeys ∧
    propertiesToDBus (propertiesToQml
      [(QStringLiteral "ProviderProperties", QVariant.string (QStringLiteral "x"))]) = [] ∧
    propertiesToDBus (propertiesToQml
      [(QStringLiteral "ProviderProperties", QVariant.string (QStringLiteral "x"))]) ≠
      [(QStringLiteral "ProviderProperties", QVariant.string (QStringLiteral "x"))] ∧
    CapitalizedKey (QStringLiteral "TYPE") ∧
    QStringLiteral "TYPE" ∉ extractedKeys ∧
    propertiesToDBus (propertiesToQml [(QStringLiteral "TYPE", QVariant.int 0)]) =
      [(QStringLiteral "TYPE", QVariant.string (QStringLiteral "openvpn"))] ∧
    propertiesToDBus (propertiesToQml [(QStringLiteral "TYPE", QVariant.int 0)]) ≠
      [(QStringLiteral "TYPE", QVariant.int 0)] := by
  refine ⟨by decide, by decide, rfl, ?_, by decide, by decide, rfl, ?_⟩
  · rw [show propertiesToDBus (propertiesToQml
        [(QStringLiteral "ProviderProperties", QVariant.string (QStringLiteral "x"))]) = []
      from rfl]
    exact List.noConfusion
  · rw [show propertiesToDBus (propertiesToQml [(QStringLiteral "TYPE", QVariant.int 0)]) =
        [(QStringLiteral "TYPE", QVariant.string (QStringLiteral "openvpn"))] from rfl]
    intro h
    have h2 := (Prod.mk.inj (List.cons.inj h).1).2
    exact QVariant.noConfusion h2

/-- C3 (amended): for every wire map whose keys are in the casing table (non-empty, initial
an ASCII capital, no `.`), are none of the extracted fields IPv4, IPv6, ServerRoutes,
UserRoutes and are not `ProviderProperties`, and whose values under the keys that the lookup
table converts (`type`, `state`, compared without case) are taken from that table,
`propertiesToDBus (propertiesToQml m) = m`. -/
theorem propertiesToDBus_propertiesToQml (m : QVariantMap) (hord : QMapOrdered m)
    (hm : ∀ e ∈ m, WireEntry e) : propertiesToDBus (propertiesToQml m) = m := by
  have hcap : ∀ e ∈ m, CapitalizedKey e.1 := fun e he => (hm e he).1
  have hqml : propertiesToQmlLoop m [] [] = (m.map qmlEntry, []) := by
    have := propertiesToQmlLoop_capitalized m [] []
      (fun e he => ⟨(hm e he).1, (hm e he).2.1⟩)
      (by simpa using ordered_map_qmlEntry m hcap hord)
    simpa using this
  unfold propertiesToQml propertiesToDBus
  rw [hqml]
  simp only [List.isEmpty_nil, Bool.not_true, Bool.false_eq_true, if_false]
  have := propertiesToDBusLoop_qmlEntry m [] hm (by simpa using hord)
  simpa using this

/-- C3 witness: the wire map `Name = Work`, `State = ready`, `Type = openvpn` comes back
unchanged. -/
theorem propertiesToDBus_propertiesToQml_witness :
    propertiesToDBus (propertiesToQml
      [(QStringLiteral "Name", QVariant.string (QStringLiteral "Work")),
       (QStringLiteral "State", QVariant.string (QStringLiteral "ready")),
       (QStringLiteral "Type", QVariant.string (QStringLiteral "openvpn"))]) =
      [(QStringLiteral "Name", QVariant.string (QStringLiteral "Work")),
       (QStringLiteral "State", QVariant.string (QStringLiteral "ready")),
       (QStringLiteral "Type", QVariant.string (QStringLiteral "openvpn"))] := by
  refine propertiesToDBus_propertiesToQml _ (by decide) ?_
  intro e he
  simp only [List.mem_cons, List.mem_singleton, List.not_mem_nil, or_false] at he
  rcases he with he | he | he <;> subst he
  · refine ⟨by decide, by decide, by decide, fun list h => ?_⟩
    exact Option.noConfusion ((show qmapFind (toLower (QStringLiteral "Name"))
      propertyConversions = none from rfl).symm.trans h)
  · refine ⟨by decide, by decide, by decide, fun list h => ?_⟩
    have hl := Option.some.inj ((show qmapFind (toLower (QStringLiteral "State"))
      propertyConversions = some _ from rfl).symm.trans h)
    subst hl
    exact ⟨(QVariant.string (QStringLiteral "ready"), QVariant.int 3),
      List.Mem.tail _ (List.Mem.tail _ (List.Mem.tail _ (List.Mem.head _))), rfl⟩
  · refine ⟨by decide, by decide, by decide, fun list h => ?_⟩
    have hl := Option.some.inj ((show qmapFind (toLower (QStringLiteral "Type"))
      propertyConversions = some _ from rfl).symm.trans h)
    subst hl
    exact ⟨(QVariant.string (QStringLiteral "openvpn"), QVariant.int 0),
      List.Mem.head _, rfl⟩

/-! ## Claims on the token repository -/

/-- C6 (as stated, refuted): for the path `abc`, which has no `/`, the final component of
the path split on `/` is `abc` itself, but `tokenForObjectPath` returns the empty string. -/
theorem tokenForObjectPath_no_slash_counterexample :
    lastSegment (QStringLiteral "abc") = QStringLiteral "abc" ∧
    tokenForObjectPath (QStringLiteral "abc") = [] ∧
    tokenForObjectPath (QStringLiteral "abc") ≠ lastSegment (QStringLiteral "abc") := by
  decide

/-- C6 (amended): for a path containing `/`, `tokenForObjectPath` is the final component of
the path split on `/`, exactly the text after its last `/`; for a path without `/` it is the
empty string; and the result never contains `/`. -/
theorem tokenForObjectPath_last_segment (path : QString) :
    (QChar.ofChar '/' ∈ path →
      tokenForObjectPath path = lastSegment path ∧
      ∃ front, path = front ++ QChar.ofChar '/' :: tokenForObjectPath path) ∧
    (QChar.ofChar '/' ∉ path → tokenForObjectPath path = []) ∧
    QChar.ofChar '/' ∉ tokenForObjectPath path := by
  rw [tokenForObjectPath_eq, lastSegment_eq]
  cases h : lastOccurrence (QChar.ofChar '/') path with
  | some j =>
    have hmem : QChar.ofChar '/' ∈ path := by
      by_contra hn
      rw [(lastOccurrence_eq_none _ path).mpr hn] at h
      exact Option.noConfusion h
    refine ⟨fun _ => ⟨rfl, path.take j, take_lastOccurrence _ path j h⟩,
      fun hn => absurd hmem hn, not_mem_drop_lastOccurrence _ path j h⟩
  | none =>
    have hn := (lastOccurrence_eq_none _ path).mp h
    exact ⟨fun hm => absurd hm hn, fun _ => rfl, by simp⟩

/-- C6 witness: the identity `/net/connman/vpn/connection/abc` has the token `abc`. -/
theorem tokenForObjectPath_last_segment_witness :
    QChar.ofChar '/' ∈ QStringLiteral "/net/connman/vpn/connection/abc" ∧
    tokenForObjectPath (QStringLiteral "/net/connman/vpn/connection/abc") =
      lastSegment (QStringLiteral "/net/connman/vpn/connection/abc") ∧
    lastSegment (QStringLiteral "/net/connman/vpn/connection/abc") = QStringLiteral "abc" :=
  ⟨by decide,
   ((tokenForObjectPath_last_segment
      (QStringLiteral "/net/connman/vpn/connection/abc")).1 (by decide)).1,
   by decide⟩

/-- C7: from an initial repository state (the token list holds each file name once, as a
directory listing does) and any finite sequence of `ensureToken` / `removeToken` calls whose
file operations succeed, `tokenExists t` afterwards is true exactly when the last call naming
`t` was `ensureToken`, or no call named `t` and `t` existed initially; a call naming another
token never changes `tokenExists t`. -/
theorem tokenExists_after_calls (r : TokenFileRepository) (cs : List TokenCall) (t : QString)
    (hnodup : r.tokens_.Nodup) :
    (r.calls cs).tokenExists t =
      (match lastCallNaming t cs with
       | some (.ensure _) => true
       | some (.remove _) => false
       | none => r.tokenExists t) ∧
    ∀ (s : TokenFileRepository) (c : TokenCall), c.token ≠ t →
      (s.call c).tokenExists t = s.tokenExists t := by
  refine ⟨?_, fun s c hc => call_other s c t hc⟩
  induction cs generalizing r with
  | nil => simp [TokenFileRepository.calls, lastCallNaming]
  | cons c cs ih =>
    have hstep := ih (r.call c) (call_nodup r c hnodup)
    have hcalls : r.calls (c :: cs) = (r.call c).calls cs := by
      simp [TokenFileRepository.calls]
    rw [hcalls, hstep]
    cases hl : lastCallNaming t cs with
    | some d => cases d <;> simp [lastCallNaming, hl]
    | none =>
      by_cases hc : c.token = t
      · simp only [lastCallNaming, hl, hc, if_true]
        rw [call_naming r c t hnodup hc]
        cases c <;> rfl
      · simp only [lastCallNaming, hl, hc, if_false]
        exact call_other r c t hc

/-- C7 witness: starting with the tokens `a` and `b`, the calls remove `a`, ensure `c`,
ensure `a`, remove `c` leave `a` present. -/
theorem tokenExists_after_calls_witness :
    (TokenFileRepository.mk [QStringLiteral "a", QStringLiteral "b"]).tokens_.Nodup ∧
    ((TokenFileRepository.mk [QStringLiteral "a", QStringLiteral "b"]).calls
      [.remove (QStringLiteral "a"), .ensure (QStringLiteral "c"),
       .ensure (QStringLiteral "a"), .remove (QStringLiteral "c")]).tokenExists
        (QStringLiteral "a") = true :=
  ⟨by decide,
   (tokenExists_after_calls (TokenFileRepository.mk [QStringLiteral "a", QStringLiteral "b"])
      [.remove (QStringLiteral "a"), .ensure (QStringLiteral "c"),
       .ensure (QStringLiteral "a"), .remove (QStringLiteral "c")]
      (QStringLiteral "a") (by decide)).1.trans (by decide)⟩

/-- C8: after `removeUnknownTokens S` a token exists in the repository if and only if it
existed before the call and is in `S`; so every stored token not in `S` is removed and no
token in `S` is removed. -/
theorem tokenExists_removeUnknownTokens (r : TokenFileRepository) (S : List QString)
    (t : QString) :
    ((r.removeUnknownTokens S).tokenExists t = true ↔ r.tokenExists t = true ∧ t ∈ S) ∧
    (r.tokenExists t = true ∧ t ∉ S → (r.removeUnknownTokens S).tokenExists t = false) ∧
    (r.tokenExists t = true ∧ t ∈ S → (r.removeUnknownTokens S).tokenExists t = true) := by
  have key : (r.removeUnknownTokens S).tokenExists t = true ↔
      r.tokenExists t = true ∧ t ∈ S := by
    rw [tokenExists_iff, tokenExists_iff]
    simp [TokenFileRepository.removeUnknownTokens, removeUnknownTokensLoop_eq_filter,
      List.mem_filter]
  refine ⟨key, fun h => ?_, fun h => key.mpr h⟩
  rw [Bool.eq_false_iff]
  exact fun hex => h.2 (key.mp hex).2

/-- C8 witness: pruning the tokens `a`, `b`, `c` against `S = [c, a, d]` removes `b` and
keeps `a`. -/
theorem tokenExists_removeUnknownTokens_witness :
    ((TokenFileRepository.mk [QStringLiteral "a", QStringLiteral "b", QStringLiteral "c"]
        ).removeUnknownTokens
        [QStringLiteral "c", QStringLiteral "a", QStringLiteral "d"]).tokenExists
        (QStringLiteral "b") = false ∧
    ((TokenFileRepository.mk [QStringLiteral "a", QStringLiteral "b", QStringLiteral "c"]
        ).removeUnknownTokens
        [QStringLiteral "c", QStringLiteral "a", QStringLiteral "d"]).tokenExists
        (QStringLiteral "a") = true :=
  ⟨(tokenExists_removeUnknownTokens
      (TokenFileRepository.mk [QStringLiteral "a", QStringLiteral "b", QStringLiteral "c"])
      [QStringLiteral "c", QStringLiteral "a", QStringLiteral "d"] (QStringLiteral "b")).2.1
      ⟨by decide, by decide⟩,
   (tokenExists_removeUnknownTokens
      (TokenFileRepository.mk [QStringLiteral "a", QStringLiteral "b", QStringLiteral "c"])
      [QStringLiteral "c", QStringLiteral "a", QStringLiteral "d"] (QStringLiteral "a")).2.2
      ⟨by decide, by decide⟩⟩

/-! ## Claims on the provisioning importer -/

/-- The first `remote` directive decides the returned map: whenever the importer returns a
map for a profile whose first `remote` directive outside an embedded block (the map has no
`Host` yet) has the three arguments `host`, `port` and `proto`, that map holds
`Host = host`, `OpenVPN.Port = port` and `OpenVPN.Proto` = the normalised `proto`, whatever
the other lines are. -/
theorem remote_populates_returned_map (env : ImportEnv) (before after : List QString)
    (line host port proto : QString) (s0 : ImportState) (rv : QVariantMap)
    (h0 : processLines env ImportState.initial before = some s0)
    (hout : s0.embeddedMarker = [])
    (hfirst : qmapContains s0.rv (QStringLiteral "Host") = false)
    (hline : splitWhitespace line = [QStringLiteral "remote", host, port, proto])
    (hrun : processOpenVpnProvisioningFile env (before ++ line :: after) = some rv) :
    Populated rv host port (normaliseProtocol proto) := by
  unfold processOpenVpnProvisioningFile importProfile at hrun
  rw [processLines_append, h0] at hrun
  simp only [Option.some_bind, processLines] at hrun
  rw [processLine_remote env s0 line _ hout hline] at hrun
  simp only at hrun
  cases hafter : processLines env (remoteDirective s0 line [host, port, proto]) after with
  | none => rw [hafter] at hrun; cases hrun
  | some s1 =>
    rw [hafter] at hrun
    simp only [Option.map_some'] at hrun
    cases hrun
    exact writeExtraOptions_populated env s1 _ _ _
      (processLines_populated env _ s1 after _ _ _
        (remoteDirective_populates s0 line host port proto hfirst) hafter)

/-- C9 (at the failing input): the one-line profile `remote vpn.example.com 1194 udp` is
imported as the claim says, but with the further line `ca ca.crt` the importer reads
`arguments.at(1)` of a one-element list and returns no map at all. -/
theorem remote_then_ca_returns_nothing (env : ImportEnv) :
    processOpenVpnProvisioningFile env [QStringLiteral "remote vpn.example.com 1194 udp"] =
      some [(QStringLiteral "Host", QVariant.string (QStringLiteral "vpn.example.com")),
            (QStringLiteral "OpenVPN.Port", QVariant.string (QStringLiteral "1194")),
            (QStringLiteral "OpenVPN.Proto", QVariant.string (QStringLiteral "udp"))] ∧
    processOpenVpnProvisioningFile env
      [QStringLiteral "remote vpn.example.com 1194 udp", QStringLiteral "ca ca.crt"] = none :=
  ⟨rfl, rfl⟩

/-- C11: the profile that consists of `proto tcp` yields `OpenVPN.Proto = tcp-client`, so
does a `remote` directive whose third argument is `tcp`, and for every profile the wire map
that the importer returns never has `OpenVPN.Proto` equal to the bare string `tcp`. -/
theorem proto_never_bare_tcp :
    (∀ env : ImportEnv,
      processOpenVpnProvisioningFile env [QStringLiteral "proto tcp"] =
        some [(QStringLiteral "OpenVPN.Proto", QVariant.string (QStringLiteral "tcp-client"))]) ∧
    (∀ env : ImportEnv,
      processOpenVpnProvisioningFile env [QStringLiteral "remote vpn.example.com 443 tcp"] =
        some [(QStringLiteral "Host", QVariant.string (QStringLiteral "vpn.example.com")),
              (QStringLiteral "OpenVPN.Port", QVariant.string (QStringLiteral "443")),
              (QStringLiteral "OpenVPN.Proto",
                QVariant.string (QStringLiteral "tcp-client"))]) ∧
    ∀ (env : ImportEnv) (lines : List QString) (rv : QVariantMap),
      processOpenVpnProvisioningFile env lines = some rv →
      qmapFind (QStringLiteral "OpenVPN.Proto") rv ≠
        some (QVariant.string (QStringLiteral "tcp")) := by
  refine ⟨fun _ => rfl, fun _ => rfl, ?_⟩
  intro env lines rv h
  obtain ⟨s, hs, hrv⟩ := processOpenVpnProvisioningFile_eq_some env lines rv h
  have hn : NoBareTcp s.rv :=
    processLines_noBareTcp env ImportState.initial s lines
      (by unfold NoBareTcp; exact fun he => Option.noConfusion he) hs
  rw [hrv, writeExtraOptions_find env s _ (by decide)]
  exact hn

/-- C11 witness: in the profile `proto tcp`, `remote vpn.example.com 443 tcp` the returned
protocol is `tcp-client`, not `tcp`. -/
theorem proto_never_bare_tcp_witness :
    processOpenVpnProvisioningFile ImportEnv.readOnly
      [QStringLiteral "proto tcp", QStringLiteral "remote vpn.example.com 443 tcp"] =
      some [(QStringLiteral "Host", QVariant.string (QStringLiteral "vpn.example.com")),
            (QStringLiteral "OpenVPN.Port", QVariant.string (QStringLiteral "443")),
            (QStringLiteral "OpenVPN.Proto", QVariant.string (QStringLiteral "tcp-client"))] ∧
    qmapFind (QStringLiteral "OpenVPN.Proto")
      [(QStringLiteral "Host", QVariant.string (QStringLiteral "vpn.example.com")),
       (QStringLiteral "OpenVPN.Port", QVariant.string (QStringLiteral "443")),
       (QStringLiteral "OpenVPN.Proto", QVariant.string (QStringLiteral "tcp-client"))] ≠
      some (QVariant.string (QStringLiteral "tcp")) :=
  ⟨rfl, proto_never_bare_tcp.2.2 ImportEnv.readOnly
    [QStringLiteral "proto tcp", QStringLiteral "remote vpn.example.com 443 tcp"] _ rfl⟩

/-- C12 (as stated, refuted): in the profile `remote a.example.com`,
`remote b.example.com 1195 udp`, `port 443`, `proto tcp` the second `remote` directive
carries a port and a protocol and is followed by standalone `port` and `proto` directives,
yet the returned port and protocol are those of the standalone directives. -/
theorem later_remote_port_proto_counterexample :
    processOpenVpnProvisioningFile ImportEnv.readOnly
      [QStringLiteral "remote a.example.com", QStringLiteral "remote b.example.com 1195 udp",
       QStringLiteral "port 443", QStringLiteral "proto tcp"] =
      some [(QStringLiteral "Host", QVariant.string (QStringLiteral "a.example.com")),
            (QStringLiteral "OpenVPN.Port", QVariant.string (QStringLiteral "443")),
            (QStringLiteral "OpenVPN.Proto", QVariant.string (QStringLiteral "tcp-client"))] ∧
    QStringLiteral "443" ≠ QStringLiteral "1195" ∧
    QStringLiteral "tcp-client" ≠ normaliseProtocol (QStringLiteral "udp") :=
  ⟨rfl, by decide, by decide⟩

/-- C12 (amended): for every profile in which the first `remote` directive that names a
host (outside an embedded block) carries a port and a protocol, whatever `port` and `proto`
directives follow it, every wire map that the importer returns has the `OpenVPN.Port` and
the normalised `OpenVPN.Proto` of that `remote` directive. -/
theorem first_remote_port_proto_kept (env : ImportEnv) (before after : List QString)
    (line host port proto : QString) (rest : List QString) (s0 : ImportState)
    (rv : QVariantMap)
    (h0 : processLines env ImportState.initial before = some s0)
    (hout : s0.embeddedMarker = [])
    (hfirst : NoHostRemote env before)
    (hline : splitWhitespace line = QStringLiteral "remote" :: host :: port :: proto :: rest)
    (hrun : processOpenVpnProvisioningFile env (before ++ line :: after) = some rv) :
    qmapFind (QStringLiteral "OpenVPN.Port") rv = some (QVariant.string port) ∧
    qmapFind (QStringLiteral "OpenVPN.Proto") rv =
      some (QVariant.string (normaliseProtocol proto)) := by
  have habs := noHostRemote_host_absent env before s0 hfirst h0
  obtain ⟨s, hs, hrv⟩ := processOpenVpnProvisioningFile_eq_some env _ rv hrun
  rw [processLines_append, h0] at hs
  simp only [Option.some_bind, processLines] at hs
  rw [processLine_remote env s0 line _ hout hline] at hs
  simp only at hs
  have hp := processLines_populated env _ s after _ _ _
    (remoteDirective_populates_more s0 line host port proto rest habs) hs
  rw [hrv, writeExtraOptions_find env s _ (by decide),
    writeExtraOptions_find env s _ (by decide)]
  exact ⟨hp.2.1, hp.2.2⟩

/-- C12 witness: in the profile `port 443`, `remote a.example.com 1194 udp`, `port 8080`,
`proto tcp` the returned port and protocol are `1194` and `udp`. -/
theorem first_remote_port_proto_kept_witness :
    processOpenVpnProvisioningFile ImportEnv.readOnly
      ([QStringLiteral "port 443"] ++ QStringLiteral "remote a.example.com 1194 udp" ::
        [QStringLiteral "port 8080", QStringLiteral "proto tcp"]) =
      some [(QStringLiteral "Host", QVariant.string (QStringLiteral "a.example.com")),
            (QStringLiteral "OpenVPN.Port", QVariant.string (QStringLiteral "1194")),
            (QStringLiteral "OpenVPN.Proto", QVariant.string (QStringLiteral "udp"))] ∧
    qmapFind (QStringLiteral "OpenVPN.Port")
      [(QStringLiteral "Host", QVariant.string (QStringLiteral "a.example.com")),
       (QStringLiteral "OpenVPN.Port", QVariant.string (QStringLiteral "1194")),
       (QStringLiteral "OpenVPN.Proto", QVariant.string (QStringLiteral "udp"))] =
      some (QVariant.string (QStringLiteral "1194")) ∧
    qmapFind (QStringLiteral "OpenVPN.Proto")
      [(QStringLiteral "Host", QVariant.string (QStringLiteral "a.example.com")),
       (QStringLiteral "OpenVPN.Port", QVariant.string (QStringLiteral "1194")),
       (QStringLiteral "OpenVPN.Proto", QVariant.string (QStringLiteral "udp"))] =
      some (QVariant.string (normaliseProtocol (QStringLiteral "udp"))) := by
  refine ⟨rfl, first_remote_port_proto_kept ImportEnv.readOnly [QStringLiteral "port 443"]
    [QStringLiteral "port 8080", QStringLiteral "proto tcp"]
    (QStringLiteral "remote a.example.com 1194 udp") (QStringLiteral "a.example.com")
    (QStringLiteral "1194") (QStringLiteral "udp") []
    { rv := [(QStringLiteral "OpenVPN.Port", QVariant.string (QStringLiteral "443"))],
      embeddedMarker := [],
      embeddedContent := [],
      extraOptions := [],
      files := [] }
    _ rfl rfl ?_ rfl rfl⟩
  intro a x b sa host rest hsplit ha hm
  rcases a with _ | ⟨y, a2⟩
  · have hx : x = QStringLiteral "port 443" := by
      simp only [List.nil_append] at hsplit
      exact ((List.cons.inj hsplit).1).symm
    rw [hx, show splitWhitespace (QStringLiteral "port 443") =
      [QStringLiteral "port", QStringLiteral "443"] from by decide]
    exact fun he => absurd (List.cons.inj he).1 (by decide)
  · have hlen := congrArg List.length hsplit
    simp at hlen

/-- C13 (at the failing input): a `ca`, `cert`, `key` or `auth-user-pass` line with its one
file argument, absolute or not, makes the importer read `arguments.at(1)` of a one-element
list, and no wire map is returned; with two arguments the key is set from the second one. -/
theorem file_directive_single_argument_returns_nothing (env : ImportEnv) :
    processOpenVpnProvisioningFile env [QStringLiteral "ca /etc/openvpn/ca.crt"] = none ∧
    processOpenVpnProvisioningFile env [QStringLiteral "ca ca.crt"] = none ∧
    processOpenVpnProvisioningFile env [QStringLiteral "cert client.crt"] = none ∧
    processOpenVpnProvisioningFile env [QStringLiteral "key client.key"] = none ∧
    processOpenVpnProvisioningFile env [QStringLiteral "auth-user-pass pass.txt"] = none ∧
    processOpenVpnProvisioningFile env [QStringLiteral "ca first.crt /etc/second.crt"] =
      some [(QStringLiteral "OpenVPN.CACert",
        QVariant.string (QStringLiteral "/etc/second.crt"))] :=
  ⟨rfl, rfl, rfl, rfl, rfl, rfl⟩

/-- C14 (at the failing input): recognized directives without an argument are read to the
end of the stream, but for `key client.key` the index 1 that the importer reads is beyond
the one-element argument list, and the importer returns no wire map, also when other lines
precede and follow. -/
theorem importer_aborts_on_single_file_argument (env : ImportEnv) :
    processOpenVpnProvisioningFile env
      [QStringLiteral "ca", QStringLiteral "auth-user-pass", QStringLiteral "cipher",
       QStringLiteral "remote"] =
      some [(QStringLiteral "OpenVPN.AuthUserPass", QVariant.string (QStringLiteral "-"))] ∧
    splitWhitespace (QStringLiteral "key client.key") =
      [QStringLiteral "key", QStringLiteral "client.key"] ∧
    listAt [QStringLiteral "client.key"] 1 = none ∧
    processOpenVpnProvisioningFile env [QStringLiteral "key client.key"] = none ∧
    processOpenVpnProvisioningFile env
      [QStringLiteral "cipher AES-256-CBC", QStringLiteral "key client.key",
       QStringLiteral "auth SHA256"] = none :=
  ⟨rfl, by decide, rfl, rfl, rfl⟩

/-- C15 (as stated, refuted): with everything writable, the block `<ca>` whose only line is a
comment line has content, yet nothing is written and no key is set; the block `<tls-auth>`
is written without its comment line; the block `<ca>` opened while the block `<x>` is still
open is written with the content of `<x>` in front; and the block `<ca>` with the line
`<key>` inside is closed by `</ca>` without anything written. -/
theorem embedded_block_not_written_as_is_counterexample :
    (importProfile ImportEnv.writable
        [QStringLiteral "<ca>", QStringLiteral "# fingerprint 12:34",
          QStringLiteral "</ca>"]).map
        (fun s => (s.files.map (fun f => f.2), s.rv.map (fun e => e.1), s.extraOptions)) =
      some ([], [], []) ∧
    blockContent [QStringLiteral "# fingerprint 12:34"] ≠ [] ∧
    (processLines ImportEnv.writable ImportState.initial
        [QStringLiteral "<tls-auth>", QStringLiteral "# static key",
          QStringLiteral "KEYDATA", QStringLiteral "</tls-auth>"]).map
        (fun s => s.files.map (fun f => f.2)) =
      some [QStringLiteral "KEYDATA\n"] ∧
    blockContent [QStringLiteral "# static key", QStringLiteral "KEYDATA"] =
      QStringLiteral "# static key\nKEYDATA\n" ∧
    (processLines ImportEnv.writable ImportState.initial
        [QStringLiteral "<x>", QStringLiteral "foo", QStringLiteral "<ca>",
          QStringLiteral "MIIB", QStringLiteral "</ca>"]).map
        (fun s => s.files.map (fun f => f.2)) =
      some [QStringLiteral "foo\nMIIB\n"] ∧
    (processLines ImportEnv.writable ImportState.initial
        [QStringLiteral "<ca>", QStringLiteral "<key>", QStringLiteral "MIIB",
          QStringLiteral "</ca>"]).map
        (fun s => (s.files.map (fun f => f.2), s.rv.map (fun e => e.1))) =
      some ([], []) :=
  ⟨by decide, by decide, by decide, by decide, by decide, by decide⟩

/-- C15 (amended): in a profile in which, outside any embedded block, a block is opened with
the marker `m`, `m` other than `connection`, and closed with the same marker, with no
opening or closing tag among the lines `body` between the tags, let `c` be the lines of
`body` that are not comment lines, each followed by a newline; when `c` is not empty and the
output directory and the file can be written, the importer at the closing tag writes `c` to
the file named `<sha1-hex(c)>.<m>` in the output directory and routes the path of that file:
`ca` sets `OpenVPN.CACert`, `cert` sets `OpenVPN.Cert`, `key` sets `OpenVPN.Key`, and any
other marker appends `<m> <filepath>` to the extra options. -/
theorem embedded_block_written_and_routed (env : ImportEnv) (before body : List QString)
    (opening closing m : QString) (s0 : ImportState)
    (h0 : processLines env ImportState.initial before = some s0)
    (hout : s0.embeddedMarker = [])
    (hopen : matchEmbeddedLeader opening = some m)
    (hbody : ∀ l ∈ body, matchEmbeddedLeader l = none ∧ matchEmbeddedTrailer l = none)
    (hclose : matchEmbeddedTrailer closing = some m)
    (hc : blockContent (contentLines body) ≠ [])
    (hconn : m ≠ QStringLiteral "connection")
    (hdir : env.outputDirAvailable = true)
    (hw : env.canWrite (absoluteFilePath outputPath
      (env.sha1Hex (blockContent (contentLines body)) ++ QChar.ofChar '.' :: m)) = true) :
    ∃ s1, processLines env ImportState.initial (before ++ opening :: body ++ [closing]) =
        some s1 ∧
      s1.files = s0.files ++ [(absoluteFilePath outputPath
        (env.sha1Hex (blockContent (contentLines body)) ++ QChar.ofChar '.' :: m),
        blockContent (contentLines body))] ∧
      s1.embeddedMarker = [] ∧ s1.embeddedContent = [] ∧
      (m = QStringLiteral "ca" →
        s1.rv = qmapInsert (QStringLiteral "OpenVPN.CACert")
          (QVariant.string (absoluteFilePath outputPath
            (env.sha1Hex (blockContent (contentLines body)) ++ QChar.ofChar '.' :: m))) s0.rv ∧
        s1.extraOptions = s0.extraOptions) ∧
      (m = QStringLiteral "cert" →
        s1.rv = qmapInsert (QStringLiteral "OpenVPN.Cert")
          (QVariant.string (absoluteFilePath outputPath
            (env.sha1Hex (blockContent (contentLines body)) ++ QChar.ofChar '.' :: m))) s0.rv ∧
        s1.extraOptions = s0.extraOptions) ∧
      (m = QStringLiteral "key" →
        s1.rv = qmapInsert (QStringLiteral "OpenVPN.Key")
          (QVariant.string (absoluteFilePath outputPath
            (env.sha1Hex (blockContent (contentLines body)) ++ QChar.ofChar '.' :: m))) s0.rv ∧
        s1.extraOptions = s0.extraOptions) ∧
      (m ≠ QStringLiteral "ca" → m ≠ QStringLiteral "cert" → m ≠ QStringLiteral "key" →
        s1.rv = s0.rv ∧
        s1.extraOptions = s0.extraOptions ++
          [m ++ QChar.ofChar ' ' :: absoluteFilePath outputPath
            (env.sha1Hex (blockContent (contentLines body)) ++ QChar.ofChar '.' :: m)]) := by
  have hnormal : NormalState s0 :=
    processLines_normalState env ImportState.initial s0 before (fun _ => rfl) h0
  have hcontent : s0.embeddedContent = [] := hnormal hout
  obtain ⟨c1, c2⟩ := trailer_line_is_tag closing m hclose
  have hrun : processLines env ImportState.initial (before ++ opening :: body ++ [closing]) =
      some (closeEmbedded env
        { s0 with embeddedMarker := m, embeddedContent := blockContent (contentLines body) } m) := by
    have hlist : before ++ opening :: body ++ [closing] =
        before ++ ((opening :: body) ++ [closing]) := by simp
    rw [hlist, processLines_append, h0]
    simp only [Option.some_bind]
    rw [processLines_append, processLines_block env s0 opening m body hopen hbody]
    simp only [Option.some_bind, processLines, hcontent, List.nil_append]
    rw [processLine_trailer env _ closing m c1 c2 hclose]
  exact ⟨_, hrun, closeEmbedded_written_and_routed env
    { s0 with embeddedMarker := m, embeddedContent := blockContent (contentLines body) } m
    (blockContent (contentLines body)) rfl rfl hc hconn hdir hw⟩

/-- C15 witness: after a `remote` line, the block `<ca>` with three lines of content is
written to the file `0a1b.ca` of the output directory (`0a1b` standing for the digest) and
`OpenVPN.CACert` is set to the path of that file. -/
theorem embedded_block_written_and_routed_witness :
    ∃ s1, processLines ImportEnv.writable ImportState.initial
        ([QStringLiteral "remote vpn.example.com"] ++ QStringLiteral "<ca>" ::
          [QStringLiteral "-----BEGIN CERTIFICATE-----", QStringLiteral "MIIB",
            QStringLiteral "-----END CERTIFICATE-----"] ++
          [QStringLiteral "</ca>"]) = some s1 ∧
      s1.files =
        [(QStringLiteral "/home/nemo/.local/share/system/vpn-provisioning/0a1b.ca",
          QStringLiteral
            "-----BEGIN CERTIFICATE-----\nMIIB\n-----END CERTIFICATE-----\n")] ∧
      qmapFind (QStringLiteral "OpenVPN.CACert") s1.rv =
        some (QVariant.string
          (QStringLiteral "/home/nemo/.local/share/system/vpn-provisioning/0a1b.ca")) := by
  obtain ⟨s1, h1, hf, _, _, hca, _⟩ :=
    embedded_block_written_and_routed ImportEnv.writable
      [QStringLiteral "remote vpn.example.com"]
      [QStringLiteral "-----BEGIN CERTIFICATE-----", QStringLiteral "MIIB",
        QStringLiteral "-----END CERTIFICATE-----"]
      (QStringLiteral "<ca>") (QStringLiteral "</ca>") (QStringLiteral "ca")
      { rv := [(QStringLiteral "Host", QVariant.string (QStringLiteral "vpn.example.com"))],
        embeddedMarker := [],
        embeddedContent := [],
        extraOptions := [],
        files := [] }
      rfl rfl (by decide) (by decide) (by decide) (by decide) (by decide) rfl rfl
  refine ⟨s1, h1, hf.trans (by decide), ?_⟩
  rw [(hca rfl).1]
  exact qmapFind_insert_self _ _ _

/-- C16 (as stated, refuted): the block opened with `<a>` and closed with `</b>` while the
block `<x>` is open leaves the line `cipher AES` after it to be read as a directive, whereas
without the block that line is content of `<x>`; and the block opened with `<a>` that has the
line `<b>` inside is closed by `</b>` with its content written to a file. -/
theorem mismatched_block_not_discarded_counterexample :
    processOpenVpnProvisioningFile ImportEnv.readOnly
        [QStringLiteral "<x>", QStringLiteral "foo", QStringLiteral "<a>",
          QStringLiteral "bar", QStringLiteral "</b>", QStringLiteral "cipher AES"] =
      some [(QStringLiteral "OpenVPN.Cipher", QVariant.string (QStringLiteral "AES"))] ∧
    processOpenVpnProvisioningFile ImportEnv.readOnly
        [QStringLiteral "<x>", QStringLiteral "foo", QStringLiteral "cipher AES"] =
      some [] ∧
    (processLines ImportEnv.readOnly ImportState.initial
        [QStringLiteral "<x>", QStringLiteral "foo", QStringLiteral "cipher AES"]).map
        (fun s => (s.embeddedMarker, s.embeddedContent)) =
      some (QStringLiteral "x", QStringLiteral "foo\ncipher AES\n") ∧
    (processLines ImportEnv.writable ImportState.initial
        [QStringLiteral "<a>", QStringLiteral "<b>", QStringLiteral "foo",
          QStringLiteral "</b>"]).map
        (fun s => (s.files.map (fun f => f.2), s.extraOptions)) =
      some ([QStringLiteral "foo\n"],
        [QStringLiteral "b /home/nemo/.local/share/system/vpn-provisioning/0a1b.b"]) :=
  ⟨rfl, rfl, by decide, by decide⟩

/-- C16 (amended): in every profile in which, outside any embedded block, a block is opened
with the marker `a` and, after lines that are neither opening nor closing tags, closed with a
different marker `b`, the closing tag leaves the importer in the state it was in before the
block (no wire key, no written file and no extra option comes from the block, and no block
is open), and the profile is imported exactly as the profile without the block is. -/
theorem mismatched_block_discarded (env : ImportEnv) (before body after : List QString)
    (opening closing a b : QString) (s0 : ImportState)
    (h0 : processLines env ImportState.initial before = some s0)
    (hout : s0.embeddedMarker = [])
    (hopen : matchEmbeddedLeader opening = some a)
    (hbody : ∀ l ∈ body, matchEmbeddedLeader l = none ∧ matchEmbeddedTrailer l = none)
    (hclose : matchEmbeddedTrailer closing = some b)
    (hne : b ≠ a) :
    processLines env ImportState.initial (before ++ opening :: body ++ [closing]) = some s0 ∧
    importProfile env (before ++ opening :: body ++ closing :: after) =
      importProfile env (before ++ after) ∧
    processOpenVpnProvisioningFile env (before ++ opening :: body ++ closing :: after) =
      processOpenVpnProvisioningFile env (before ++ after) := by
  have hnormal : NormalState s0 :=
    processLines_normalState env ImportState.initial s0 before (fun _ => rfl) h0
  have hcontent : s0.embeddedContent = [] := hnormal hout
  have ha : a ≠ [] := matchEmbeddedLeader_ne_nil opening a hopen
  obtain ⟨c1, c2⟩ := trailer_line_is_tag closing b hclose
  have key : ∀ tail, processLines env ImportState.initial
      (before ++ opening :: body ++ closing :: tail) = processLines env s0 tail := by
    intro tail
    obtain ⟨c, hc⟩ := processLines_in_block env { s0 with embeddedMarker := a } body ha hbody
    have hlist : before ++ opening :: body ++ closing :: tail =
        before ++ ([opening] ++ (body ++ closing :: tail)) := by simp
    rw [hlist, processLines_append, h0]
    simp only [Option.some_bind]
    rw [processLines_append]
    simp only [processLines]
    rw [processLine_leader env s0 opening a (leader_line_not_comment opening a hopen) hopen]
    simp only [Option.some_bind]
    rw [processLines_append, hc]
    simp only [Option.some_bind, processLines]
    rw [processLine_trailer env _ closing b c1 c2 hclose, closeEmbedded_mismatch _ _ _ hne]
    simp only
    have hs : ({ s0 with embeddedMarker := [], embeddedContent := [] } : ImportState) = s0 := by
      cases s0
      simp only at hout hcontent
      subst hout
      subst hcontent
      rfl
    rw [hs]
  have hafter : processLines env ImportState.initial (before ++ after) =
      processLines env s0 after := by
    rw [processLines_append, h0]
    rfl
  refine ⟨by simpa [processLines] using key [], ?_, ?_⟩
  · unfold importProfile
    rw [key after, hafter]
  · unfold processOpenVpnProvisioningFile importProfile
    rw [key after, hafter]

/-- C16 witness: the block opened with `<ca>` and closed with `</cert>` leaves nothing
behind, and the `cipher` line after it is read as a directive. -/
theorem mismatched_block_discarded_witness :
    processOpenVpnProvisioningFile ImportEnv.writable
      ([QStringLiteral "remote vpn.example.com"] ++ QStringLiteral "<ca>" ::
        [QStringLiteral "MIIB", QStringLiteral "# not kept"] ++ QStringLiteral "</cert>" ::
        [QStringLiteral "cipher AES-256-CBC"]) =
      processOpenVpnProvisioningFile ImportEnv.writable
        ([QStringLiteral "remote vpn.example.com"] ++ [QStringLiteral "cipher AES-256-CBC"]) :=
  (mismatched_block_discarded ImportEnv.writable [QStringLiteral "remote vpn.example.com"]
    [QStringLiteral "MIIB", QStringLiteral "# not kept"] [QStringLiteral "cipher AES-256-CBC"]
    (QStringLiteral "<ca>") (QStringLiteral "</cert>") (QStringLiteral "ca")
    (QStringLiteral "cert")
    { rv := [(QStringLiteral "Host", QVariant.string (QStringLiteral "vpn.example.com"))],
      embeddedMarker := [],
      embeddedContent := [],
      extraOptions := [],
      files := [] }
    rfl rfl (by decide) (by decide) (by decide) (by decide)).2.2

/-! ## Aggregate best state (C17, C18) -/

/-- C17: after an update of the record at `currentIndex` that changes its state, every record
of the collection has a state whose rank is at most the rank of the best state, and the best
state is `Idle` or the state of one of the records, under the ranking Ready 3, Configuration
2, Failure 1, Idle and Disconnect 0; in particular, once connections in the states idle,
failure and ready have arrived, the best state is Ready. -/
theorem bestState_has_maximum_rank
    (updateItem : VpnConnection → QVariantMap → Bool × VpnConnection) (m : VpnModel)
    (currentIndex : Nat) (conn : VpnConnection) (updateProperties : QVariantMap)
    (hconn : m.items.get? currentIndex = some conn)
    (hchanged : (updateItem conn
      (updateConnectionProperties conn.providerProperties_ updateProperties)).1 = true)
    (hstate : (updateItem conn
      (updateConnectionProperties conn.providerProperties_ updateProperties)).2.state_ ≠
        conn.state_) :
    (numericValue ConnectionState.Ready.toInt = 3 ∧
      numericValue ConnectionState.Configuration.toInt = 2 ∧
      numericValue ConnectionState.Failure.toInt = 1 ∧
      numericValue ConnectionState.Idle.toInt = 0 ∧
      numericValue ConnectionState.Disconnect.toInt = 0) ∧
    (∀ c ∈ (m.updateConnection updateItem currentIndex updateProperties).items,
      numericValue c.state_ ≤
        numericValue (m.updateConnection updateItem currentIndex updateProperties).bestState_) ∧
    ((m.updateConnection updateItem currentIndex updateProperties).bestState_ =
        ConnectionState.Idle.toInt ∨
      ∃ c ∈ (m.updateConnection updateItem currentIndex updateProperties).items,
        c.state_ = (m.updateConnection updateItem currentIndex updateProperties).bestState_) ∧
    (VpnModel.idleFailureReady.items.map (fun c => c.state_) =
        [ConnectionState.Idle.toInt, ConnectionState.Failure.toInt,
          ConnectionState.Ready.toInt] ∧
      VpnModel.idleFailureReady.bestState_ = ConnectionState.Ready.toInt) := by
  obtain ⟨pre, post, hitems, hlen⟩ := get?_decompose _ _ _ hconn
  subst hlen
  obtain ⟨hi, hb, -⟩ := updateConnection_changed updateItem m pre post conn updateProperties
    hitems hchanged
  rw [if_pos hstate] at hb
  obtain ⟨-, hall, hsome⟩ := maxStateLoop_spec
    (pre ++ (updateItem conn
      (updateConnectionProperties conn.providerProperties_ updateProperties)).2 :: post)
    ConnectionState.Idle.toInt
  have hmem : ∀ c, c ∈ (m.updateConnection updateItem pre.length updateProperties).items ↔
      c ∈ pre ++ (updateItem conn
        (updateConnectionProperties conn.providerProperties_ updateProperties)).2 :: post := by
    intro c
    rw [hi, mem_place]
    simp only [List.mem_append, List.mem_cons]
    tauto
  refine ⟨by decide, ?_, ?_, by decide⟩
  · intro c hc
    rw [hb]
    exact hall c ((hmem c).1 hc)
  · rw [hb]
    rcases hsome with h | ⟨c, hc, h⟩
    · exact Or.inl h
    · exact Or.inr ⟨c, (hmem c).2 hc, h⟩

/-- Witness for C17: in a collection of an idle, a failed and a connecting record, whose best
state is Configuration, the third record becomes ready. -/
theorem bestState_has_maximum_rank_witness :
    (VpnModel.holding
        [VpnConnection.named "/vpn/home" "Home" .Idle,
          VpnConnection.named "/vpn/lab" "Lab" .Failure,
          VpnConnection.named "/vpn/work" "Work" .Configuration] .Configuration).items.get? 2 =
      some (VpnConnection.named "/vpn/work" "Work" .Configuration) ∧
    ((VpnModel.holding
        [VpnConnection.named "/vpn/home" "Home" .Idle,
          VpnConnection.named "/vpn/lab" "Lab" .Failure,
          VpnConnection.named "/vpn/work" "Work" .Configuration] .Configuration).updateConnection
        updateNameAndState 2
        [(QStringLiteral "state", QVariant.int ConnectionState.Ready.toInt)]).bestState_ =
      ConnectionState.Ready.toInt ∧
    ∀ c ∈ ((VpnModel.holding
        [VpnConnection.named "/vpn/home" "Home" .Idle,
          VpnConnection.named "/vpn/lab" "Lab" .Failure,
          VpnConnection.named "/vpn/work" "Work" .Configuration] .Configuration).updateConnection
        updateNameAndState 2
        [(QStringLiteral "state", QVariant.int ConnectionState.Ready.toInt)]).items,
      numericValue c.state_ ≤ numericValue ((VpnModel.holding
        [VpnConnection.named "/vpn/home" "Home" .Idle,
          VpnConnection.named "/vpn/lab" "Lab" .Failure,
          VpnConnection.named "/vpn/work" "Work" .Configuration] .Configuration).updateConnection
        updateNameAndState 2
        [(QStringLiteral "state", QVariant.int ConnectionState.Ready.toInt)]).bestState_ :=
  ⟨rfl, by decide,
    (bestState_has_maximum_rank updateNameAndState
      (VpnModel.holding
        [VpnConnection.named "/vpn/home" "Home" .Idle,
          VpnConnection.named "/vpn/lab" "Lab" .Failure,
          VpnConnection.named "/vpn/work" "Work" .Configuration] .Configuration)
      2 (VpnConnection.named "/vpn/work" "Work" .Configuration)
      [(QStringLiteral "state", QVariant.int ConnectionState.Ready.toInt)]
      rfl (by decide) (by decide)).2.1⟩

/-- C18 (at the failing input): the handler of `ConnectionRemoved` never writes `bestState_`;
with an idle, a failed and a ready connection the best state is Ready, and after the ready
connection is reported removed the remaining records are the idle and the failed one, the
best state over them would be Failure, and `bestState_` is still Ready. -/
theorem connectionRemoved_leaves_bestState :
    (∀ (m : VpnModel) (path : QString), (m.connectionRemoved path).bestState_ = m.bestState_) ∧
    VpnModel.idleFailureReady.items.map (fun c => (c.path_, c.state_)) =
      [(QStringLiteral "/net/connman/vpn/connection/home", ConnectionState.Idle.toInt),
        (QStringLiteral "/net/connman/vpn/connection/lab", ConnectionState.Failure.toInt),
        (QStringLiteral "/net/connman/vpn/connection/work", ConnectionState.Ready.toInt)] ∧
    VpnModel.idleFailureReady.bestState_ = ConnectionState.Ready.toInt ∧
    (VpnModel.idleFailureReady.connectionRemoved
        (QStringLiteral "/net/connman/vpn/connection/work")).items.map
        (fun c => (c.path_, c.state_)) =
      [(QStringLiteral "/net/connman/vpn/connection/home", ConnectionState.Idle.toInt),
        (QStringLiteral "/net/connman/vpn/connection/lab", ConnectionState.Failure.toInt)] ∧
    maxStateLoop (VpnModel.idleFailureReady.connectionRemoved
        (QStringLiteral "/net/connman/vpn/connection/work")).items ConnectionState.Idle.toInt =
      ConnectionState.Failure.toInt ∧
    (VpnModel.idleFailureReady.connectionRemoved
        (QStringLiteral "/net/connman/vpn/connection/work")).bestState_ =
      ConnectionState.Ready.toInt :=
  ⟨fun _ _ => rfl, by decide, by decide, by decide, by decide, by decide⟩

/-! ## Name order (C19) and the flags on modification (C20) -/

/-- C19: if the records other than the one at `currentIndex` are in non-decreasing order of
name, then after `updateConnection` has changed that record the whole collection is in
non-decreasing order of name; and connections that arrive with the names Bravo, Alpha and
Charlie, in that order, are held in the order Alpha, Bravo, Charlie. -/
theorem updateConnection_keeps_name_order
    (updateItem : VpnConnection → QVariantMap → Bool × VpnConnection) (m : VpnModel)
    (currentIndex : Nat) (conn : VpnConnection) (updateProperties : QVariantMap)
    (hconn : m.items.get? currentIndex = some conn)
    (hchanged : (updateItem conn
      (updateConnectionProperties conn.providerProperties_ updateProperties)).1 = true)
    (hsorted : NameSorted (m.items.eraseIdx currentIndex)) :
    NameSorted (m.updateConnection updateItem currentIndex updateProperties).items ∧
    ((((VpnModel.initial { tokens_ := [] } { files := [] }).connectionAdded updateNameAndState
        (QStringLiteral "/net/connman/vpn/connection/b")
        (wireNameState "Bravo" "idle")).connectionAdded updateNameAndState
        (QStringLiteral "/net/connman/vpn/connection/a")
        (wireNameState "Alpha" "idle")).connectionAdded updateNameAndState
        (QStringLiteral "/net/connman/vpn/connection/c")
        (wireNameState "Charlie" "idle")).items.map (fun c => c.name_) =
      [QStringLiteral "Alpha", QStringLiteral "Bravo", QStringLiteral "Charlie"] := by
  refine ⟨?_, by decide⟩
  obtain ⟨pre, post, hitems, hlen⟩ := get?_decompose _ _ _ hconn
  subst hlen
  rw [hitems, eraseIdx_middle] at hsorted
  rw [(updateConnection_changed updateItem m pre post conn updateProperties hitems hchanged).1]
  exact nameSorted_place _ _ hsorted

/-- Witness for C19: beside the records Alpha and Charlie, the record that comes last
is given the name Bravo, and is held between them afterwards. -/
theorem updateConnection_keeps_name_order_witness :
    NameSorted ((VpnModel.holding
        [VpnConnection.named "/vpn/a" "Alpha" .Idle,
          VpnConnection.named "/vpn/c" "Charlie" .Idle,
          VpnConnection.named "/vpn/b" "" .Disconnect] .Idle).items.eraseIdx 2) ∧
    ((VpnModel.holding
        [VpnConnection.named "/vpn/a" "Alpha" .Idle,
          VpnConnection.named "/vpn/c" "Charlie" .Idle,
          VpnConnection.named "/vpn/b" "" .Disconnect] .Idle).updateConnection
        updateNameAndState 2
        [(QStringLiteral "name", QVariant.string (QStringLiteral "Bravo"))]).items.map
        (fun c => c.name_) =
      [QStringLiteral "Alpha", QStringLiteral "Bravo", QStringLiteral "Charlie"] ∧
    NameSorted ((VpnModel.holding
        [VpnConnection.named "/vpn/a" "Alpha" .Idle,
          VpnConnection.named "/vpn/c" "Charlie" .Idle,
          VpnConnection.named "/vpn/b" "" .Disconnect] .Idle).updateConnection
        updateNameAndState 2
        [(QStringLiteral "name", QVariant.string (QStringLiteral "Bravo"))]).items :=
  ⟨by decide, by decide,
    (updateConnection_keeps_name_order updateNameAndState
      (VpnModel.holding
        [VpnConnection.named "/vpn/a" "Alpha" .Idle,
          VpnConnection.named "/vpn/c" "Charlie" .Idle,
          VpnConnection.named "/vpn/b" "" .Disconnect] .Idle)
      2 (VpnConnection.named "/vpn/b" "" .Disconnect)
      [(QStringLiteral "name", QVariant.string (QStringLiteral "Bravo"))]
      rfl (by decide) (by decide)).1⟩

/-- C20: `modifyConnection` returns with the model, and so the token set and the credential
store, as they were; the handler of the reply leaves a model as it finds it when the reply
to `Create` is an error, so that both are then as they were before `modifyConnection`; and
it is the handler of a reply without error that reconciles the two flags, as for a
connection that is switched to automatic with stored credentials. -/
theorem modifyConnection_defers_flags (m : VpnModel) (path : QString)
    (properties : QVariantMap) :
    (m.modifyConnection path properties).1 = m ∧
    (∀ (m1 : VpnModel) (k : ModifyContinuation) (tokenFileOk credentialsFileOk : Bool),
      m1.modifyConnectionFinished k true tokenFileOk credentialsFileOk = m1) ∧
    (∀ (k : ModifyContinuation) (tokenFileOk credentialsFileOk : Bool),
      ((m.modifyConnection path properties).1.modifyConnectionFinished k true tokenFileOk
          credentialsFileOk).tokenFiles_ = m.tokenFiles_ ∧
      ((m.modifyConnection path properties).1.modifyConnectionFinished k true tokenFileOk
          credentialsFileOk).credentials_ = m.credentials_) ∧
    ((VpnModel.idleFailureReady.modifyConnection
        (QStringLiteral "/net/connman/vpn/connection/lab")
        [(QStringLiteral "automaticUpDown", QVariant.bool true),
          (QStringLiteral "storeCredentials", QVariant.bool true)]).2.2.map
        (fun k => ((VpnModel.idleFailureReady.modifyConnectionFinished k false true
            true).tokenFiles_.tokens_,
          (VpnModel.idleFailureReady.modifyConnectionFinished k false true
            true).credentials_.files.map (fun f => f.1),
          (VpnModel.idleFailureReady.modifyConnectionFinished k true true
            true).tokenFiles_.tokens_,
          (VpnModel.idleFailureReady.modifyConnectionFinished k true true
            true).credentials_.files.map (fun f => f.1))) =
      some ([QStringLiteral "lab"], [QStringLiteral "lab"], [], [])) := by
  refine ⟨?_, fun _ _ _ _ => rfl, ?_, by decide⟩
  · unfold VpnModel.modifyConnection
    cases m.connection path <;> rfl
  · intro k t c
    have h : (m.modifyConnection path properties).1 = m := by
      unfold VpnModel.modifyConnection
      cases m.connection path <;> rfl
    rw [h]
    exact ⟨rfl, rfl⟩
/-! ## Identity, credentials flag and automatic connection (C21, C22, C23) -/

/-- C21 (at the failing input): the handler of `ConnectionAdded` makes a record only for a
path that has none, so the same path announced twice is held once; the reply handler of
`fetchVpnList` makes a record for every path of the reply without looking, so when a
connection is announced before the reply that lists it arrives, the collection holds two
records with its path. -/
theorem fetchVpnList_reply_duplicates_path :
    (((VpnModel.initial { tokens_ := [] } { files := [] }).connectionAdded updateNameAndState
        (QStringLiteral "/net/connman/vpn/connection/home")
        (wireNameState "Home" "idle")).connectionAdded updateNameAndState
        (QStringLiteral "/net/connman/vpn/connection/home")
        (wireNameState "Home" "ready")).items.map (fun c => c.path_) =
      [QStringLiteral "/net/connman/vpn/connection/home"] ∧
    (((VpnModel.initial { tokens_ := [] } { files := [] }).connectionAdded updateNameAndState
        (QStringLiteral "/net/connman/vpn/connection/home")
        (wireNameState "Home" "idle")).fetchVpnListFinished updateNameAndState false
        [(QStringLiteral "/net/connman/vpn/connection/home", wireNameState "Home" "idle"),
          (QStringLiteral "/net/connman/vpn/connection/lab",
            wireNameState "Lab" "idle")]).items.map (fun c => c.path_) =
      [QStringLiteral "/net/connman/vpn/connection/home",
        QStringLiteral "/net/connman/vpn/connection/home",
        QStringLiteral "/net/connman/vpn/connection/lab"] ∧
    ¬ UniquePaths
      (((VpnModel.initial { tokens_ := [] } { files := [] }).connectionAdded updateNameAndState
        (QStringLiteral "/net/connman/vpn/connection/home")
        (wireNameState "Home" "idle")).fetchVpnListFinished updateNameAndState false
        [(QStringLiteral "/net/connman/vpn/connection/home", wireNameState "Home" "idle"),
          (QStringLiteral "/net/connman/vpn/connection/lab", wireNameState "Lab" "idle")]) :=
  ⟨by decide, by decide, by decide⟩

/-- C22 (at the failing input): for the known connection `lab`, which has no credentials
file and the flag off, `connectionCredentialsEnabled` leaves flag and file in agreement and
so does `setConnectionCredentials` when the file can be written; when the file cannot be
opened, `setConnectionCredentials` returns with the flag on and no file; and when the file
is there and cannot be removed, `disableConnectionCredentials` returns with the flag off and
the file still there. -/
theorem credentials_flag_after_failed_file_operation :
    ((VpnModel.idleFailureReady.connectionCredentialsEnabled
        (QStringLiteral "/net/connman/vpn/connection/lab")).2.storeCredentialsFlag
        (QStringLiteral "/net/connman/vpn/connection/lab"),
      (VpnModel.idleFailureReady.connectionCredentialsEnabled
        (QStringLiteral "/net/connman/vpn/connection/lab")).2.credentials_.credentialsExist
        (QStringLiteral "lab")) = (some false, false) ∧
    ((VpnModel.idleFailureReady.setConnectionCredentials
        (QStringLiteral "/net/connman/vpn/connection/lab") [] true).storeCredentialsFlag
        (QStringLiteral "/net/connman/vpn/connection/lab"),
      (VpnModel.idleFailureReady.setConnectionCredentials
        (QStringLiteral "/net/connman/vpn/connection/lab") [] true).credentials_.credentialsExist
        (QStringLiteral "lab")) = (some true, true) ∧
    locationForObjectPath (QStringLiteral "/net/connman/vpn/connection/lab") =
      QStringLiteral "lab" ∧
    ((VpnModel.idleFailureReady.setConnectionCredentials
        (QStringLiteral "/net/connman/vpn/connection/lab") [] false).storeCredentialsFlag
        (QStringLiteral "/net/connman/vpn/connection/lab"),
      (VpnModel.idleFailureReady.setConnectionCredentials
        (QStringLiteral "/net/connman/vpn/connection/lab") [] false).credentials_.credentialsExist
        (QStringLiteral "lab")) = (some true, false) ∧
    (((VpnModel.idleFailureReady.setConnectionCredentials
        (QStringLiteral "/net/connman/vpn/connection/lab") [] true).disableConnectionCredentials
        (QStringLiteral "/net/connman/vpn/connection/lab") false).storeCredentialsFlag
        (QStringLiteral "/net/connman/vpn/connection/lab"),
      ((VpnModel.idleFailureReady.setConnectionCredentials
        (QStringLiteral "/net/connman/vpn/connection/lab") [] true).disableConnectionCredentials
        (QStringLiteral "/net/connman/vpn/connection/lab") false).credentials_.credentialsExist
        (QStringLiteral "lab")) = (some false, true) :=
  ⟨by decide, by decide, by decide, by decide, by decide⟩

/-- C23 (as stated, refuted): the connection `lab` has no token and is set to connect
automatically while the token file cannot be opened: the flag of the record is on and no
token exists; and for the connection whose token exists and cannot be removed, the flag is
off and the token still exists. -/
theorem setAutomaticConnection_failed_file_counterexample :
    (VpnModel.idleFailureReady.tokenFiles_.tokenExists (QStringLiteral "lab"),
      (VpnModel.idleFailureReady.setAutomaticConnection
        (QStringLiteral "/net/connman/vpn/connection/lab") true false).automaticUpDownFlag
        (QStringLiteral "/net/connman/vpn/connection/lab"),
      (VpnModel.idleFailureReady.setAutomaticConnection
        (QStringLiteral "/net/connman/vpn/connection/lab") true false).tokenFiles_.tokenExists
        (QStringLiteral "lab")) = (false, some true, false) ∧
    tokenForObjectPath (QStringLiteral "/net/connman/vpn/connection/lab") =
      QStringLiteral "lab" ∧
    (VpnModel.labAutomatic.tokenFiles_.tokenExists (QStringLiteral "lab"),
      (VpnModel.labAutomatic.setAutomaticConnection
        (QStringLiteral "/net/connman/vpn/connection/lab") false false).automaticUpDownFlag
        (QStringLiteral "/net/connman/vpn/connection/lab"),
      (VpnModel.labAutomatic.setAutomaticConnection
        (QStringLiteral "/net/connman/vpn/connection/lab") false false).tokenFiles_.tokenExists
        (QStringLiteral "lab")) = (true, some false, true) :=
  ⟨by decide, by decide, by decide⟩

/-- C23 (amended): for a known connection, `setAutomaticConnection` with `enabled` equal to
the existence of the token leaves the model as it is, and nothing is signalled; with
`enabled` different, the flag `automaticUpDown` of the record becomes `enabled` and the
change of the record is signalled, and the token exists afterwards exactly if `enabled`, no
other token being touched, when the file operation succeeds, while the token set is left as
it is when the file operation fails; for an unknown connection the model is left as it
is. -/
theorem setAutomaticConnection_toggles (m : VpnModel) (path : QString) (enabled : Bool)
    (tokenFileOk : Bool) (conn : VpnConnection)
    (hknown : m.connection path = some conn) (hnodup : m.tokenFiles_.tokens_.Nodup) :
    (enabled = m.tokenFiles_.tokenExists (tokenForObjectPath path) →
      m.setAutomaticConnection path enabled tokenFileOk = m) ∧
    (enabled ≠ m.tokenFiles_.tokenExists (tokenForObjectPath path) →
      (m.setAutomaticConnection path enabled tokenFileOk).automaticUpDownFlag path =
        some enabled ∧
      (m.setAutomaticConnection path enabled tokenFileOk).emitted =
        m.emitted ++ [ModelSignal.itemChanged conn.path_] ∧
      (tokenFileOk = true →
        (m.setAutomaticConnection path enabled tokenFileOk).tokenFiles_.tokenExists
          (tokenForObjectPath path) = enabled ∧
        ∀ other, other ≠ tokenForObjectPath path →
          (m.setAutomaticConnection path enabled tokenFileOk).tokenFiles_.tokenExists other =
            m.tokenFiles_.tokenExists other) ∧
      (tokenFileOk = false →
        (m.setAutomaticConnection path enabled tokenFileOk).tokenFiles_ = m.tokenFiles_)) ∧
    (∀ unknown, m.connection unknown = none →
      m.setAutomaticConnection unknown enabled tokenFileOk = m) := by
  refine ⟨?_, ?_, ?_⟩
  · intro he
    unfold VpnModel.setAutomaticConnection
    rw [hknown]
    simp only [ne_eq, he, not_true_eq_false, if_false]
  · intro hne
    have hrun : m.setAutomaticConnection path enabled tokenFileOk =
        { m with
          tokenFiles_ :=
            if enabled then m.tokenFiles_.ensureToken (tokenForObjectPath path) tokenFileOk
            else m.tokenFiles_.removeToken (tokenForObjectPath path) tokenFileOk
          items := modifyRecord path (fun c => { c with automaticUpDown_ := enabled }) m.items
          emitted := m.emitted ++ [ModelSignal.itemChanged conn.path_] } := by
      unfold VpnModel.setAutomaticConnection
      rw [hknown]
      simp only [ne_eq, hne, not_false_eq_true, if_true]
    rw [hrun]
    refine ⟨?_, rfl, ?_, ?_⟩
    · unfold VpnModel.automaticUpDownFlag VpnModel.connection
      simp only
      rw [find?_modifyRecord path (fun c => { c with automaticUpDown_ := enabled })
        (fun _ => rfl)]
      unfold VpnModel.connection at hknown
      rw [hknown]
      rfl
    · intro hok
      subst hok
      simp only
      cases enabled with
      | true =>
        simp only [if_true]
        refine ⟨tokenExists_ensureToken _ _, ?_⟩
        intro other ho
        apply Bool.eq_iff_iff.2
        rw [tokenExists_iff, tokenExists_iff, ensureToken_tokens]
        by_cases hm : tokenForObjectPath path ∈ m.tokenFiles_.tokens_
        · rw [if_pos hm]
        · rw [if_neg hm]
          simp [ho]
      | false =>
        simp only [Bool.false_eq_true, if_false]
        refine ⟨tokenExists_removeToken _ _ hnodup, ?_⟩
        intro other ho
        apply Bool.eq_iff_iff.2
        rw [tokenExists_iff, tokenExists_iff, removeToken_tokens]
        exact List.mem_erase_of_ne ho
    · intro hfail
      subst hfail
      have hwas : m.tokenFiles_.tokens_.contains (tokenForObjectPath path) = !enabled := by
        have h : enabled ≠ m.tokenFiles_.tokens_.contains (tokenForObjectPath path) := hne
        generalize m.tokenFiles_.tokens_.contains (tokenForObjectPath path) = b at h ⊢
        revert h
        cases enabled <;> cases b <;> decide
      cases enabled with
      | true =>
        simp only [if_true, TokenFileRepository.ensureToken, hwas, Bool.not_true,
          Bool.not_false, Bool.false_eq_true, if_false]
      | false =>
        simp only [Bool.false_eq_true, if_false, TokenFileRepository.removeToken, hwas,
          Bool.not_false, if_true]
  · intro unknown hu
    unfold VpnModel.setAutomaticConnection
    rw [hu]

/-- Witness for C23: the connection `lab`, whose token does not exist, is set to connect
automatically. -/
theorem setAutomaticConnection_toggles_witness :
    (VpnModel.idleFailureReady.setAutomaticConnection
        (QStringLiteral "/net/connman/vpn/connection/lab") true true).tokenFiles_.tokens_ =
      [QStringLiteral "lab"] ∧
    (VpnModel.idleFailureReady.setAutomaticConnection
        (QStringLiteral "/net/connman/vpn/connection/lab") true true).automaticUpDownFlag
        (QStringLiteral "/net/connman/vpn/connection/lab") = some true :=
  ⟨by decide,
    ((setAutomaticConnection_toggles VpnModel.idleFailureReady
      (QStringLiteral "/net/connman/vpn/connection/lab") true true
      (VpnConnection.named "/net/connman/vpn/connection/lab" "Lab" .Failure)
      rfl (by decide)).2.1 (by decide)).1⟩

/-! ## The best state when every record is disconnected (C28); a missing flag on
modification (C30) -/

/-- C28 (at the failing input): the loop of `updateConnection` never yields Disconnect, but
the best state is not that of the records after a removal: a ready and a disconnected
connection arrive, the best state is Ready; the ready one is reported removed, which leaves
`bestState_` alone; the remaining record is renamed, an `updateConnection` that does not
change its state, and afterwards every record is in the state Disconnect and the best
state is Ready, not Idle. -/
theorem bestState_stale_when_all_disconnect :
    (∀ l, maxStateLoop l ConnectionState.Idle.toInt ≠ ConnectionState.Disconnect.toInt) ∧
    (((VpnModel.initial { tokens_ := [] } { files := [] }).connectionAdded updateNameAndState
        (QStringLiteral "/net/connman/vpn/connection/work")
        (wireNameState "Work" "ready")).connectionAdded updateNameAndState
        (QStringLiteral "/net/connman/vpn/connection/cafe")
        (wireNameState "Cafe" "disconnect")).bestState_ = ConnectionState.Ready.toInt ∧
    (((((VpnModel.initial { tokens_ := [] } { files := [] }).connectionAdded updateNameAndState
        (QStringLiteral "/net/connman/vpn/connection/work")
        (wireNameState "Work" "ready")).connectionAdded updateNameAndState
        (QStringLiteral "/net/connman/vpn/connection/cafe")
        (wireNameState "Cafe" "disconnect")).connectionRemoved
        (QStringLiteral "/net/connman/vpn/connection/work")).propertyChanged
        updateNameAndState 0 (QStringLiteral "Name")
        (QVariant.string (QStringLiteral "Club"))).items.map (fun c => (c.name_, c.state_)) =
      [(QStringLiteral "Club", ConnectionState.Disconnect.toInt)] ∧
    (((((VpnModel.initial { tokens_ := [] } { files := [] }).connectionAdded updateNameAndState
        (QStringLiteral "/net/connman/vpn/connection/work")
        (wireNameState "Work" "ready")).connectionAdded updateNameAndState
        (QStringLiteral "/net/connman/vpn/connection/cafe")
        (wireNameState "Cafe" "disconnect")).connectionRemoved
        (QStringLiteral "/net/connman/vpn/connection/work")).propertyChanged
        updateNameAndState 0 (QStringLiteral "Name")
        (QVariant.string (QStringLiteral "Club"))).bestState_ =
      ConnectionState.Ready.toInt ∧
    ConnectionState.Ready.toInt ≠ ConnectionState.Idle.toInt := by
  refine ⟨?_, by decide, by decide, by decide, by decide⟩
  intro l
  rcases maxStateLoop_ranked l with h | h | h | h <;> rw [h] <;> decide

/-- C30 (as stated, refuted): the connection `lab` has its token and its credentials file
and is modified with properties that name neither flag; the reply to `Create` is not an
error, the two files cannot be removed, and both are still there afterwards. -/
theorem modifyConnection_failed_remove_counterexample :
    (VpnModel.labAutomatic.tokenFiles_.tokenExists (QStringLiteral "lab"),
      VpnModel.labAutomatic.credentials_.credentialsExist (QStringLiteral "lab")) =
      (true, true) ∧
    (tokenForObjectPath (QStringLiteral "/net/connman/vpn/connection/lab"),
      locationForObjectPath (QStringLiteral "/net/connman/vpn/connection/lab")) =
      (QStringLiteral "lab", QStringLiteral "lab") ∧
    (VpnModel.labAutomatic.modifyConnection
        (QStringLiteral "/net/connman/vpn/connection/lab")
        [(QStringLiteral "name", QVariant.string (QStringLiteral "Lab"))]).2.2.map
        (fun k =>
          ((VpnModel.labAutomatic.modifyConnectionFinished k false false
              false).tokenFiles_.tokenExists (QStringLiteral "lab"),
            (VpnModel.labAutomatic.modifyConnectionFinished k false false
              false).credentials_.credentialsExist (QStringLiteral "lab"))) =
      some (true, true) :=
  ⟨by decide, by decide, by decide⟩

/-- C30 (amended): for a known connection, `modifyConnection` leaves a handler for the reply
to `Create`, and when that reply is not an error: if the token exists and the properties
have no `automaticUpDown`, the token is removed when its file can be removed and the token
set is left as it is when it cannot; if the credentials file exists and the properties have
no `storeCredentials`, the file is removed when it can be and the credential store is left
as it is when it cannot; and a flag that equals the state of its repository leaves that
repository as it is. -/
theorem modifyConnection_missing_flag_is_false (m : VpnModel) (path : QString)
    (properties : QVariantMap) (conn : VpnConnection) (tokenFileOk credentialsFileOk : Bool)
    (hknown : m.connection path = some conn) (hnodup : m.tokenFiles_.tokens_.Nodup) :
    ∃ k, (m.modifyConnection path properties).2.2 = some k ∧
      (m.tokenFiles_.tokenExists (tokenForObjectPath path) = true →
        qmapFind (QStringLiteral "automaticUpDown") properties = none →
        (m.modifyConnectionFinished k false true credentialsFileOk).tokenFiles_.tokenExists
          (tokenForObjectPath path) = false) ∧
      (m.credentials_.credentialsExist (locationForObjectPath path) = true →
        qmapFind (QStringLiteral "storeCredentials") properties = none →
        (m.modifyConnectionFinished k false tokenFileOk true).credentials_.credentialsExist
          (locationForObjectPath path) = false) ∧
      ((qmapValue (QStringLiteral "automaticUpDown") properties).toBool =
          m.tokenFiles_.tokenExists (tokenForObjectPath path) →
        (m.modifyConnectionFinished k false tokenFileOk credentialsFileOk).tokenFiles_ =
          m.tokenFiles_) ∧
      ((qmapValue (QStringLiteral "storeCredentials") properties).toBool =
          m.credentials_.credentialsExist (locationForObjectPath path) →
        (m.modifyConnectionFinished k false tokenFileOk credentialsFileOk).credentials_ =
          m.credentials_) ∧
      (m.tokenFiles_.tokenExists (tokenForObjectPath path) = true →
        qmapFind (QStringLiteral "automaticUpDown") properties = none →
        (m.modifyConnectionFinished k false false credentialsFileOk).tokenFiles_ =
          m.tokenFiles_) ∧
      (m.credentials_.credentialsExist (locationForObjectPath path) = true →
        qmapFind (QStringLiteral "storeCredentials") properties = none →
        (m.modifyConnectionFinished k false tokenFileOk false).credentials_ =
          m.credentials_) := by
  refine ⟨_, modifyConnection_known m path properties conn hknown, ?_, ?_, ?_, ?_, ?_, ?_⟩
  · intro hex hnone
    have hauto : (qmapValue (QStringLiteral "automaticUpDown") properties).toBool = false := by
      unfold qmapValue
      rw [hnone]
      rfl
    simp only [VpnModel.modifyConnectionFinished, hauto, hex, Bool.false_eq_true, if_false,
      ne_eq, not_false_eq_true, if_true]
    exact tokenExists_removeToken _ _ hnodup
  · intro hex hnone
    have hstore : (qmapValue (QStringLiteral "storeCredentials") properties).toBool = false := by
      unfold qmapValue
      rw [hnone]
      rfl
    simp only [VpnModel.modifyConnectionFinished, hstore, hex, Bool.false_eq_true, if_false,
      ne_eq, not_false_eq_true, if_true]
    exact credentialsExist_removeCredentials _ _
  · intro heq
    simp only [VpnModel.modifyConnectionFinished, heq, Bool.false_eq_true, if_false, ne_eq,
      not_true_eq_false]
  · intro heq
    simp only [VpnModel.modifyConnectionFinished, heq, Bool.false_eq_true, if_false, ne_eq,
      not_true_eq_false]
  · intro hex hnone
    have hauto : (qmapValue (QStringLiteral "automaticUpDown") properties).toBool = false := by
      unfold qmapValue
      rw [hnone]
      rfl
    have hin : m.tokenFiles_.tokens_.contains (tokenForObjectPath path) = true := hex
    simp only [VpnModel.modifyConnectionFinished, hauto, hex, Bool.false_eq_true, if_false,
      ne_eq, not_false_eq_true, if_true, TokenFileRepository.removeToken, hin, Bool.not_false]
  · intro hex hnone
    have hstore : (qmapValue (QStringLiteral "storeCredentials") properties).toBool = false := by
      unfold qmapValue
      rw [hnone]
      rfl
    have hin : qmapContains m.credentials_.files (locationForObjectPath path) = true := hex
    simp only [VpnModel.modifyConnectionFinished, hstore, hex, Bool.false_eq_true, if_false,
      ne_eq, not_false_eq_true, if_true, CredentialsRepository.removeCredentials, hin,
      Bool.not_false]

/-- Witness for C30: the connection `lab`, with its token and its credentials file, is
modified with properties that name neither flag, and both are removed on the reply. -/
theorem modifyConnection_missing_flag_is_false_witness :
    (VpnModel.labAutomatic.tokenFiles_.tokenExists (QStringLiteral "lab") = true ∧
      VpnModel.labAutomatic.credentials_.credentialsExist (QStringLiteral "lab") = true) ∧
    ∃ k, (VpnModel.labAutomatic.modifyConnection
        (QStringLiteral "/net/connman/vpn/connection/lab")
        [(QStringLiteral "name", QVariant.string (QStringLiteral "Lab"))]).2.2 = some k ∧
      (VpnModel.labAutomatic.modifyConnectionFinished k false true true).tokenFiles_.tokenExists
        (tokenForObjectPath (QStringLiteral "/net/connman/vpn/connection/lab")) = false ∧
      (VpnModel.labAutomatic.modifyConnectionFinished k false true
        true).credentials_.credentialsExist
        (locationForObjectPath (QStringLiteral "/net/connman/vpn/connection/lab")) = false := by
  obtain ⟨k, hk, h1, h2, -, -, -, -⟩ := modifyConnection_missing_flag_is_false
    VpnModel.labAutomatic
    (QStringLiteral "/net/connman/vpn/connection/lab")
    [(QStringLiteral "name", QVariant.string (QStringLiteral "Lab"))]
    { VpnConnection.named "/net/connman/vpn/connection/lab" "Lab" .Failure with
      automaticUpDown_ := true, storeCredentials_ := true }
    true true rfl (by decide)
  exact ⟨⟨by decide, by decide⟩, k, hk, h1 (by decide) rfl, h2 (by decide) rfl⟩

/-! ## Relocation of the changed record (C25) and merge of provider properties (C26) -/

/-- C25 (as stated, refuted): in the collection Zulu, Alpha, Bravo the record Bravo is
renamed to Mike; the scan stops at Zulu, the first name greater than Mike, and the record is
moved to the front, before Alpha, although Alpha is not greater than Mike. -/
theorem updateConnection_unsorted_counterexample :
    ((VpnModel.holding
        [VpnConnection.named "/vpn/z" "Zulu" .Idle,
          VpnConnection.named "/vpn/a" "Alpha" .Idle,
          VpnConnection.named "/vpn/b" "Bravo" .Idle] .Idle).updateConnection
        updateNameAndState 2
        [(QStringLiteral "name", QVariant.string (QStringLiteral "Mike"))]).items.map
        (fun c => c.name_) =
      [QStringLiteral "Mike", QStringLiteral "Zulu", QStringLiteral "Alpha"] ∧
    qstringLt (QStringLiteral "Mike") (QStringLiteral "Alpha") = false ∧
    qstringLt (QStringLiteral "Alpha") (QStringLiteral "Mike") = true :=
  ⟨by decide, by decide, by decide⟩

/-- C25 (amended): after `updateConnection` of the record at `currentIndex` the other
records are in the order they were in, some of them before and the rest after the updated
record; and when the record was changed and the other records are in non-decreasing order
of name, no record before it has a name greater than its new name and every record after it
has one, so that it comes after every other record whose name is less than or equal to its
new name. Renaming Bravo to Delta in Alpha, Bravo, Charlie yields Alpha, Charlie, Delta. -/
theorem updateConnection_relocates_only_changed
    (updateItem : VpnConnection → QVariantMap → Bool × VpnConnection) (m : VpnModel)
    (currentIndex : Nat) (conn : VpnConnection) (updateProperties : QVariantMap)
    (hconn : m.items.get? currentIndex = some conn) :
    (∃ front back, m.items.eraseIdx currentIndex = front ++ back ∧
      (m.updateConnection updateItem currentIndex updateProperties).items =
        front ++ (updateItem conn
          (updateConnectionProperties conn.providerProperties_ updateProperties)).2 :: back ∧
      ((updateItem conn
          (updateConnectionProperties conn.providerProperties_ updateProperties)).1 = true →
        NameSorted (m.items.eraseIdx currentIndex) →
        (∀ c ∈ front, qstringLt (updateItem conn
          (updateConnectionProperties conn.providerProperties_ updateProperties)).2.name_
          c.name_ = false) ∧
        (∀ c ∈ back, qstringLt (updateItem conn
          (updateConnectionProperties conn.providerProperties_ updateProperties)).2.name_
          c.name_ = true))) ∧
    (((((VpnModel.initial { tokens_ := [] } { files := [] }).connectionAdded updateNameAndState
        (QStringLiteral "/net/connman/vpn/connection/b")
        (wireNameState "Bravo" "idle")).connectionAdded updateNameAndState
        (QStringLiteral "/net/connman/vpn/connection/a")
        (wireNameState "Alpha" "idle")).connectionAdded updateNameAndState
        (QStringLiteral "/net/connman/vpn/connection/c")
        (wireNameState "Charlie" "idle")).propertyChanged updateNameAndState 1
        (QStringLiteral "Name") (QVariant.string (QStringLiteral "Delta"))).items.map
        (fun c => (c.path_, c.name_)) =
      [(QStringLiteral "/net/connman/vpn/connection/a", QStringLiteral "Alpha"),
        (QStringLiteral "/net/connman/vpn/connection/c", QStringLiteral "Charlie"),
        (QStringLiteral "/net/connman/vpn/connection/b", QStringLiteral "Delta")] := by
  refine ⟨?_, by decide⟩
  obtain ⟨pre, post, hitems, hlen⟩ := get?_decompose _ _ _ hconn
  subst hlen
  rw [hitems, eraseIdx_middle]
  cases hch : (updateItem conn
      (updateConnectionProperties conn.providerProperties_ updateProperties)).1 with
  | false =>
    rw [updateConnection_unchanged updateItem m pre post conn updateProperties hitems hch]
    exact ⟨pre, post, rfl, rfl, fun h => Bool.noConfusion h⟩
  | true =>
    rw [(updateConnection_changed updateItem m pre post conn updateProperties hitems hch).1]
    refine ⟨_, _, (List.takeWhile_append_dropWhile _ _).symm, rfl, ?_⟩
    intro _ hsorted
    exact ⟨before_place_not_greater _ _, after_place_greater _ _ hsorted⟩

/-- Witness for C25: in the collection Alpha, Bravo, Charlie the record Bravo is renamed to
Delta. -/
theorem updateConnection_relocates_only_changed_witness :
    ((VpnModel.holding
        [VpnConnection.named "/vpn/a" "Alpha" .Idle,
          VpnConnection.named "/vpn/b" "Bravo" .Idle,
          VpnConnection.named "/vpn/c" "Charlie" .Idle] .Idle).updateConnection
        updateNameAndState 1
        [(QStringLiteral "name", QVariant.string (QStringLiteral "Delta"))]).items.map
        (fun c => c.name_) =
      [QStringLiteral "Alpha", QStringLiteral "Charlie", QStringLiteral "Delta"] ∧
    ∃ front back,
      (VpnModel.holding
        [VpnConnection.named "/vpn/a" "Alpha" .Idle,
          VpnConnection.named "/vpn/b" "Bravo" .Idle,
          VpnConnection.named "/vpn/c" "Charlie" .Idle] .Idle).items.eraseIdx 1 =
        front ++ back ∧
      ∀ c ∈ back, qstringLt (QStringLiteral "Delta") c.name_ = true := by
  obtain ⟨front, back, h1, -, h3⟩ := (updateConnection_relocates_only_changed
    updateNameAndState
    (VpnModel.holding
      [VpnConnection.named "/vpn/a" "Alpha" .Idle,
        VpnConnection.named "/vpn/b" "Bravo" .Idle,
        VpnConnection.named "/vpn/c" "Charlie" .Idle] .Idle)
    1 (VpnConnection.named "/vpn/b" "Bravo" .Idle)
    [(QStringLiteral "name", QVariant.string (QStringLiteral "Delta"))] rfl).1
  exact ⟨by decide, front, back, h1, (h3 (by decide) (by decide)).2⟩

/-- C26: when the update carries under `providerProperties` a map `updated`, the record after
`updateConnection` (for an `updateItem` that writes this role to the record) has as its
provider properties the merge of `updated` into those it had: every key of `updated` has
its value from `updated`, and every other key has what it had before, so that no key is
dropped. -/
theorem updateConnection_merges_providerProperties
    (updateItem : VpnConnection → QVariantMap → Bool × VpnConnection) (m : VpnModel)
    (currentIndex : Nat) (conn : VpnConnection) (updateProperties updated : QVariantMap)
    (hconn : m.items.get? currentIndex = some conn)
    (hcarries : qmapFind (QStringLiteral "providerProperties") updateProperties =
      some (QVariant.map updated))
    (hordered : QMapOrdered updated)
    (hwrites : ∀ c roles value,
      qmapFind (QStringLiteral "providerProperties") roles = some (QVariant.map value) →
      (updateItem c roles).2.providerProperties_ = value) :
    ∃ conn1 ∈ (m.updateConnection updateItem currentIndex updateProperties).items,
      conn1 = (updateItem conn
        (updateConnectionProperties conn.providerProperties_ updateProperties)).2 ∧
      conn1.providerProperties_ = insertAll updated conn.providerProperties_ ∧
      (∀ key value, qmapFind key updated = some value →
        qmapFind key conn1.providerProperties_ = some value) ∧
      (∀ key, qmapFind key updated = none →
        qmapFind key conn1.providerProperties_ = qmapFind key conn.providerProperties_) := by
  have hpp := hwrites conn _ _
    (updateConnectionProperties_providerProperties conn.providerProperties_ updateProperties
      updated hcarries)
  refine ⟨_, updateConnection_record_mem updateItem m currentIndex conn updateProperties hconn,
    rfl, hpp, ?_, ?_⟩
  · intro key value hk
    rw [hpp, insertAll_find _ _ _ hordered, hk]
  · intro key hk
    rw [hpp, insertAll_find _ _ _ hordered, hk]

/-- Witness for C26: a record with the provider properties `OpenVPN.Cipher` and
`OpenVPN.Port` receives an update with `OpenVPN.Port` and `OpenVPN.Proto`. -/
theorem updateConnection_merges_providerProperties_witness :
    QMapOrdered
      [(QStringLiteral "OpenVPN.Port", QVariant.string (QStringLiteral "443")),
        (QStringLiteral "OpenVPN.Proto", QVariant.string (QStringLiteral "udp"))] ∧
    ((VpnModel.holding
        [{ VpnConnection.named "/vpn/a" "Alpha" .Idle with
            providerProperties_ :=
              [(QStringLiteral "OpenVPN.Cipher", QVariant.string (QStringLiteral "AES")),
                (QStringLiteral "OpenVPN.Port",
                  QVariant.string (QStringLiteral "1194"))] }] .Idle).updateConnection
        updateProviderProperties 0
        [(QStringLiteral "providerProperties", QVariant.map
          [(QStringLiteral "OpenVPN.Port", QVariant.string (QStringLiteral "443")),
            (QStringLiteral "OpenVPN.Proto",
              QVariant.string (QStringLiteral "udp"))])]).items.map
        (fun c => c.providerProperties_) =
      [[(QStringLiteral "OpenVPN.Cipher", QVariant.string (QStringLiteral "AES")),
        (QStringLiteral "OpenVPN.Port", QVariant.string (QStringLiteral "443")),
        (QStringLiteral "OpenVPN.Proto", QVariant.string (QStringLiteral "udp"))]] ∧
    ∃ conn1 : VpnConnection, conn1.providerProperties_ =
      insertAll
        [(QStringLiteral "OpenVPN.Port", QVariant.string (QStringLiteral "443")),
          (QStringLiteral "OpenVPN.Proto", QVariant.string (QStringLiteral "udp"))]
        [(QStringLiteral "OpenVPN.Cipher", QVariant.string (QStringLiteral "AES")),
          (QStringLiteral "OpenVPN.Port", QVariant.string (QStringLiteral "1194"))] := by
  obtain ⟨conn1, -, -, h, -⟩ := updateConnection_merges_providerProperties
    updateProviderProperties
    (VpnModel.holding
      [{ VpnConnection.named "/vpn/a" "Alpha" .Idle with
          providerProperties_ :=
            [(QStringLiteral "OpenVPN.Cipher", QVariant.string (QStringLiteral "AES")),
              (QStringLiteral "OpenVPN.Port",
                QVariant.string (QStringLiteral "1194"))] }] .Idle)
    0
    { VpnConnection.named "/vpn/a" "Alpha" .Idle with
        providerProperties_ :=
          [(QStringLiteral "OpenVPN.Cipher", QVariant.string (QStringLiteral "AES")),
            (QStringLiteral "OpenVPN.Port", QVariant.string (QStringLiteral "1194"))] }
    [(QStringLiteral "providerProperties", QVariant.map
      [(QStringLiteral "OpenVPN.Port", QVariant.string (QStringLiteral "443")),
        (QStringLiteral "OpenVPN.Proto", QVariant.string (QStringLiteral "udp"))])]
    [(QStringLiteral "OpenVPN.Port", QVariant.string (QStringLiteral "443")),
      (QStringLiteral "OpenVPN.Proto", QVariant.string (QStringLiteral "udp"))]
    rfl rfl (by decide)
    (by
      intro c roles value h
      simp only [updateProviderProperties, h])
  exact ⟨by decide, rfl, conn1, h⟩

/-! ## Content of a block (C24), directives passed through (C27), `remote` over earlier
`port` and `proto` (C29) -/

/-- C24 (as stated, refuted): of the three lines between `<ca>` and `</ca>` the one that
begins with `#` is skipped as a comment, and the content written for the block is that of
the other two; and for the block `<ca>` opened while the block `<x>` is still open, the
content written is that of `<x>` followed by that of `<ca>`. -/
theorem embedded_comment_line_dropped_counterexample :
    (importProfile ImportEnv.writable
        [QStringLiteral "<ca>", QStringLiteral "# issued by the lab", QStringLiteral "MIIB",
          QStringLiteral "cipher AES", QStringLiteral "</ca>"]).map
        (fun s => (s.files.map (fun f => f.2), s.rv.map (fun e => e.1), s.extraOptions)) =
      some ([QStringLiteral "MIIB\ncipher AES\n"], [QStringLiteral "OpenVPN.CACert"], []) ∧
    blockContent
        [QStringLiteral "# issued by the lab", QStringLiteral "MIIB",
          QStringLiteral "cipher AES"] =
      QStringLiteral "# issued by the lab\nMIIB\ncipher AES\n" ∧
    QStringLiteral "MIIB\ncipher AES\n" ≠
      QStringLiteral "# issued by the lab\nMIIB\ncipher AES\n" ∧
    (importProfile ImportEnv.writable
        [QStringLiteral "<x>", QStringLiteral "foo", QStringLiteral "<ca>",
          QStringLiteral "MIIB", QStringLiteral "</ca>"]).map
        (fun s => s.files.map (fun f => f.2)) =
      some [QStringLiteral "foo\nMIIB\n"] ∧
    blockContent [QStringLiteral "MIIB"] = QStringLiteral "MIIB\n" :=
  ⟨by decide, by decide, by decide, by decide, by decide⟩

/-- C24 (amended): after an opening tag with the marker `marker` and lines `body` of which
none is an opening or a closing tag, the content is the content that was pending at the
opening tag followed by the lines of `body` that are not comment lines, in order, each
followed by a newline, and nothing else of the state has changed, so that no line was
interpreted; this content is what the closing tag hands on; no content is pending when the
importer meets the opening tag outside any embedded block; and without comment lines the
lines kept are the whole of `body`. -/
theorem embedded_content_accumulated (env : ImportEnv) (s0 : ImportState)
    (opening marker : QString) (body : List QString)
    (hopen : matchEmbeddedLeader opening = some marker)
    (hbody : ∀ l ∈ body, matchEmbeddedLeader l = none ∧ matchEmbeddedTrailer l = none) :
    processLines env s0 (opening :: body) =
      some { s0 with embeddedMarker := marker, embeddedContent := s0.embeddedContent ++ blockContent (contentLines body) } ∧
    (∀ closing, matchEmbeddedTrailer closing = some marker →
      processLines env s0 (opening :: body ++ [closing]) =
        some (closeEmbedded env
          { s0 with embeddedMarker := marker, embeddedContent := s0.embeddedContent ++ blockContent (contentLines body) }
          marker)) ∧
    (∀ before, processLines env ImportState.initial before = some s0 →
      s0.embeddedMarker = [] → s0.embeddedContent = []) ∧
    ((∀ l ∈ body, matchesCommentLeader l = false) → contentLines body = body) := by
  have hstart := processLines_block env s0 opening marker body hopen hbody
  refine ⟨hstart, ?_, ?_, ?_⟩
  · intro closing hclose
    obtain ⟨h1, h2⟩ := trailer_line_is_tag closing marker hclose
    have happ : opening :: body ++ [closing] = (opening :: body) ++ [closing] := rfl
    rw [happ, processLines_append, hstart]
    simp only [Option.some_bind, processLines]
    rw [processLine_trailer env _ closing marker h1 h2 hclose]
  · intro before h0 hout
    exact processLines_normalState env ImportState.initial s0 before (fun _ => rfl) h0 hout
  · intro hnone
    unfold contentLines
    rw [List.filter_eq_self]
    intro l hl
    rw [hnone l hl]
    rfl

/-- Witness for C24: the block `<ca>` with the lines `MIIB`, `; note` and `cipher AES`. -/
theorem embedded_content_accumulated_witness :
    blockContent
        (contentLines [QStringLiteral "MIIB", QStringLiteral "; note",
          QStringLiteral "cipher AES"]) =
      QStringLiteral "MIIB\ncipher AES\n" ∧
    processLines ImportEnv.writable ImportState.initial
        (QStringLiteral "<ca>" ::
          [QStringLiteral "MIIB", QStringLiteral "; note", QStringLiteral "cipher AES"]) =
      some { ImportState.initial with
        embeddedMarker := QStringLiteral "ca",
        embeddedContent := ImportState.initial.embeddedContent ++ blockContent
          (contentLines [QStringLiteral "MIIB", QStringLiteral "; note",
            QStringLiteral "cipher AES"]) } :=
  ⟨by decide,
    (embedded_content_accumulated ImportEnv.writable ImportState.initial (QStringLiteral "<ca>")
      (QStringLiteral "ca")
      [QStringLiteral "MIIB", QStringLiteral "; note", QStringLiteral "cipher AES"]
      (by decide) (by decide)).1⟩

/-- C27 (as stated, refuted): the line `</tls-auth>`, met outside an embedded block, is not a
comment and its first token is not a directive that the importer handles, yet it is taken
as a closing tag and dropped: of the lines `verb 3` and `</tls-auth>` only the first reaches
the extra options; and the line `<extra>` is taken as an opening tag. -/
theorem stray_tag_not_passed_through_counterexample :
    (importProfile ImportEnv.readOnly
        [QStringLiteral "verb 3", QStringLiteral "</tls-auth>"]).map
        (fun s => (s.extraOptions, s.embeddedMarker)) =
      some ([QStringLiteral "verb 3"], []) ∧
    matchesCommentLeader (QStringLiteral "</tls-auth>") = false ∧
    splitWhitespace (QStringLiteral "</tls-auth>") = [QStringLiteral "</tls-auth>"] ∧
    recognizedDirectives.contains (QStringLiteral "</tls-auth>") = false ∧
    (importProfile ImportEnv.readOnly
        [QStringLiteral "verb 3", QStringLiteral "<extra>"]).map
        (fun s => (s.extraOptions, s.embeddedMarker)) =
      some ([QStringLiteral "verb 3"], QStringLiteral "extra") :=
  ⟨by decide, by decide, by decide, by decide, by decide⟩

/-- C27 (amended): lines that are neither comments nor opening or closing tags and whose
first token is not a directive that the importer handles, met outside an embedded block,
are appended to the extra options as they are and in their order, and nothing else of the
state, the wire map included, changes; the end of the importer adds no key but
`OpenVPN.ConfigFile`; a profile of such lines yields what the end of the importer makes of
these extra options alone. -/
theorem unrecognized_directives_passed_through (env : ImportEnv) (st : ImportState)
    (lines : List QString) (hout : st.embeddedMarker = [])
    (hun : ∀ line ∈ lines, isUnrecognizedDirective line = true) :
    processLines env st lines = some { st with extraOptions := st.extraOptions ++ lines } ∧
    (∀ (s : ImportState) (target : QString), QStringLiteral "OpenVPN.ConfigFile" ≠ target →
      qmapFind target (writeExtraOptions env s).rv = qmapFind target s.rv) ∧
    processOpenVpnProvisioningFile env lines =
      some (writeExtraOptions env { ImportState.initial with extraOptions := lines }).rv := by
  refine ⟨processLines_unrecognized env st lines hout hun,
    fun s target ht => writeExtraOptions_find env s target ht, ?_⟩
  unfold processOpenVpnProvisioningFile importProfile
  rw [processLines_unrecognized env ImportState.initial lines rfl hun]
  rfl

/-- Witness for C27: after `remote vpn.example.com`, the lines `verb 3` and
`  push "route 10.0.0.0"` are appended as they are, and the profile of the three lines
yields the host and the reference to the file that holds the two lines. -/
theorem unrecognized_directives_passed_through_witness :
    processLines ImportEnv.writable
        { ImportState.initial with
          rv := [(QStringLiteral "Host", QVariant.string (QStringLiteral "vpn.example.com"))] }
        [QStringLiteral "verb 3", QStringLiteral "  push \"route 10.0.0.0\""] =
      some { ImportState.initial with
        rv := [(QStringLiteral "Host", QVariant.string (QStringLiteral "vpn.example.com"))],
        extraOptions := [] ++
          [QStringLiteral "verb 3", QStringLiteral "  push \"route 10.0.0.0\""] } ∧
    (importProfile ImportEnv.writable
        [QStringLiteral "remote vpn.example.com", QStringLiteral "verb 3",
          QStringLiteral "  push \"route 10.0.0.0\""]).map
        (fun s => (s.rv.map (fun e => e.1), s.files.map (fun f => f.2))) =
      some ([QStringLiteral "Host", QStringLiteral "OpenVPN.ConfigFile"],
        [QStringLiteral "verb 3\n  push \"route 10.0.0.0\"\n"]) :=
  ⟨(unrecognized_directives_passed_through ImportEnv.writable
      { ImportState.initial with
        rv := [(QStringLiteral "Host", QVariant.string (QStringLiteral "vpn.example.com"))] }
      [QStringLiteral "verb 3", QStringLiteral "  push \"route 10.0.0.0\""]
      rfl (by decide)).1,
    by decide⟩

end VpnModel
